import Mathlib

/-!
# WebRTC signalling middleware: a shallow embedding of `src/index.js`

The middleware keeps two pieces of mutable state, both created once per
call of the exported factory:

* `connectedUsers`, a plain JavaScript object used as a map from peer id to
  peer object (`{ id, key, queue, timeout }`);
* `streams`, a `WeakMap` from peer *objects* to the response object of the
  open event stream.

Peer objects are mutable and are shared between `connectedUsers`, `streams`
and the closures registered with `res.on('close', ...)`, so the embedding
uses an explicit heap of peer objects addressed by natural numbers.  Every
function below is a state transformer over `State`; a JavaScript exception
is the `threw` outcome, which keeps the state reached when it was raised.

Conventions of the embedding:

* clock values (`Date.now()`) and the `timeout` option are integers; every
  call of `Date.now()` is a separate argument of the handler that makes it;
* `crypto.randomBytes` is an oracle indexed by the number of calls made so
  far (`State.draws`); the HMAC primitive is a parameter of the environment;
* request parameters (`req.query.id`, `req.body.key`, ...) are strings;
* `connectedUsers` is a plain object, so a read `connectedUsers[k]` finds an
  own property first and otherwise a property inherited from
  `Object.prototype` (`constructor`, `toString`, ..., the names listed in
  `inheritedNames`); such a value is truthy and has no `id`, `key` or `queue`.
  As request parameters are strings it never passes a key check, so it is
  never bound, queued to or assigned to.  The assignment
  `connectedUsers[id] = peer` always creates or replaces an own property
  (the id `__proto__`, which `makeID` can issue only for `idLength = 9`, is
  not treated apart);
* a message payload is the text of its JSON value.
-/

namespace Signalling

/-! ## Data model -/

/-- Address of a peer object in the heap (object identity). -/
abbrev Addr := Nat

/-- Identity of a response object (`res`), that is, of one event stream. -/
abbrev Chan := Nat

/-- Text of a JSON value carried by a message. -/
abbrev Payload := String

/-- Values of the `timeout` field: a number of milliseconds or `Infinity`. -/
inductive Time where
  | ms (t : Int)
  | infinity
deriving DecidableEq, Repr

/-- The comparison `peer.timeout < now` of `getPeerList`. -/
def Time.lt (t : Time) (now : Int) : Bool :=
  match t with
  | .ms v => decide (v < now)
  | .infinity => false

/-- Messages written to an event stream or kept in a queue. -/
inductive Msg where
  | data (x : Payload)
  | connect (ids : List String)
  | disconnect (ids : List String)
  | presence (ids : List String)
  | signal (sender : String) (signal : Payload)
  | error (text : String)
  | raw (json : Payload)
deriving DecidableEq, Repr

/-- A peer object, `{ id, key, queue, timeout }`. -/
structure Peer where
  id : String
  key : String
  queue : List Msg
  timeout : Time
deriving DecidableEq, Repr

/-- Secret handed to `crypto.createHmac`: the text of `process.env.SECRET`
or the buffer returned by `crypto.randomBytes(256)`. -/
inductive Secret where
  | text (s : String)
  | buffer (bytes : List Nat)
deriving DecidableEq, Repr

/-- Options of the factory, the process environment and the platform
primitives the module calls. -/
structure Env where
  idLength : Nat
  timeout : Int
  presence : Bool
  SECRET : Option String
  hmac : Secret → String → String
  randomWord : Nat → Nat
  randomBuffer : Nat → List Nat

/-- The mutable state of one middleware instance. -/
structure State where
  heap : Addr → Peer
  next : Addr
  connectedUsers : List (String × Addr)
  streams : List (Addr × Chan)
  written : List (Chan × Msg)
  closeHandlers : List (Chan × Addr)
  draws : Nat

/-- Outcome of a piece of JavaScript: a value and the new state, or an
uncaught exception together with the state reached when it was thrown. -/
inductive Result (α : Type) where
  | ok (value : α) (s : State)
  | threw (s : State)

/-- State in which a computation ended. -/
def Result.state {α : Type} : Result α → State
  | .ok _ s => s
  | .threw s => s

/-- Value of a computation that returned. -/
def Result.value? {α : Type} : Result α → Option α
  | .ok v _ => some v
  | .threw _ => none

/-- What an HTTP handler answered. -/
inductive Reply where
  | credentials (id key : String)
  | success
  | sendStatus (code : Nat)
  | noResponse
  | threw
deriving DecidableEq, Repr

/-- How the `/events` handler ended. -/
inductive Outcome where
  | streaming
  | rejected
  | threw
deriving DecidableEq, Repr

/-! ## JavaScript objects and weak maps -/

/-- Value of a canonical array index (`"0"`, `"17"`, ... below `2^32 - 1`),
the keys that `Object.keys` lists first, in ascending numeric order. -/
def digitsValue : List Char → Nat → Option Nat
  | [], acc => some acc
  | c :: cs, acc =>
    if c.isDigit then digitsValue cs (acc * 10 + (c.toNat - 48)) else none

/-- Array index named by a property key, if the key is one. -/
def arrayIndex (key : String) : Option Nat :=
  match key.data with
  | [] => none
  | c :: cs =>
    if c = '0' ∧ cs ≠ [] then none
    else match digitsValue (c :: cs) 0 with
      | some n => if n < 4294967295 then some n else none
      | none => none

/-- Numeric order of two array-index keys. -/
def indexLE (a b : String) : Prop :=
  (arrayIndex a).getD 0 ≤ (arrayIndex b).getD 0

instance : DecidableRel indexLE := fun a b =>
  inferInstanceAs (Decidable ((arrayIndex a).getD 0 ≤ (arrayIndex b).getD 0))

/-- The result of `Object.keys(o)`, where `o` is the list of own properties
in creation order: array indices ascending, then the other keys in
creation order. -/
def objectKeys (o : List (String × Addr)) : List String :=
  let ks := o.map Prod.fst
  (ks.filter (fun k => (arrayIndex k).isSome)).insertionSort indexLE
    ++ ks.filter (fun k => !(arrayIndex k).isSome)

/-- The assignment `o[key] = value`: an existing property keeps its place,
a new one is created last. -/
def objectSet : List (String × Addr) → String → Addr → List (String × Addr)
  | [], key, value => [(key, value)]
  | (k, v) :: rest, key, value =>
    if k = key then (k, value) :: rest else (k, v) :: objectSet rest key value

/-- The statement `delete o[key]`. -/
def objectDelete (o : List (String × Addr)) (key : String) : List (String × Addr) :=
  o.filter (fun e => e.1 != key)

/-- The property names every plain object inherits from `Object.prototype`.
For a key that is not an own property of `connectedUsers`, the read
`connectedUsers[key]` is `undefined` unless the key is one of these names;
then it is a built-in function (for `__proto__`, the prototype object),
which is truthy and whose `id`, `key` and `queue` are `undefined`. -/
def inheritedNames : List String :=
  ["constructor", "__defineGetter__", "__defineSetter__", "hasOwnProperty",
    "__lookupGetter__", "__lookupSetter__", "isPrototypeOf", "propertyIsEnumerable",
    "toString", "valueOf", "__proto__", "toLocaleString"]

/-- A value used as a `WeakMap` key. -/
inductive WeakKey where
  | object (a : Addr)
  | string (s : String)

/-- The call `streams.get(peer)`. -/
def weakMapGet (m : List (Addr × Chan)) (peer : Addr) : Option Chan :=
  m.lookup peer

/-- The call `streams.has(k)`: a key that is not an object is never held. -/
def weakMapHas (m : List (Addr × Chan)) : WeakKey → Bool
  | .object a => (m.lookup a).isSome
  | .string _ => false

/-- The call `streams.delete(peer)`. -/
def weakMapDelete (m : List (Addr × Chan)) (peer : Addr) : List (Addr × Chan) :=
  m.filter (fun e => e.1 != peer)

/-- The call `streams.set(peer, res)`. -/
def weakMapSet (m : List (Addr × Chan)) (peer : Addr) (res : Chan) : List (Addr × Chan) :=
  weakMapDelete m peer ++ [(peer, res)]

/-- The call `xs.forEach(f)`: stops at the first exception. -/
def forEach (f : String → State → Result Unit) : List String → State → Result Unit
  | [], s => .ok () s
  | x :: xs, s =>
    match f x s with
    | .ok _ s1 => forEach f xs s1
    | .threw s1 => .threw s1

/-! ## Identity issuer -/

/-- The alphabet `options` of `makeID`. -/
def options : List Char :=
  "abcdefghijklmnopqrstuvwxyzABCDEFGHIJKLMNOPQRSTUVWXYZ0123456789_$".data

/-- The call `crypto.randomBytes(4).readUInt32BE(0)`: an unsigned 32-bit value. -/
def readUInt32BE (env : Env) (draw : Nat) : Nat :=
  env.randomWord draw % 4294967296

/-- The index `Math.floor(word / 0xFFFFFFFF * options.length)`.  On the
32-bit inputs the double-precision result equals the exact quotient. -/
def digitIndex (word : Nat) : Nat :=
  word * options.length / 4294967295

/-- The loop of `makeID`: `remaining` is `length - chars.length`; an index
past the end of `options` reads `undefined` (here `none`). -/
def makeIDLoop (env : Env) : Nat → Nat → List (Option Char) → List (Option Char) × Nat
  | 0, draws, chars => (chars, draws)
  | remaining + 1, draws, chars =>
    let digit := options.get? (digitIndex (readUInt32BE env draws))
    makeIDLoop env remaining (draws + 1) (chars ++ [digit])

/-- The call `chars.join('')`: `undefined` elements contribute nothing. -/
def join (chars : List (Option Char)) : String :=
  String.mk (chars.filterMap id)

/-- The function `makeID(length)`, with the number of random draws made
before and after. -/
def makeID (env : Env) (draws : Nat) (length : Nat) : String × Nat :=
  let r := makeIDLoop env length draws []
  (join r.1, r.2)

/-- The function `validateID(id, length)`:
`!!id.match(/^[a-zA-Z0-9]+$/) && id.length === length`. -/
def validateID (id : String) (length : Nat) : Bool :=
  (!id.data.isEmpty && id.data.all Char.isAlphanum) && id.data.length == length

/-- The function `makeKey(id)`: the secret is `process.env.SECRET`, or a
buffer drawn by this very call when that is unset or empty. -/
def makeKey (env : Env) (draws : Nat) (id : String) : String × Nat :=
  match env.SECRET with
  | some s =>
    if s = "" then (env.hmac (.buffer (env.randomBuffer draws)) id, draws + 1)
    else (env.hmac (.text s) id, draws)
  | none => (env.hmac (.buffer (env.randomBuffer draws)) id, draws + 1)

/-! ## Delivery engine and presence tracker -/

/-- The function `app.sendRaw(to, message)`.  When `connectedUsers[to]` is
not an own property it is `undefined` or an inherited function; neither has
a stream or a `queue`, and the call throws. -/
def sendRaw (toID : String) (message : Msg) (s : State) : Result Unit :=
  match s.connectedUsers.lookup toID with
  | none => .threw s
  | some peer =>
    match weakMapGet s.streams peer with
    | some stream => .ok () { s with written := s.written ++ [(stream, message)] }
    | none =>
      .ok () { s with
        heap := Function.update s.heap peer
          { s.heap peer with queue := (s.heap peer).queue ++ [message] } }

/-- The function `app.sendData(to, data)`. -/
def sendData (toID : String) (data : Payload) (s : State) : Result Unit :=
  sendRaw toID (.data data) s

/-- The first loop of `app.getPeerList`, over the keys listed on entry. -/
def sweep (now : Int) : List String → List String → State → Result (List String)
  | [], removed, s => .ok removed s
  | key :: keys, removed, s =>
    match s.connectedUsers.lookup key with
    | none => .threw s
    | some peer =>
      if (s.heap peer).timeout.lt now && !weakMapHas s.streams (.string key) then
        sweep now keys (removed ++ [key])
          { s with connectedUsers := objectDelete s.connectedUsers key }
      else sweep now keys removed s

/-- The function `app.getPeerList()`; `now` is its `Date.now()`. -/
def getPeerList (env : Env) (now : Int) (s : State) : Result (List String) :=
  match sweep now (objectKeys s.connectedUsers) [] s with
  | .threw s1 => .threw s1
  | .ok removed s1 =>
    let connected := objectKeys s1.connectedUsers
    if env.presence && decide (removed.length > 0) then
      match forEach (fun peerID => sendRaw peerID (.disconnect removed)) connected s1 with
      | .ok _ s2 => .ok connected s2
      | .threw s2 => .threw s2
    else .ok connected s1

/-- The function `app.broadcastRaw(message)`. -/
def broadcastRaw (env : Env) (now : Int) (message : Msg) (s : State) : Result Unit :=
  match getPeerList env now s with
  | .threw s1 => .threw s1
  | .ok peers s1 => forEach (fun peerID => sendRaw peerID message) peers s1

/-- The function `app.broadcastData(data)`. -/
def broadcastData (env : Env) (now : Int) (data : Payload) (s : State) : Result Unit :=
  broadcastRaw env now (.data data) s

/-- The notification loop shared by `/connect` and the recovery branch of
`/events`: `{ connect: [id] }` to every listed peer but `id` itself. -/
def notifyConnect (id : String) (connected : List String) (s : State) : Result Unit :=
  forEach (fun peerID s1 => if peerID != id then sendRaw peerID (.connect [id]) s1 else .ok () s1)
    connected s

/-! ## Request handlers -/

/-- The handler of `GET /connect`; `now1` is the clock read for the new
record, `now2` the one read by the sweep. -/
def connect (env : Env) (now1 now2 : Int) (s : State) : Reply × State :=
  let i := makeID env s.draws env.idLength
  let k := makeKey env i.2 i.1
  let peer := s.next
  let s1 : State := { s with
    draws := k.2
    next := s.next + 1
    heap := Function.update s.heap peer
      { id := i.1, key := k.1, queue := [], timeout := .ms (now1 + env.timeout) } }
  let s2 : State := { s1 with connectedUsers := objectSet s1.connectedUsers i.1 peer }
  if env.presence then
    match getPeerList env now2 s2 with
    | .threw s3 => (.threw, s3)
    | .ok connected s3 =>
      match notifyConnect i.1 connected s3 with
      | .threw s4 => (.threw, s4)
      | .ok _ s4 => (.credentials (s4.heap peer).id (s4.heap peer).key, s4)
  else (.credentials (s2.heap peer).id (s2.heap peer).key, s2)

/-- The handler of `GET /disconnect`.  For an id that names an inherited
property `peer` is a function, `peer.key` is `undefined` and the key check
fails. -/
def disconnect (env : Env) (now : Int) (id key : String) (s : State) : Reply × State :=
  match s.connectedUsers.lookup id with
  | none =>
    if id ∈ inheritedNames then (.sendStatus 401, s) else (.sendStatus 500, s)
  | some peer =>
    if (s.heap peer).key != key then (.sendStatus 401, s)
    else
      let s1 : State := { s with streams := weakMapDelete s.streams peer }
      let s2 : State := { s1 with
        heap := Function.update s1.heap peer { s1.heap peer with timeout := .ms 0 } }
      match getPeerList env now s2 with
      | .threw s3 => (.threw, s3)
      | .ok _ s3 => (.noResponse, s3)

/-- The loop `while (peer.queue && peer.queue.length > 0) res.json(peer.queue.shift())`,
by recursion on the queue still to be written. -/
def drain (res : Chan) (peer : Addr) : List Msg → State → State
  | [], s => s
  | m :: rest, s =>
    drain res peer rest { s with
      heap := Function.update s.heap peer { s.heap peer with queue := rest }
      written := s.written ++ [(res, m)] }

/-- The part of the `/events` handler after the peer object is known:
key check, replay of the queue, presence list, binding, close listener. -/
def attach (env : Env) (now : Int) (res : Chan) (key : String) (peer : Addr) (s : State) :
    Outcome × State :=
  if key != (s.heap peer).key then
    (.rejected, { s with written := s.written ++ [(res, .error "incorrect key")] })
  else
    let s1 := drain res peer (s.heap peer).queue s
    let bind (s2 : State) : State := { s2 with
      streams := weakMapSet s2.streams peer res
      closeHandlers := s2.closeHandlers ++ [(res, peer)] }
    if env.presence then
      match getPeerList env now s1 with
      | .threw s2 => (.threw, s2)
      | .ok connected s2 =>
        (.streaming, bind { s2 with written := s2.written ++ [(res, .presence connected)] })
    else (.streaming, bind s1)

/-- The handler of `GET /events`; `res` is the response object of the
request, `now1` the clock of the sweep in the recovery branch and `now2`
the clock of the sweep that builds the presence list.  For an id that names
an inherited property `peer` is a function: `!peer` is false, the recovery
branch is skipped, and `req.query.key !== peer.key` holds as `peer.key` is
`undefined`. -/
def events (env : Env) (now1 now2 : Int) (res : Chan) (id key : String) (s : State) :
    Outcome × State :=
  match s.connectedUsers.lookup id with
  | some peer => attach env now2 res key peer s
  | none =>
    if id ∈ inheritedNames then
      (.rejected, { s with written := s.written ++ [(res, .error "incorrect key")] })
    else if validateID id env.idLength then
      let k1 := makeKey env s.draws id
      if k1.1 = key then
        let k2 := makeKey env k1.2 id
        let peer := s.next
        let s1 : State := { s with
          draws := k2.2
          next := s.next + 1
          heap := Function.update s.heap peer
            { id := id, key := k2.1, queue := [], timeout := .infinity } }
        let s2 : State := { s1 with connectedUsers := objectSet s1.connectedUsers id peer }
        if env.presence then
          match getPeerList env now1 s2 with
          | .threw s3 => (.threw, s3)
          | .ok connected s3 =>
            match notifyConnect (s3.heap peer).id connected s3 with
            | .threw s4 => (.threw, s4)
            | .ok _ s4 => attach env now2 res key peer s4
        else attach env now2 res key peer s2
      else (.threw, { s with draws := k1.2 })
    else (.threw, s)

/-- The listener registered by `/events` with `res.on('close', ...)`, for
the peer object it captured.  The sweep it schedules with `setTimeout` is a
later call of `getPeerList`. -/
def closeListener (env : Env) (now : Int) (peer : Addr) (s : State) : State :=
  { s with
    heap := Function.update s.heap peer { s.heap peer with timeout := .ms (now + env.timeout) }
    streams := weakMapDelete s.streams peer }

/-- The event `close` on the response `res`: every listener registered on
it runs, in registration order. -/
def close (env : Env) (now : Int) (res : Chan) (s : State) : State :=
  (s.closeHandlers.filter (fun h => h.1 == res)).foldl
    (fun acc h => closeListener env now h.2 acc) s

/-- The handler of `POST /send-signal/:to`.  For a sender id that names an
inherited property `peer.key` is `undefined` and the key check fails; for
such a target `to.id` is `undefined`, and `sendRaw(undefined, ...)` reads
the property `undefined` of `connectedUsers`. -/
def sendSignal (toID id key : String) (signal : Payload) (s : State) : Reply × State :=
  match s.connectedUsers.lookup id with
  | none =>
    if id ∈ inheritedNames then (.sendStatus 401, s) else (.sendStatus 500, s)
  | some peer =>
    if key != (s.heap peer).key then (.sendStatus 401, s)
    else
      match s.connectedUsers.lookup toID with
      | none =>
        if toID ∈ inheritedNames then
          match sendRaw "undefined" (.signal (s.heap peer).id signal) s with
          | .threw s1 => (.threw, s1)
          | .ok _ s1 => (.success, s1)
        else (.sendStatus 404, s)
      | some target =>
        match sendRaw (s.heap target).id (.signal (s.heap peer).id signal) s with
        | .threw s1 => (.threw, s1)
        | .ok _ s1 => (.success, s1)

/-- The state of a new middleware instance. -/
def initial : State :=
  { heap := fun _ => { id := "", key := "", queue := [], timeout := .infinity }
    next := 0
    connectedUsers := []
    streams := []
    written := []
    closeHandlers := []
    draws := 0 }

/-! ## Vocabulary of the statements -/

/-- Representation invariant of the embedding: `connectedUsers` holds every
key once and every peer object under one key only, and `streams` holds
every peer object once and every response object for one peer only.  It
holds in every state a middleware instance can reach
(`Reachable.wellFormed`). -/
structure WellFormed (s : State) : Prop where
  keys : (s.connectedUsers.map Prod.fst).Nodup
  objects : (s.connectedUsers.map Prod.snd).Nodup
  bound : (s.streams.map Prod.fst).Nodup
  channels : (s.streams.map Prod.snd).Nodup

/-- Everything written so far to the event stream `stream`, oldest first. -/
def streamLog (s : State) (stream : Chan) : List Msg :=
  (s.written.filter (fun w => w.1 == stream)).map Prod.snd

/-- Between the states `s` and `s1` the peer object `peer` was sent exactly
the messages `ms`: written to its event stream when one is bound in `s`,
appended to its queue otherwise. -/
def Received (s s1 : State) (peer : Addr) (ms : List Msg) : Prop :=
  match weakMapGet s.streams peer with
  | some stream =>
    streamLog s1 stream = streamLog s stream ++ ms ∧ (s1.heap peer).queue = (s.heap peer).queue
  | none => (s1.heap peer).queue = (s.heap peer).queue ++ ms

/-- The test `connectedUsers[key].timeout < now` on a property of `connectedUsers`. -/
def expiredEntry (heap : Addr → Peer) (now : Int) (e : String × Addr) : Bool :=
  (heap e.2).timeout.lt now

/-- The same test on a key, through `connectedUsers[key]`. -/
def expiredKey (s : State) (now : Int) (key : String) : Bool :=
  match s.connectedUsers.lookup key with
  | some peer => (s.heap peer).timeout.lt now
  | none => false

/-- The identifiers a call of `getPeerList` at clock `now` removes. -/
def removedBy (s : State) (now : Int) : List String :=
  (objectKeys s.connectedUsers).filter (expiredKey s now)

/-- The state left by the first loop of `getPeerList` at clock `now` when
every key is held once: the entries whose timeout is below `now` are gone. -/
def swept (s : State) (now : Int) : State :=
  { s with connectedUsers := s.connectedUsers.filter (fun e => !expiredEntry s.heap now e) }

/-- States a middleware instance can reach: from the state of a new
instance by the four request handlers, the `close` event of a response
object, and the functions exported on `app`.  A response object handed to
`/events` is a new one: no close listener is registered on it yet. -/
inductive Reachable (env : Env) : State → Prop where
  | initial : Reachable env initial
  | connect (s : State) (now1 now2 : Int) :
      Reachable env s → Reachable env (connect env now1 now2 s).2
  | disconnect (s : State) (now : Int) (id key : String) :
      Reachable env s → Reachable env (disconnect env now id key s).2
  | events (s : State) (now1 now2 : Int) (res : Chan) (id key : String) :
      Reachable env s → res ∉ s.closeHandlers.map Prod.fst →
      Reachable env (events env now1 now2 res id key s).2
  | close (s : State) (now : Int) (res : Chan) :
      Reachable env s → Reachable env (close env now res s)
  | sendSignal (s : State) (toID id key : String) (signal : Payload) :
      Reachable env s → Reachable env (sendSignal toID id key signal s).2
  | sendRaw (s : State) (toID : String) (message : Msg) :
      Reachable env s → Reachable env (sendRaw toID message s).state
  | broadcastRaw (s : State) (now : Int) (message : Msg) :
      Reachable env s → Reachable env (broadcastRaw env now message s).state
  | getPeerList (s : State) (now : Int) :
      Reachable env s → Reachable env (getPeerList env now s).state

/-- Invariant of the reachable states: the representation invariant, every
registered peer object is allocated, and every bound response object has
its close listener. -/
structure Invariant (s : State) : Prop where
  wellFormed : WellFormed s
  allocated : ∀ e ∈ s.connectedUsers, e.2 < s.next
  listened : ∀ b ∈ s.streams, b.2 ∈ s.closeHandlers.map Prod.fst

/-- The parts of the state that delivery leaves alone. -/
def SameShape (s s1 : State) : Prop :=
  s1.connectedUsers = s.connectedUsers ∧ s1.streams = s.streams ∧ s1.next = s.next ∧
    s1.closeHandlers = s.closeHandlers

/-- The character class `[a-zA-Z0-9]`. -/
def alphanumeric (c : Char) : Prop :=
  (97 ≤ c.toNat ∧ c.toNat ≤ 122) ∨ (65 ≤ c.toNat ∧ c.toNat ≤ 90) ∨ (48 ≤ c.toNat ∧ c.toNat ≤ 57)

instance (c : Char) : Decidable (alphanumeric c) :=
  inferInstanceAs (Decidable ((97 ≤ c.toNat ∧ c.toNat ≤ 122) ∨ (65 ≤ c.toNat ∧ c.toNat ≤ 90)
    ∨ (48 ≤ c.toNat ∧ c.toNat ≤ 57)))

/-- Further invariant of the reachable states: a registered peer object
carries the id it is registered under, and only allocated peer objects are
bound. -/
structure Consistent (s : State) : Prop where
  ids : ∀ e ∈ s.connectedUsers, (s.heap e.2).id = e.1
  boundAllocated : ∀ b ∈ s.streams, b.1 < s.next

/-- What every step but the creation of a record and the binding of a
stream guarantees: nothing is added to the registry or to the bindings, no
object is allocated and no `id` field changes. -/
def Calm (s s1 : State) : Prop :=
  (∀ e ∈ s1.connectedUsers, e ∈ s.connectedUsers) ∧ (∀ b ∈ s1.streams, b ∈ s.streams) ∧
    s1.next = s.next ∧ ∀ a, (s1.heap a).id = (s.heap a).id

/-- The state after the first statements of the `/connect` handler: the
new record is stored and no sweep has run. -/
def registered (env : Env) (now1 : Int) (s : State) : State :=
  { s with
    draws := (makeKey env (makeID env s.draws env.idLength).2
      (makeID env s.draws env.idLength).1).2
    next := s.next + 1
    heap := Function.update s.heap s.next
      { id := (makeID env s.draws env.idLength).1
        key := (makeKey env (makeID env s.draws env.idLength).2
          (makeID env s.draws env.idLength).1).1
        queue := []
        timeout := .ms (now1 + env.timeout) }
    connectedUsers := objectSet s.connectedUsers (makeID env s.draws env.idLength).1 s.next }

/-- The state after the record is created again in the recovery branch of
the `/events` handler, before its sweep. -/
def recovered (env : Env) (id : String) (s : State) : State :=
  { s with
    draws := (makeKey env (makeKey env s.draws id).2 id).2
    next := s.next + 1
    heap := Function.update s.heap s.next
      { id := id
        key := (makeKey env (makeKey env s.draws id).2 id).1
        queue := []
        timeout := .infinity }
    connectedUsers := objectSet s.connectedUsers id s.next }

/-- The messages a call of `getPeerList` at clock `now` sends to each peer
it leaves in the registry: `{ disconnect: removed }` when presence is on
and something is removed, nothing otherwise. -/
def notice (env : Env) (s : State) (now : Int) : List Msg :=
  if env.presence && !(removedBy s now).isEmpty then [.disconnect (removedBy s now)] else []

/-- The id that `/connect` issues in the state `s`. -/
abbrev issuedId (env : Env) (s : State) : String :=
  (makeID env s.draws env.idLength).1

/-- The key that `/connect` issues in the state `s`. -/
abbrev issuedKey (env : Env) (s : State) : String :=
  (makeKey env (makeID env s.draws env.idLength).2 (makeID env s.draws env.idLength).1).1

/-- The test that sends `/events` into its recovery branch in the state `s`:
`id` is no property of `connectedUsers`, own or inherited, `validateID`
accepts it and `key` is `makeKey(id)`. -/
def recovers (env : Env) (id key : String) (s : State) : Bool :=
  (s.connectedUsers.lookup id).isNone && !decide (id ∈ inheritedNames)
    && validateID id env.idLength && decide ((makeKey env s.draws id).1 = key)

/-- `Later env id s s1`: the middleware gets from the state `s` to `s1` by
any number of requests, `close` events and calls of the exported
functions, none of which stores a record under `id`: no `/connect` issues
`id`, and no `/events` request for `id` passes the recovery test.  As in
`Reachable`, a response object handed to `/events` is a new one. -/
inductive Later (env : Env) (id : String) (s : State) : State → Prop where
  | here : Later env id s s
  | connect {s1 : State} (now1 now2 : Int) :
      Later env id s s1 → issuedId env s1 ≠ id → Later env id s (connect env now1 now2 s1).2
  | disconnect {s1 : State} (now : Int) (id1 key : String) :
      Later env id s s1 → Later env id s (disconnect env now id1 key s1).2
  | events {s1 : State} (now1 now2 : Int) (res : Chan) (id1 key : String) :
      Later env id s s1 → res ∉ s1.closeHandlers.map Prod.fst →
      (id1 = id → recovers env id1 key s1 = false) →
      Later env id s (events env now1 now2 res id1 key s1).2
  | close {s1 : State} (now : Int) (res : Chan) :
      Later env id s s1 → Later env id s (close env now res s1)
  | sendSignal {s1 : State} (toID id1 key : String) (signal : Payload) :
      Later env id s s1 → Later env id s (sendSignal toID id1 key signal s1).2
  | sendRaw {s1 : State} (toID : String) (message : Msg) :
      Later env id s s1 → Later env id s (sendRaw toID message s1).state
  | broadcastRaw {s1 : State} (now : Int) (message : Msg) :
      Later env id s s1 → Later env id s (broadcastRaw env now message s1).state
  | getPeerList {s1 : State} (now : Int) :
      Later env id s s1 → Later env id s (getPeerList env now s1).state

/-! ## Sample runs -/

/-- A stand-in for HMAC-SHA256 in the sample runs. -/
def sampleHmac (secret : Secret) (id : String) : String :=
  match secret with
  | .text t => t ++ "/" ++ id
  | .buffer b => String.mk (List.replicate (b.headD 0) '#') ++ "/" ++ id

/-- The default options (`idLength = 16`, `timeout = 10000`, presence on)
with `SECRET` set; the random source gives `a` sixteen times, then `b`. -/
def sampleEnv : Env :=
  { idLength := 16
    timeout := 10000
    presence := true
    SECRET := some "secret"
    hmac := sampleHmac
    randomWord := fun n => if n < 16 then 0 else 67108864
    randomBuffer := fun n => List.replicate 256 (n % 256) }

/-- Sample run: `/connect` at clock 0 on a new instance. -/
def sampleConnected : State :=
  (connect sampleEnv 0 0 initial).2

/-- Sample run, continued: `/events` at clock 1 with the credentials that
`/connect` returned, on the response object 0. -/
def sampleStreaming : State :=
  (events sampleEnv 1 1 0 "aaaaaaaaaaaaaaaa" "secret/aaaaaaaaaaaaaaaa" sampleConnected).2

/-- Sample run, continued: the event stream closes at clock 2. -/
def sampleDetached : State :=
  close sampleEnv 2 0 sampleStreaming

/-- Second sample run: `/connect` at clock 0 and again at clock 5000. -/
def sampleTwoPeers : State :=
  (connect sampleEnv 5000 5000 sampleConnected).2

/-- Second sample run, continued: `A`, `B`, `C` sent to the second peer. -/
def sampleQueued : State :=
  (forEach (fun m => sendRaw "bbbbbbbbbbbbbbbb" (.raw m)) ["A", "B", "C"] sampleTwoPeers).state

/-- Second sample run, continued: the second peer opens its event stream
at clock 12000, on the response object 0. -/
def sampleAttached : Outcome × State :=
  events sampleEnv 12000 12000 0 "bbbbbbbbbbbbbbbb" "secret/bbbbbbbbbbbbbbbb" sampleQueued

/-- A random source that always returns `0xFFFFFFFF`. -/
def maxWordEnv : Env :=
  { sampleEnv with randomWord := fun _ => 4294967295 }

/-- The sample environment without `SECRET`. -/
def noSecretEnv : Env :=
  { sampleEnv with SECRET := none }

/-- Third sample run: the streaming peer of the first run opens a second
event stream with the same credentials at clock 2, on the response object 1. -/
def sampleReattached : State :=
  (events sampleEnv 2 2 1 "aaaaaaaaaaaaaaaa" "secret/aaaaaaaaaaaaaaaa" sampleStreaming).2

/-- Third sample run, continued: the first event stream closes at clock 3. -/
def sampleFirstClosed : State :=
  close sampleEnv 3 0 sampleReattached

/-- Fourth sample run: the first run with the sweep of clock 10001 after it. -/
def sampleSwept : State :=
  (getPeerList sampleEnv 10001 sampleStreaming).state

/-- Fifth sample run: `/connect` at clock 0, then `/events` with the
credentials returned only at clock 10001, on the response object 0. -/
def sampleLate : Outcome × State :=
  events sampleEnv 10001 10001 0 "aaaaaaaaaaaaaaaa" "secret/aaaaaaaaaaaaaaaa" sampleConnected

/-- Sixth sample run: `/connect` at clock 0 and again at clock 10001. -/
def sampleLateJoin : Reply × State :=
  connect sampleEnv 10001 10001 sampleConnected

/-- Options with `idLength = 1`; the random source gives `b`, then `1`. -/
def shortEnv : Env :=
  { sampleEnv with
    idLength := 1
    randomWord := fun n => if n = 0 then 67108864 else 3556769792 }

/-- Seventh sample run: two peers connect at clock 0 under `shortEnv`. -/
def sampleShort : State :=
  (connect shortEnv 0 0 (connect shortEnv 0 0 initial).2).2

/-- Eighth sample run: `/connect` at clock 0, then `/disconnect` with the
credentials returned, at clock 6000. -/
def sampleLeft : Reply × State :=
  disconnect sampleEnv 6000 "aaaaaaaaaaaaaaaa" "secret/aaaaaaaaaaaaaaaa" sampleConnected

/-- Eighth sample run, continued: `/events` with the same credentials at
clock 6001, on the response object 0. -/
def sampleBack : Outcome × State :=
  events sampleEnv 6001 6001 0 "aaaaaaaaaaaaaaaa" "secret/aaaaaaaaaaaaaaaa" sampleLeft.2

/-- The sample options with `idLength = 11`, the length of `constructor`. -/
def elevenEnv : Env :=
  { sampleEnv with idLength := 11 }

/-! ## Lemmas -/

/-! ### Association lists -/

theorem lookup_mem {α β : Type} [BEq α] [LawfulBEq α] (l : List (α × β)) (k : α) (a : β)
    (h : l.lookup k = some a) : (k, a) ∈ l := by
  induction l with
  | nil => simp at h
  | cons e rest ih =>
    obtain ⟨k1, a1⟩ := e
    by_cases hk : k = k1
    · subst hk
      simp [List.lookup] at h
      simp [h]
    · have hb : (k == k1) = false := by simpa using hk
      simp [List.lookup, hb] at h
      exact List.mem_cons_of_mem _ (ih h)

theorem lookup_of_mem {β : Type} (l : List (String × β)) (k : String) (a : β)
    (hnd : (l.map Prod.fst).Nodup) (h : (k, a) ∈ l) : l.lookup k = some a := by
  induction l with
  | nil => simp at h
  | cons e rest ih =>
    obtain ⟨k1, a1⟩ := e
    simp only [List.map_cons, List.nodup_cons] at hnd
    rcases List.mem_cons.1 h with h1 | h1
    · cases h1
      simp [List.lookup]
    · have hk : k ≠ k1 := by
        rintro rfl
        exact hnd.1 (List.mem_map_of_mem Prod.fst h1)
      have hb : (k == k1) = false := by simpa using hk
      simp [List.lookup, hb, ih hnd.2 h1]

theorem lookup_isSome_of_mem_keys {β : Type} (l : List (String × β)) (k : String)
    (h : k ∈ l.map Prod.fst) : ∃ a, l.lookup k = some a := by
  induction l with
  | nil => simp at h
  | cons e rest ih =>
    obtain ⟨k1, a1⟩ := e
    by_cases hk : k = k1
    · subst hk
      exact ⟨a1, by simp [List.lookup]⟩
    · have hb : (k == k1) = false := by simpa using hk
      have : k ∈ rest.map Prod.fst := by
        simpa [hk] using h
      obtain ⟨a, ha⟩ := ih this
      exact ⟨a, by simp [List.lookup, hb, ha]⟩

theorem mem_keys_of_lookup {β : Type} (l : List (String × β)) (k : String) (a : β)
    (h : l.lookup k = some a) : k ∈ l.map Prod.fst :=
  List.mem_map_of_mem Prod.fst (lookup_mem l k a h)

theorem lookup_eq_none_of_not_mem {β : Type} (l : List (String × β)) (k : String)
    (h : k ∉ l.map Prod.fst) : l.lookup k = none := by
  cases hl : l.lookup k with
  | none => rfl
  | some a => exact absurd (mem_keys_of_lookup l k a hl) h

theorem lookup_filter {β : Type} (l : List (String × β)) (p : String × β → Bool) (k : String)
    (hnd : (l.map Prod.fst).Nodup) :
    (l.filter p).lookup k = (l.lookup k).filter (fun a => p (k, a)) := by
  induction l with
  | nil => simp
  | cons e rest ih =>
    obtain ⟨k1, a1⟩ := e
    simp only [List.map_cons, List.nodup_cons] at hnd
    by_cases hk : k = k1
    · subst hk
      by_cases hp : p (k, a1) = true
      · simp [List.filter, hp, List.lookup, Option.filter]
      · have hp2 : p (k, a1) = false := by simpa using hp
        have hnone : (rest.filter p).lookup k = none := by
          apply lookup_eq_none_of_not_mem
          intro hm
          obtain ⟨e, he, hek⟩ := List.mem_map.1 hm
          have := (List.mem_filter.1 he).1
          exact hnd.1 (hek ▸ List.mem_map_of_mem Prod.fst this)
        simp [List.filter, hp2, List.lookup, Option.filter, hnone]
    · have hb : (k == k1) = false := by simpa using hk
      by_cases hp : p (k1, a1) = true
      · simp [List.filter, hp, List.lookup, hb, ih hnd.2]
      · have hp2 : p (k1, a1) = false := by simpa using hp
        simp [List.filter, hp2, List.lookup, hb, ih hnd.2]

theorem lookup_objectDelete_ne (o : List (String × Addr)) (key k : String) (h : k ≠ key) :
    (objectDelete o key).lookup k = o.lookup k := by
  induction o with
  | nil => simp [objectDelete]
  | cons e rest ih =>
    obtain ⟨k1, a1⟩ := e
    unfold objectDelete at ih ⊢
    by_cases hk1 : k1 = key
    · subst hk1
      have hb : (k == k1) = false := by simpa using h
      simp [List.filter, List.lookup, hb, ih]
    · have hb1 : (k1 != key) = true := by simpa using hk1
      by_cases hk : k = k1
      · subst hk
        simp [List.filter, hb1, List.lookup]
      · have hb : (k == k1) = false := by simpa using hk
        simp [List.filter, hb1, List.lookup, hb, ih]

theorem keys_objectDelete (o : List (String × Addr)) (key : String) :
    (objectDelete o key).map Prod.fst = (o.map Prod.fst).filter (fun k => k != key) := by
  unfold objectDelete
  induction o with
  | nil => simp
  | cons e rest ih =>
    by_cases h : e.1 = key
    · simp [List.filter, h, ih]
    · have hb : (e.1 != key) = true := by simpa using h
      simp [List.filter, hb, ih]

theorem eq_of_lookup_eq {α β : Type} [BEq α] [LawfulBEq α] (l : List (α × β)) (k1 k2 : α)
    (a : β) (hnd : (l.map Prod.snd).Nodup) (h1 : l.lookup k1 = some a)
    (h2 : l.lookup k2 = some a) : k1 = k2 := by
  have m1 := lookup_mem l k1 a h1
  have m2 := lookup_mem l k2 a h2
  have := List.inj_on_of_nodup_map hnd m1 m2 rfl
  exact congrArg Prod.fst this

/-! ### Delivery -/

theorem streamLog_append (s : State) (extra : List (Chan × Msg)) (c : Chan) :
    streamLog { s with written := s.written ++ extra } c
      = streamLog s c ++ (extra.filter (fun w => w.1 == c)).map Prod.snd := by
  simp [streamLog, List.filter_append]

theorem sendRaw_ok (toID : String) (m : Msg) (s : State) (a : Addr)
    (h : s.connectedUsers.lookup toID = some a) :
    ∃ s1, sendRaw toID m s = .ok () s1 ∧
      s1.connectedUsers = s.connectedUsers ∧ s1.streams = s.streams ∧ s1.next = s.next ∧
      s1.closeHandlers = s.closeHandlers ∧ s1.draws = s.draws ∧
      (∀ b, s1.heap b = { s.heap b with
        queue := (s.heap b).queue ++
          if b = a ∧ weakMapGet s.streams a = none then [m] else [] }) ∧
      (∀ c, streamLog s1 c = streamLog s c ++
          if weakMapGet s.streams a = some c then [m] else []) := by
  cases hw : weakMapGet s.streams a with
  | some stream =>
    refine ⟨{ s with written := s.written ++ [(stream, m)] }, ?_, rfl, rfl, rfl, rfl, rfl, ?_, ?_⟩
    · simp only [sendRaw, h, hw]
    · intro b
      simp
    · intro c
      rw [streamLog_append]
      by_cases hc : stream = c
      · subst hc
        simp
      · have hb : (stream == c) = false := by simpa using hc
        simp [List.filter, hb, hc]
  | none =>
    refine ⟨{ s with
        heap := Function.update s.heap a
          { s.heap a with queue := (s.heap a).queue ++ [m] } }, ?_, rfl, rfl, rfl, rfl, rfl, ?_, ?_⟩
    · simp only [sendRaw, h, hw]
    · intro b
      by_cases hb : b = a
      · subst hb
        simp
      · simp [Function.update, hb]
    · intro c
      simp [streamLog]

theorem forEach_sendRaw (m : Msg) : ∀ (ids : List String) (s : State),
    (∀ k ∈ ids, ∃ a, s.connectedUsers.lookup k = some a) →
    ∃ s1, forEach (fun peerID => sendRaw peerID m) ids s = .ok () s1 ∧
      s1.connectedUsers = s.connectedUsers ∧ s1.streams = s.streams ∧ s1.next = s.next ∧
      s1.closeHandlers = s.closeHandlers ∧ s1.draws = s.draws ∧
      (∀ b, s1.heap b = { s.heap b with
        queue := (s.heap b).queue ++ List.replicate
          (ids.countP (fun k => decide (s.connectedUsers.lookup k = some b
            ∧ weakMapGet s.streams b = none))) m }) ∧
      (∀ c, streamLog s1 c = streamLog s c ++ List.replicate
          (ids.countP (fun k => decide (∃ a, s.connectedUsers.lookup k = some a
            ∧ weakMapGet s.streams a = some c))) m) := by
  intro ids
  induction ids with
  | nil =>
    intro s _
    exact ⟨s, rfl, rfl, rfl, rfl, rfl, rfl, by simp, by simp⟩
  | cons k rest ih =>
    intro s hreg
    obtain ⟨a, ha⟩ := hreg k (List.mem_cons_self _ _)
    obtain ⟨s0, h0, hcu, hst, hnx, hch, hdr, hheap, hlog⟩ := sendRaw_ok k m s a ha
    have hreg0 : ∀ k1 ∈ rest, ∃ a1, s0.connectedUsers.lookup k1 = some a1 := by
      intro k1 hk1
      rw [hcu]
      exact hreg k1 (List.mem_cons_of_mem _ hk1)
    obtain ⟨s1, h1, hcu1, hst1, hnx1, hch1, hdr1, hheap1, hlog1⟩ := ih s0 hreg0
    refine ⟨s1, ?_, hcu1.trans hcu, hst1.trans hst, hnx1.trans hnx, hch1.trans hch,
      hdr1.trans hdr, ?_, ?_⟩
    · simp only [forEach, h0, h1]
    · intro b
      rw [hheap1 b, hheap b, hcu, hst, List.countP_cons]
      by_cases hb : b = a ∧ weakMapGet s.streams a = none
      · obtain ⟨hb1, hb2⟩ := hb
        subst hb1
        simp [ha, hb2, List.replicate_succ]
      · have hp : ¬ (s.connectedUsers.lookup k = some b ∧ weakMapGet s.streams b = none) := by
          rintro ⟨h1, h2⟩
          rw [ha] at h1
          cases h1
          exact hb ⟨rfl, h2⟩
        simp [hb, hp]
    · intro c
      rw [hlog1 c, hlog c, hcu, hst, List.countP_cons]
      by_cases hc : weakMapGet s.streams a = some c
      · have hp : ∃ a1, s.connectedUsers.lookup k = some a1 ∧ weakMapGet s.streams a1 = some c :=
          ⟨a, ha, hc⟩
        simp [hc, hp, List.replicate_succ]
      · have hp : ¬ ∃ a1, s.connectedUsers.lookup k = some a1 ∧ weakMapGet s.streams a1 = some c := by
          rintro ⟨a1, h1, h2⟩
          rw [ha] at h1
          cases h1
          exact hc h2
        simp [hc, hp]

theorem countP_eq_one_of_unique (p : String → Bool) (ids : List String) (k : String)
    (hnd : ids.Nodup) (hk : k ∈ ids) (hp : p k = true)
    (huniq : ∀ k1 ∈ ids, p k1 = true → k1 = k) : ids.countP p = 1 := by
  have h1 : ids.countP p = ids.countP (fun x => x == k) := by
    apply List.countP_congr
    intro x hx
    constructor
    · intro h
      simpa using huniq x hx h
    · intro h
      have : x = k := by simpa using h
      rw [this]
      exact hp
  rw [h1]
  exact List.count_eq_one_of_mem hnd hk

theorem countP_eq_zero_of_none (p : String → Bool) (ids : List String)
    (h : ∀ k ∈ ids, p k = false) : ids.countP p = 0 := by
  rw [List.countP_eq_zero]
  intro k hk
  simp [h k hk]

/-- Effect of one fan-out loop `ids.forEach(peerID => app.sendRaw(peerID, m))`
on a well-formed state: every listed peer is sent `m` once, every other
peer object nothing. -/
theorem forEach_sendRaw_received (m : Msg) (ids : List String) (s : State)
    (hwf : WellFormed s) (hnd : ids.Nodup)
    (hreg : ∀ k ∈ ids, ∃ a, s.connectedUsers.lookup k = some a) :
    ∃ s1, forEach (fun peerID => sendRaw peerID m) ids s = .ok () s1 ∧
      s1.connectedUsers = s.connectedUsers ∧ s1.streams = s.streams ∧ s1.next = s.next ∧
      s1.closeHandlers = s.closeHandlers ∧ s1.draws = s.draws ∧
      (∀ b, (s1.heap b).id = (s.heap b).id ∧ (s1.heap b).key = (s.heap b).key ∧
        (s1.heap b).timeout = (s.heap b).timeout) ∧
      (∀ b, (∃ k ∈ ids, s.connectedUsers.lookup k = some b) → Received s s1 b [m]) ∧
      (∀ b, (¬ ∃ k ∈ ids, s.connectedUsers.lookup k = some b) → Received s s1 b []) := by
  obtain ⟨s1, h1, hcu, hst, hnx, hch, hdr, hheap, hlog⟩ := forEach_sendRaw m ids s hreg
  refine ⟨s1, h1, hcu, hst, hnx, hch, hdr, ?_, ?_, ?_⟩
  · intro b
    rw [hheap b]
    exact ⟨rfl, rfl, rfl⟩
  · rintro b ⟨k, hk, hkb⟩
    unfold Received
    cases hw : weakMapGet s.streams b with
    | none =>
      simp only
      rw [hheap b]
      have hc : ids.countP (fun k1 => decide (s.connectedUsers.lookup k1 = some b
          ∧ weakMapGet s.streams b = none)) = 1 := by
        apply countP_eq_one_of_unique _ ids k hnd hk
        · simp [hkb, hw]
        · intro k1 _ hp
          have hp1 : s.connectedUsers.lookup k1 = some b := by
            have := of_decide_eq_true hp
            exact this.1
          exact eq_of_lookup_eq _ k1 k b hwf.objects hp1 hkb
      rw [hc]
      rfl
    | some c =>
      simp only
      constructor
      · rw [hlog c]
        have hc : ids.countP (fun k1 => decide (∃ a, s.connectedUsers.lookup k1 = some a
            ∧ weakMapGet s.streams a = some c)) = 1 := by
          apply countP_eq_one_of_unique _ ids k hnd hk
          · exact decide_eq_true ⟨b, hkb, hw⟩
          · intro k1 _ hp
            obtain ⟨a, ha1, ha2⟩ := of_decide_eq_true hp
            have hab : a = b := eq_of_lookup_eq s.streams a b c hwf.channels ha2 hw
            subst hab
            exact eq_of_lookup_eq _ k1 k a hwf.objects ha1 hkb
        rw [hc]
        rfl
      · rw [hheap b]
        have hc : ids.countP (fun k1 => decide (s.connectedUsers.lookup k1 = some b
            ∧ weakMapGet s.streams b = none)) = 0 := by
          apply countP_eq_zero_of_none
          intro k1 _
          simp [hw]
        rw [hc]
        simp
  · intro b hb
    unfold Received
    have hq : (s1.heap b).queue = (s.heap b).queue := by
      rw [hheap b]
      have hc : ids.countP (fun k1 => decide (s.connectedUsers.lookup k1 = some b
          ∧ weakMapGet s.streams b = none)) = 0 := by
        apply countP_eq_zero_of_none
        intro k1 hk1
        have : s.connectedUsers.lookup k1 ≠ some b := fun h => hb ⟨k1, hk1, h⟩
        simp [this]
      rw [hc]
      simp
    cases hw : weakMapGet s.streams b with
    | none =>
      simp only
      rw [hq]
      simp
    | some c =>
      simp only
      refine ⟨?_, hq⟩
      rw [hlog c]
      have hc : ids.countP (fun k1 => decide (∃ a, s.connectedUsers.lookup k1 = some a
          ∧ weakMapGet s.streams a = some c)) = 0 := by
        apply countP_eq_zero_of_none
        intro k1 hk1
        apply decide_eq_false
        rintro ⟨a, ha1, ha2⟩
        have hab : a = b := eq_of_lookup_eq s.streams a b c hwf.channels ha2 hw
        subst hab
        exact hb ⟨k1, hk1, ha1⟩
      rw [hc]
      simp

/-! ### `Object.keys` and the sweep -/

theorem objectKeys_perm (o : List (String × Addr)) :
    (objectKeys o).Perm (o.map Prod.fst) := by
  unfold objectKeys
  exact ((List.perm_insertionSort indexLE _).append_right _).trans
    (List.filter_append_perm _ _)

theorem mem_objectKeys (o : List (String × Addr)) (k : String) :
    k ∈ objectKeys o ↔ k ∈ o.map Prod.fst :=
  (objectKeys_perm o).mem_iff

theorem nodup_objectKeys (o : List (String × Addr)) (h : (o.map Prod.fst).Nodup) :
    (objectKeys o).Nodup :=
  (objectKeys_perm o).nodup_iff.2 h

theorem expiredKey_of_lookup (s : State) (now : Int) (k : String) (a : Addr)
    (h : s.connectedUsers.lookup k = some a) :
    expiredKey s now k = (s.heap a).timeout.lt now := by
  simp [expiredKey, h]

/-- The first loop of `getPeerList` over distinct keys of a well-formed
registry: it removes exactly the listed keys whose timeout is below `now`. -/
theorem sweep_spec (now : Int) : ∀ (ks removed : List String) (s : State),
    ks.Nodup → (s.connectedUsers.map Prod.fst).Nodup →
    (∀ k ∈ ks, k ∈ s.connectedUsers.map Prod.fst) →
    sweep now ks removed s =
      .ok (removed ++ ks.filter (expiredKey s now))
        { s with connectedUsers :=
            s.connectedUsers.filter (fun e => !(decide (e.1 ∈ ks) && expiredEntry s.heap now e)) } := by
  intro ks
  induction ks with
  | nil =>
    intro removed s _ _ _
    simp [sweep]
  | cons key rest ih =>
    intro removed s hnd hkeys hsub
    obtain ⟨a, ha⟩ := lookup_isSome_of_mem_keys _ key (hsub key (List.mem_cons_self _ _))
    have hnd' := List.nodup_cons.1 hnd
    have hentry : ∀ e ∈ s.connectedUsers, e.1 = key → e.2 = a := by
      intro e he hek
      have h1 : s.connectedUsers.lookup e.1 = some e.2 := lookup_of_mem _ _ _ hkeys he
      rw [hek, ha] at h1
      exact (Option.some.inj h1).symm
    by_cases hexp : (s.heap a).timeout.lt now = true
    · have hstep : sweep now (key :: rest) removed s
          = sweep now rest (removed ++ [key])
              { s with connectedUsers := objectDelete s.connectedUsers key } := by
        simp [sweep, ha, hexp, weakMapHas]
      rw [hstep]
      have hkeys1 : ((objectDelete s.connectedUsers key).map Prod.fst).Nodup := by
        rw [keys_objectDelete]
        exact hkeys.filter _
      have hsub1 : ∀ k ∈ rest, k ∈ (objectDelete s.connectedUsers key).map Prod.fst := by
        intro k hk
        rw [keys_objectDelete]
        refine List.mem_filter.2 ⟨hsub k (List.mem_cons_of_mem _ hk), ?_⟩
        have : k ≠ key := by
          rintro rfl
          exact hnd'.1 hk
        simpa using this
      rw [ih (removed ++ [key]) _ hnd'.2 hkeys1 hsub1]
      have hfilt : rest.filter (expiredKey
            { s with connectedUsers := objectDelete s.connectedUsers key } now)
          = rest.filter (expiredKey s now) := by
        apply List.filter_congr
        intro k hk
        have : k ≠ key := by
          rintro rfl
          exact hnd'.1 hk
        simp [expiredKey, lookup_objectDelete_ne _ _ _ this]
      have hhead : (key :: rest).filter (expiredKey s now)
          = key :: rest.filter (expiredKey s now) := by
        simp [List.filter, expiredKey_of_lookup s now key a ha, hexp]
      rw [hfilt, hhead]
      congr 1
      · simp
      · simp only [objectDelete, List.filter_filter]
        congr 1
        apply List.filter_congr
        intro e he
        by_cases hek : e.1 = key
        · have hea := hentry e he hek
          simp [hek, expiredEntry, hea, hexp]
        · simp [hek]
    · have hexp' : (s.heap a).timeout.lt now = false := by simpa using hexp
      have hstep : sweep now (key :: rest) removed s = sweep now rest removed s := by
        simp [sweep, ha, hexp']
      rw [hstep, ih removed s hnd'.2 hkeys (fun k hk => hsub k (List.mem_cons_of_mem _ hk))]
      have hhead : (key :: rest).filter (expiredKey s now) = rest.filter (expiredKey s now) := by
        simp [List.filter, expiredKey_of_lookup s now key a ha, hexp']
      rw [hhead]
      congr 2
      apply List.filter_congr
      intro e he
      by_cases hek : e.1 = key
      · have hea := hentry e he hek
        simp [hek, expiredEntry, hea, hexp', hnd'.1]
      · simp [hek]

theorem nodup_map_filter {α β : Type} (f : α → β) (p : α → Bool) (l : List α)
    (h : (l.map f).Nodup) : ((l.filter p).map f).Nodup :=
  h.sublist ((List.filter_sublist l).map f)

theorem wellFormed_of_filter (s s1 : State) (p : String × Addr → Bool) (hwf : WellFormed s)
    (hcu : s1.connectedUsers = s.connectedUsers.filter p) (hst : s1.streams = s.streams) :
    WellFormed s1 := by
  refine ⟨?_, ?_, ?_, ?_⟩
  · rw [hcu]
    exact nodup_map_filter _ _ _ hwf.keys
  · rw [hcu]
    exact nodup_map_filter _ _ _ hwf.objects
  · rw [hst]
    exact hwf.bound
  · rw [hst]
    exact hwf.channels

theorem received_nil_refl (s : State) (b : Addr) : Received s s b [] := by
  unfold Received
  cases weakMapGet s.streams b <;> simp

/-- What `getPeerList` does on a well-formed state: it returns, the registry
keeps exactly the entries whose timeout is not below `now`, the returned
list is `Object.keys` of what is left, and every peer object left is sent
`{ disconnect: removed }` once when presence is on and something was
removed; no other peer object is sent anything. -/
theorem getPeerList_spec (env : Env) (now : Int) (s : State) (hwf : WellFormed s) :
    ∃ s1, getPeerList env now s = .ok (objectKeys s1.connectedUsers) s1 ∧
      s1.connectedUsers = s.connectedUsers.filter (fun e => !expiredEntry s.heap now e) ∧
      s1.streams = s.streams ∧ s1.next = s.next ∧
      s1.closeHandlers = s.closeHandlers ∧ s1.draws = s.draws ∧
      WellFormed s1 ∧
      (∀ b, (s1.heap b).id = (s.heap b).id ∧ (s1.heap b).key = (s.heap b).key ∧
        (s1.heap b).timeout = (s.heap b).timeout) ∧
      (env.presence = true → removedBy s now ≠ [] →
        ∀ k b, s1.connectedUsers.lookup k = some b →
          Received s s1 b [.disconnect (removedBy s now)]) ∧
      (∀ b, (env.presence = false ∨ removedBy s now = [] ∨
          ¬ ∃ k, s1.connectedUsers.lookup k = some b) → Received s s1 b []) := by
  have hks : (objectKeys s.connectedUsers).Nodup := nodup_objectKeys _ hwf.keys
  have hsweep := sweep_spec now (objectKeys s.connectedUsers) [] s hks hwf.keys
    (fun k hk => (mem_objectKeys _ k).1 hk)
  have hfilter : s.connectedUsers.filter
        (fun e => !(decide (e.1 ∈ objectKeys s.connectedUsers) && expiredEntry s.heap now e))
      = s.connectedUsers.filter (fun e => !expiredEntry s.heap now e) := by
    apply List.filter_congr
    intro e he
    have : e.1 ∈ objectKeys s.connectedUsers :=
      (mem_objectKeys _ _).2 (List.mem_map_of_mem Prod.fst he)
    simp [this]
  rw [hfilter] at hsweep
  simp only [List.nil_append] at hsweep
  have hsweep' : sweep now (objectKeys s.connectedUsers) [] s
      = .ok (removedBy s now) (swept s now) := hsweep
  have hwf0 : WellFormed (swept s now) := wellFormed_of_filter s _ _ hwf rfl rfl
  by_cases hp : env.presence = true ∧ removedBy s now ≠ []
  · have hcond : (env.presence && decide (List.length (removedBy s now) > 0)) = true := by
      have : 0 < (removedBy s now).length := List.length_pos.2 hp.2
      simp [hp.1, this]
    obtain ⟨s1, h1, hcu, hst, hnx, hch, hdr, hfields, hyes, hno⟩ :=
      forEach_sendRaw_received (.disconnect (removedBy s now))
        (objectKeys (swept s now).connectedUsers) (swept s now)
        hwf0 (nodup_objectKeys _ hwf0.keys)
        (fun k hk => lookup_isSome_of_mem_keys _ k ((mem_objectKeys _ k).1 hk))
    refine ⟨s1, ?_, hcu, hst, hnx, hch, hdr, wellFormed_of_filter s s1 _ hwf hcu hst,
      hfields, ?_, ?_⟩
    · unfold getPeerList
      rw [hsweep']
      simp only
      rw [hcond]
      simp only [if_true]
      rw [h1, hcu]
    · intro _ _ k b hk
      rw [hcu] at hk
      exact hyes b ⟨k, (mem_objectKeys _ k).2 (mem_keys_of_lookup _ k b hk), hk⟩
    · intro b hb
      rcases hb with hb | hb | hb
      · rw [hp.1] at hb
        cases hb
      · exact absurd hb hp.2
      · apply hno b
        rintro ⟨k, _, hk⟩
        exact hb ⟨k, by rw [hcu]; exact hk⟩
  · have hcond : (env.presence && decide (List.length (removedBy s now) > 0)) = false := by
      by_cases hpres : env.presence = true
      · have : removedBy s now = [] := by
          by_contra hne
          exact hp ⟨hpres, hne⟩
        simp [this]
      · simp [hpres]
    refine ⟨swept s now, ?_, rfl, rfl, rfl, rfl, rfl, hwf0, fun b => ⟨rfl, rfl, rfl⟩, ?_, ?_⟩
    · unfold getPeerList
      rw [hsweep']
      simp only
      rw [hcond]
      simp
    · intro h1 h2
      exact absurd ⟨h1, h2⟩ hp
    · intro b _
      exact received_nil_refl s b

/-! ### Identity issuer -/

theorem digitIndex_lt (w : Nat) (h : w < 4294967295) : digitIndex w < 64 := by
  unfold digitIndex
  have hl : options.length = 64 := by decide
  rw [hl]
  apply Nat.div_lt_of_lt_mul
  omega

theorem makeIDLoop_spec (env : Env) (hw : ∀ i, readUInt32BE env i ≠ 4294967295) :
    ∀ (n d : Nat) (chars : List (Option Char)),
      (∀ c ∈ chars, ∃ ch ∈ options, c = some ch) →
      (makeIDLoop env n d chars).1.length = chars.length + n ∧
        ∀ c ∈ (makeIDLoop env n d chars).1, ∃ ch ∈ options, c = some ch := by
  intro n
  induction n with
  | zero =>
    intro d chars h
    exact ⟨rfl, h⟩
  | succ n ih =>
    intro d chars h
    have hlt : readUInt32BE env d < 4294967295 := by
      have h1 : readUInt32BE env d < 4294967296 := Nat.mod_lt _ (by decide)
      have h2 := hw d
      omega
    have hidx : digitIndex (readUInt32BE env d) < options.length := by
      have hl : options.length = 64 := by decide
      rw [hl]
      exact digitIndex_lt _ hlt
    have hget : options.get? (digitIndex (readUInt32BE env d))
        = some (options.get ⟨digitIndex (readUInt32BE env d), hidx⟩) := List.get?_eq_get hidx
    have h' : ∀ c ∈ chars ++ [options.get? (digitIndex (readUInt32BE env d))],
        ∃ ch ∈ options, c = some ch := by
      intro c hc
      rcases List.mem_append.1 hc with hc | hc
      · exact h c hc
      · rw [List.mem_singleton] at hc
        exact ⟨_, List.get_mem _ _ _, hc.trans hget⟩
    have := ih (d + 1) _ h'
    simp only [makeIDLoop]
    refine ⟨?_, this.2⟩
    rw [this.1]
    simp
    omega

/-- Away from the single word `0xFFFFFFFF`, `makeID(n)` has `n` characters,
all of them in the alphabet. -/
theorem makeID_of_words_below (env : Env) (hw : ∀ i, readUInt32BE env i ≠ 4294967295)
    (draws n : Nat) :
    (makeID env draws n).1.length = n ∧ ∀ c ∈ (makeID env draws n).1.data, c ∈ options := by
  obtain ⟨hlen, hall⟩ := makeIDLoop_spec env hw n draws [] (by simp)
  have hmap : (makeIDLoop env n draws []).1.filterMap id
      = (makeIDLoop env n draws []).1.map (fun c => c.getD 'a') ∧
      ∀ c ∈ (makeIDLoop env n draws []).1.filterMap id, c ∈ options := by
    generalize (makeIDLoop env n draws []).1 = l at hall
    induction l with
    | nil => simp
    | cons c rest ih =>
      obtain ⟨ch, hch, hc⟩ := hall c (List.mem_cons_self _ _)
      have := ih (fun c1 hc1 => hall c1 (List.mem_cons_of_mem _ hc1))
      subst hc
      refine ⟨by simp [this.1], ?_⟩
      intro c1 hc1
      simp only [List.filterMap_cons, id_eq, List.mem_cons] at hc1
      rcases hc1 with hc1 | hc1
      · rw [hc1]
        exact hch
      · exact this.2 c1 hc1
  constructor
  · simp only [makeID, join, String.length]
    rw [hmap.1, List.length_map, hlen]
    simp
  · intro c hc
    exact hmap.2 c hc

/-- With a non-empty `SECRET`, `makeKey` draws nothing and depends on the id only. -/
theorem makeKey_of_secret (env : Env) (secret : String) (hs : env.SECRET = some secret)
    (hne : secret ≠ "") (draws : Nat) (id : String) :
    makeKey env draws id = (env.hmac (.text secret) id, draws) := by
  simp [makeKey, hs, hne]

/-- Without `SECRET` (unset or empty), `makeKey` keys the hash with the
buffer drawn by that very call. -/
theorem makeKey_of_no_secret (env : Env) (hs : env.SECRET = none ∨ env.SECRET = some "")
    (draws : Nat) (id : String) :
    makeKey env draws id = (env.hmac (.buffer (env.randomBuffer draws)) id, draws + 1) := by
  rcases hs with hs | hs <;> simp [makeKey, hs]

/-! ### Requests that are refused -/

/-- An id that is no property of `connectedUsers`, own or inherited, and
whose key does not pass the recovery test: the handler of `/events` reads
`peer.key` on `undefined`. -/
theorem events_unregistered_mismatch (env : Env) (now1 now2 : Int) (res : Chan)
    (id key : String) (s : State) (hreg : s.connectedUsers.lookup id = none)
    (hname : id ∉ inheritedNames)
    (hbad : validateID id env.idLength = false ∨ (makeKey env s.draws id).1 ≠ key) :
    (events env now1 now2 res id key s).1 = .threw ∧
      (events env now1 now2 res id key s).2.connectedUsers = s.connectedUsers ∧
      (events env now1 now2 res id key s).2.streams = s.streams ∧
      (events env now1 now2 res id key s).2.written = s.written := by
  unfold events
  rw [hreg]
  simp only [hname, if_false]
  by_cases hv : validateID id env.idLength = true
  · have hk : (makeKey env s.draws id).1 ≠ key := by
      rcases hbad with h | h
      · rw [hv] at h
        cases h
      · exact h
    simp [hv, hk]
  · simp [hv]

/-! ### Composition of deliveries, removal -/

theorem received_trans (s s0 s1 : State) (b : Addr) (ms1 ms2 : List Msg)
    (hst : s0.streams = s.streams) (h1 : Received s s0 b ms1) (h2 : Received s0 s1 b ms2) :
    Received s s1 b (ms1 ++ ms2) := by
  unfold Received at *
  rw [hst] at h2
  cases hw : weakMapGet s.streams b with
  | none =>
    rw [hw] at h1 h2
    simp only at h1 h2 ⊢
    rw [h2, h1, List.append_assoc]
  | some c =>
    rw [hw] at h1 h2
    simp only at h1 h2 ⊢
    exact ⟨by rw [h2.1, h1.1, List.append_assoc], h2.2.trans h1.2⟩

theorem weakMapGet_weakMapDelete_self (m : List (Addr × Chan)) (peer : Addr) :
    weakMapGet (weakMapDelete m peer) peer = none := by
  unfold weakMapGet weakMapDelete
  induction m with
  | nil => simp
  | cons e rest ih =>
    by_cases h : e.1 = peer
    · simp [List.filter, h, ih]
    · have hb : (e.1 != peer) = true := by simpa using h
      have hb2 : (peer == e.1) = false := by simpa using (Ne.symm h)
      simp [List.filter, hb, List.lookup, hb2, ih]

theorem not_mem_removedBy (s : State) (now : Int) (id : String)
    (h : s.connectedUsers.lookup id = none) : id ∉ removedBy s now := by
  intro hm
  have := (List.mem_filter.1 hm).2
  simp [expiredKey, h] at this

theorem mem_removedBy (s : State) (now : Int) (id : String) (peer : Addr)
    (hreg : s.connectedUsers.lookup id = some peer)
    (hexp : (s.heap peer).timeout.lt now = true) : id ∈ removedBy s now := by
  refine List.mem_filter.2 ⟨(mem_objectKeys _ _).2 (mem_keys_of_lookup _ _ _ hreg), ?_⟩
  simp [expiredKey, hreg, hexp]

theorem lookup_swept (s : State) (now : Int) (k : String)
    (hkeys : (s.connectedUsers.map Prod.fst).Nodup) :
    (s.connectedUsers.filter (fun e => !expiredEntry s.heap now e)).lookup k
      = (s.connectedUsers.lookup k).filter (fun a => !(s.heap a).timeout.lt now) := by
  rw [lookup_filter _ _ _ hkeys]
  rfl

/-- A later sweep, from any well-formed state in which `id` is not
registered: it returns a list without `id`, `id` stays unregistered, and no
peer object is sent a `disconnect` message that mentions `id`. -/
theorem getPeerList_of_unregistered (env : Env) (now : Int) (s : State) (id : String)
    (hwf : WellFormed s) (hreg : s.connectedUsers.lookup id = none) :
    ∃ connected s1, getPeerList env now s = .ok connected s1 ∧ id ∉ connected ∧
      s1.connectedUsers.lookup id = none ∧ WellFormed s1 ∧
      ∀ b, ∃ ms, Received s s1 b ms ∧ ∀ removed, Msg.disconnect removed ∈ ms → id ∉ removed := by
  obtain ⟨s1, h1, hcu, hst, -, -, -, hwf1, -, hyes, hno⟩ := getPeerList_spec env now s hwf
  have hreg1 : s1.connectedUsers.lookup id = none := by
    rw [hcu, lookup_swept s now id hwf.keys, hreg]
    rfl
  refine ⟨_, s1, h1, ?_, hreg1, hwf1, ?_⟩
  · intro hm
    obtain ⟨a, ha⟩ := lookup_isSome_of_mem_keys _ id ((mem_objectKeys _ _).1 hm)
    rw [hreg1] at ha
    cases ha
  · intro b
    by_cases hcase : env.presence = true ∧ removedBy s now ≠ [] ∧
        ∃ k, s1.connectedUsers.lookup k = some b
    · obtain ⟨hp, hr, k, hk⟩ := hcase
      refine ⟨_, hyes hp hr k b hk, ?_⟩
      intro removed hm
      rw [List.mem_singleton] at hm
      cases hm
      exact not_mem_removedBy s now id hreg
    · refine ⟨[], hno b ?_, by simp⟩
      by_cases hp : env.presence = true
      · by_cases hr : removedBy s now = []
        · exact Or.inr (Or.inl hr)
        · exact Or.inr (Or.inr (fun h => hcase ⟨hp, hr, h⟩))
      · exact Or.inl (by simpa using hp)

/-! ### Reachable states -/

theorem SameShape.refl (s : State) : SameShape s s := ⟨rfl, rfl, rfl, rfl⟩

theorem SameShape.trans {s s1 s2 : State} (h1 : SameShape s s1) (h2 : SameShape s1 s2) :
    SameShape s s2 :=
  ⟨h2.1.trans h1.1, h2.2.1.trans h1.2.1, h2.2.2.1.trans h1.2.2.1, h2.2.2.2.trans h1.2.2.2⟩

theorem Invariant.of_sameShape {s s1 : State} (h : SameShape s s1) (hi : Invariant s) :
    Invariant s1 := by
  obtain ⟨hcu, hst, hnx, hch⟩ := h
  refine ⟨⟨?_, ?_, ?_, ?_⟩, ?_, ?_⟩
  · rw [hcu]; exact hi.wellFormed.keys
  · rw [hcu]; exact hi.wellFormed.objects
  · rw [hst]; exact hi.wellFormed.bound
  · rw [hst]; exact hi.wellFormed.channels
  · rw [hcu, hnx]; exact hi.allocated
  · rw [hst, hch]; exact hi.listened

theorem sendRaw_sameShape (toID : String) (m : Msg) (s : State) :
    SameShape s (sendRaw toID m s).state := by
  unfold sendRaw
  cases s.connectedUsers.lookup toID with
  | none => exact SameShape.refl s
  | some a =>
    simp only
    cases weakMapGet s.streams a with
    | none => exact ⟨rfl, rfl, rfl, rfl⟩
    | some c => exact ⟨rfl, rfl, rfl, rfl⟩

theorem forEach_sameShape (f : String → State → Result Unit)
    (hf : ∀ x s, SameShape s (f x s).state) :
    ∀ (xs : List String) (s : State), SameShape s (forEach f xs s).state := by
  intro xs
  induction xs with
  | nil =>
    intro s
    exact SameShape.refl s
  | cons x rest ih =>
    intro s
    have h1 := hf x s
    simp only [forEach]
    cases hx : f x s with
    | ok v s1 =>
      rw [hx] at h1
      exact h1.trans (ih s1)
    | threw s1 =>
      rw [hx] at h1
      exact h1

theorem notifyConnect_sameShape (id : String) (connected : List String) (s : State) :
    SameShape s (notifyConnect id connected s).state := by
  unfold notifyConnect
  apply forEach_sameShape
  intro x s1
  by_cases h : (x != id) = true
  · simp only [h, if_true]
    exact sendRaw_sameShape x _ s1
  · simp only [h]
    exact SameShape.refl s1

theorem getPeerList_invariant (env : Env) (now : Int) (s : State) (hi : Invariant s) :
    Invariant (getPeerList env now s).state := by
  obtain ⟨s1, h1, hcu, hst, hnx, hch, -, hwf1, -, -, -⟩ :=
    getPeerList_spec env now s hi.wellFormed
  rw [h1]
  refine ⟨hwf1, ?_, ?_⟩
  · intro e he
    have he' : e ∈ s1.connectedUsers := he
    rw [hcu] at he'
    have := hi.allocated e (List.mem_filter.1 he').1
    rw [show (Result.ok (objectKeys s1.connectedUsers) s1).state.next = s1.next from rfl, hnx]
    exact this
  · intro b hb
    have hb' : b ∈ s1.streams := hb
    rw [hst] at hb'
    rw [show (Result.ok (objectKeys s1.connectedUsers) s1).state.closeHandlers
      = s1.closeHandlers from rfl, hch]
    exact hi.listened b hb'

theorem mem_objectSet (o : List (String × Addr)) (key : String) (value : Addr)
    (e : String × Addr) (h : e ∈ objectSet o key value) : e ∈ o ∨ e = (key, value) := by
  induction o with
  | nil =>
    simp only [objectSet, List.mem_singleton] at h
    exact Or.inr h
  | cons e1 rest ih =>
    obtain ⟨k1, v1⟩ := e1
    by_cases hk : k1 = key
    · subst hk
      simp only [objectSet, if_true, List.mem_cons] at h
      rcases h with h | h
      · exact Or.inr h
      · exact Or.inl (List.mem_cons_of_mem _ h)
    · simp only [objectSet, hk, if_false, List.mem_cons] at h
      rcases h with h | h
      · exact Or.inl (h ▸ List.mem_cons_self _ _)
      · rcases ih h with h1 | h1
        · exact Or.inl (List.mem_cons_of_mem _ h1)
        · exact Or.inr h1

theorem objectSet_keys_nodup (o : List (String × Addr)) (key : String) (value : Addr)
    (h : (o.map Prod.fst).Nodup) : ((objectSet o key value).map Prod.fst).Nodup := by
  induction o with
  | nil => simp [objectSet]
  | cons e1 rest ih =>
    obtain ⟨k1, v1⟩ := e1
    simp only [List.map_cons, List.nodup_cons] at h
    by_cases hk : k1 = key
    · subst hk
      simp only [objectSet, if_true, List.map_cons, List.nodup_cons]
      exact h
    · simp only [objectSet, hk, if_false, List.map_cons, List.nodup_cons]
      refine ⟨?_, ih h.2⟩
      intro hm
      obtain ⟨e, he, hek⟩ := List.mem_map.1 hm
      rcases mem_objectSet rest key value e he with h1 | h1
      · exact h.1 (hek ▸ List.mem_map_of_mem Prod.fst h1)
      · rw [h1] at hek
        exact hk hek.symm

theorem objectSet_objects_nodup (o : List (String × Addr)) (key : String) (value : Addr)
    (h : (o.map Prod.snd).Nodup) (hfresh : value ∉ o.map Prod.snd) :
    ((objectSet o key value).map Prod.snd).Nodup := by
  induction o with
  | nil => simp [objectSet]
  | cons e1 rest ih =>
    obtain ⟨k1, v1⟩ := e1
    simp only [List.map_cons, List.nodup_cons, List.mem_cons, not_or] at h hfresh
    by_cases hk : k1 = key
    · subst hk
      simp only [objectSet, if_true, List.map_cons, List.nodup_cons]
      exact ⟨hfresh.2, h.2⟩
    · simp only [objectSet, hk, if_false, List.map_cons, List.nodup_cons]
      refine ⟨?_, ih h.2 hfresh.2⟩
      intro hm
      obtain ⟨e, he, hev⟩ := List.mem_map.1 hm
      rcases mem_objectSet rest key value e he with h1 | h1
      · exact h.1 (hev ▸ List.mem_map_of_mem Prod.snd h1)
      · rw [h1] at hev
        exact hfresh.1 hev

/-- Creating a peer object and storing it in `connectedUsers` keeps the invariant. -/
theorem register_invariant (s s1 : State) (id : String) (hi : Invariant s)
    (hcu : s1.connectedUsers = objectSet s.connectedUsers id s.next)
    (hnx : s1.next = s.next + 1) (hst : s1.streams = s.streams)
    (hch : s1.closeHandlers = s.closeHandlers) : Invariant s1 := by
  have hfresh : s.next ∉ s.connectedUsers.map Prod.snd := by
    intro hm
    obtain ⟨e, he, hev⟩ := List.mem_map.1 hm
    have := hi.allocated e he
    rw [hev] at this
    exact Nat.lt_irrefl _ this
  refine ⟨⟨?_, ?_, ?_, ?_⟩, ?_, ?_⟩
  · rw [hcu]; exact objectSet_keys_nodup _ _ _ hi.wellFormed.keys
  · rw [hcu]; exact objectSet_objects_nodup _ _ _ hi.wellFormed.objects hfresh
  · rw [hst]; exact hi.wellFormed.bound
  · rw [hst]; exact hi.wellFormed.channels
  · intro e he
    rw [hcu] at he
    rw [hnx]
    rcases mem_objectSet _ _ _ e he with h1 | h1
    · exact Nat.lt_succ_of_lt (hi.allocated e h1)
    · rw [h1]
      exact Nat.lt_succ_self _
  · rw [hst, hch]; exact hi.listened

/-- Binding a new response object and registering its close listener keeps the invariant. -/
theorem bind_invariant (s s1 : State) (peer : Addr) (res : Chan) (hi : Invariant s)
    (hres : res ∉ s.closeHandlers.map Prod.fst)
    (hcu : s1.connectedUsers = s.connectedUsers) (hnx : s1.next = s.next)
    (hst : s1.streams = weakMapSet s.streams peer res)
    (hch : s1.closeHandlers = s.closeHandlers ++ [(res, peer)]) : Invariant s1 := by
  have hfresh : res ∉ s.streams.map Prod.snd := by
    intro hm
    obtain ⟨b, hb, hbv⟩ := List.mem_map.1 hm
    exact hres (hbv ▸ hi.listened b hb)
  refine ⟨⟨?_, ?_, ?_, ?_⟩, ?_, ?_⟩
  · rw [hcu]; exact hi.wellFormed.keys
  · rw [hcu]; exact hi.wellFormed.objects
  · rw [hst]
    simp only [weakMapSet, weakMapDelete, List.map_append, List.map_cons, List.map_nil]
    rw [List.nodup_append]
    refine ⟨nodup_map_filter _ _ _ hi.wellFormed.bound, List.nodup_singleton _, ?_⟩
    intro a ha hb
    rw [List.mem_singleton] at hb
    obtain ⟨b, hb1, hb2⟩ := List.mem_map.1 ha
    have := (List.mem_filter.1 hb1).2
    rw [hb] at hb2
    simp [hb2] at this
  · rw [hst]
    simp only [weakMapSet, weakMapDelete, List.map_append, List.map_cons, List.map_nil]
    rw [List.nodup_append]
    refine ⟨nodup_map_filter _ _ _ hi.wellFormed.channels, List.nodup_singleton _, ?_⟩
    intro c hc hb
    rw [List.mem_singleton] at hb
    obtain ⟨b, hb1, hb2⟩ := List.mem_map.1 hc
    exact hfresh (hb ▸ hb2 ▸ List.mem_map_of_mem Prod.snd (List.mem_filter.1 hb1).1)
  · rw [hcu, hnx]; exact hi.allocated
  · intro b hb
    rw [hst] at hb
    rw [hch, List.map_append]
    simp only [weakMapSet, weakMapDelete] at hb
    rcases List.mem_append.1 hb with h1 | h1
    · exact List.mem_append_left _ (hi.listened b (List.mem_filter.1 h1).1)
    · rw [List.mem_singleton] at h1
      rw [h1]
      exact List.mem_append_right _ (by simp)

/-- Clearing a binding keeps the invariant, whatever happens to the heap. -/
theorem unbind_invariant (s s1 : State) (peer : Addr) (hi : Invariant s)
    (hcu : s1.connectedUsers = s.connectedUsers) (hnx : s1.next = s.next)
    (hst : s1.streams = weakMapDelete s.streams peer)
    (hch : s1.closeHandlers = s.closeHandlers) : Invariant s1 := by
  refine ⟨⟨?_, ?_, ?_, ?_⟩, ?_, ?_⟩
  · rw [hcu]; exact hi.wellFormed.keys
  · rw [hcu]; exact hi.wellFormed.objects
  · rw [hst]; exact nodup_map_filter _ _ _ hi.wellFormed.bound
  · rw [hst]; exact nodup_map_filter _ _ _ hi.wellFormed.channels
  · rw [hcu, hnx]; exact hi.allocated
  · intro b hb
    rw [hst] at hb
    rw [hch]
    exact hi.listened b (List.mem_filter.1 hb).1

theorem drain_sameShape (res : Chan) (peer : Addr) :
    ∀ (q : List Msg) (s : State), SameShape s (drain res peer q s) := by
  intro q
  induction q with
  | nil =>
    intro s
    exact SameShape.refl s
  | cons m rest ih =>
    intro s
    simp only [drain]
    exact SameShape.trans ⟨rfl, rfl, rfl, rfl⟩ (ih _)

theorem attach_invariant (env : Env) (now : Int) (res : Chan) (key : String) (peer : Addr)
    (s : State) (hi : Invariant s) (hres : res ∉ s.closeHandlers.map Prod.fst) :
    Invariant (attach env now res key peer s).2 := by
  unfold attach
  by_cases hk : (key != (s.heap peer).key) = true
  · simp only [hk, if_true]
    exact Invariant.of_sameShape (⟨rfl, rfl, rfl, rfl⟩ : SameShape s _) hi
  · simp only [hk]
    have hd := drain_sameShape res peer (s.heap peer).queue s
    have hi1 : Invariant (drain res peer (s.heap peer).queue s) := Invariant.of_sameShape hd hi
    have hres1 : res ∉ (drain res peer (s.heap peer).queue s).closeHandlers.map Prod.fst := by
      rw [hd.2.2.2]
      exact hres
    by_cases hp : env.presence = true
    · simp only [hp, if_true]
      obtain ⟨s2, h2, hcu, hst, hnx, hch, -, -, -, -, -⟩ :=
        getPeerList_spec env now _ hi1.wellFormed
      have hi2 : Invariant s2 := by
        have := getPeerList_invariant env now _ hi1
        rw [h2] at this
        exact this
      rw [h2]
      simp only
      refine bind_invariant s2 _ peer res hi2 ?_ rfl rfl rfl rfl
      rw [hch]
      exact hres1
    · simp only [hp]
      exact bind_invariant _ _ peer res hi1 hres1 rfl rfl rfl rfl

theorem invariant_initial : Invariant initial :=
  ⟨⟨by decide, by decide, by decide, by decide⟩, by simp [initial], by simp [initial]⟩

/-- After a new record is stored: the sweep, then the `connect` notices. -/
theorem announce_invariant (env : Env) (now : Int) (id : String) (s : State)
    (hi : Invariant s) :
    ∃ connected s1, getPeerList env now s = .ok connected s1 ∧
      Invariant (notifyConnect id connected s1).state ∧
      (notifyConnect id connected s1).state.closeHandlers = s.closeHandlers := by
  obtain ⟨s1, h1, -, -, -, hch, -, -, -, -, -⟩ := getPeerList_spec env now s hi.wellFormed
  have hi1 : Invariant s1 := by
    have := getPeerList_invariant env now s hi
    rw [h1] at this
    exact this
  have hn := notifyConnect_sameShape id (objectKeys s1.connectedUsers) s1
  exact ⟨_, s1, h1, Invariant.of_sameShape hn hi1, hn.2.2.2.trans hch⟩

theorem connect_invariant (env : Env) (now1 now2 : Int) (s : State) (hi : Invariant s) :
    Invariant (connect env now1 now2 s).2 := by
  have hi2 := register_invariant s
    { s with
      draws := (makeKey env (makeID env s.draws env.idLength).2
        (makeID env s.draws env.idLength).1).2
      next := s.next + 1
      heap := Function.update s.heap s.next
        { id := (makeID env s.draws env.idLength).1
          key := (makeKey env (makeID env s.draws env.idLength).2
            (makeID env s.draws env.idLength).1).1
          queue := []
          timeout := .ms (now1 + env.timeout) }
      connectedUsers := objectSet s.connectedUsers (makeID env s.draws env.idLength).1 s.next }
    (makeID env s.draws env.idLength).1 hi rfl rfl rfl rfl
  unfold connect
  by_cases hp : env.presence = true
  · simp only [hp, if_true]
    obtain ⟨connected, s3, h3, hi4, -⟩ :=
      announce_invariant env now2 (makeID env s.draws env.idLength).1 _ hi2
    rw [h3]
    simp only
    cases hn : notifyConnect (makeID env s.draws env.idLength).1 connected s3 with
    | ok v s4 =>
      rw [hn] at hi4
      exact hi4
    | threw s4 =>
      rw [hn] at hi4
      exact hi4
  · simp only [hp]
    exact hi2

theorem disconnect_invariant (env : Env) (now : Int) (id key : String) (s : State)
    (hi : Invariant s) : Invariant (disconnect env now id key s).2 := by
  unfold disconnect
  cases hl : s.connectedUsers.lookup id with
  | none =>
    simp only
    split <;> exact hi
  | some peer =>
    simp only
    by_cases hk : ((s.heap peer).key != key) = true
    · simp only [hk, if_true]
      exact hi
    · simp only [hk]
      have hi2 := unbind_invariant s
        { s with
          streams := weakMapDelete s.streams peer
          heap := Function.update s.heap peer { s.heap peer with timeout := .ms 0 } }
        peer hi rfl rfl rfl rfl
      have hi3 := getPeerList_invariant env now _ hi2
      cases hg : getPeerList env now
        { s with
          streams := weakMapDelete s.streams peer
          heap := Function.update s.heap peer { s.heap peer with timeout := .ms 0 } } with
      | ok v s3 =>
        rw [hg] at hi3
        exact hi3
      | threw s3 =>
        rw [hg] at hi3
        exact hi3

theorem events_invariant (env : Env) (now1 now2 : Int) (res : Chan) (id key : String)
    (s : State) (hi : Invariant s) (hres : res ∉ s.closeHandlers.map Prod.fst) :
    Invariant (events env now1 now2 res id key s).2 := by
  unfold events
  cases hl : s.connectedUsers.lookup id with
  | some peer => exact attach_invariant env now2 res key peer s hi hres
  | none =>
    simp only
    by_cases hin : id ∈ inheritedNames
    · simp only [hin, if_true]
      exact Invariant.of_sameShape (⟨rfl, rfl, rfl, rfl⟩ : SameShape s _) hi
    simp only [hin, if_false]
    by_cases hv : validateID id env.idLength = true
    · simp only [hv, if_true]
      by_cases hk : (makeKey env s.draws id).1 = key
      · simp only [hk, if_true]
        have hi2 := register_invariant s
          { s with
            draws := (makeKey env (makeKey env s.draws id).2 id).2
            next := s.next + 1
            heap := Function.update s.heap s.next
              { id := id
                key := (makeKey env (makeKey env s.draws id).2 id).1
                queue := []
                timeout := .infinity }
            connectedUsers := objectSet s.connectedUsers id s.next }
          id hi rfl rfl rfl rfl
        by_cases hp : env.presence = true
        · simp only [hp, if_true]
          obtain ⟨s3, h3, -, -, -, hch3, -, -, -, -, -⟩ :=
            getPeerList_spec env now1 _ hi2.wellFormed
          have hi3 : Invariant s3 := by
            have := getPeerList_invariant env now1 _ hi2
            rw [h3] at this
            exact this
          rw [h3]
          simp only
          have hn := notifyConnect_sameShape (s3.heap s.next).id
            (objectKeys s3.connectedUsers) s3
          cases hnc : notifyConnect (s3.heap s.next).id (objectKeys s3.connectedUsers) s3 with
          | ok v s4 =>
            rw [hnc] at hn
            simp only
            apply attach_invariant env now2 res key s.next s4 (Invariant.of_sameShape hn hi3)
            rw [show s4.closeHandlers = s3.closeHandlers from hn.2.2.2, hch3]
            exact hres
          | threw s4 =>
            rw [hnc] at hn
            exact Invariant.of_sameShape hn hi3
        · simp only [hp]
          exact attach_invariant env now2 res key s.next _ hi2 hres
      · simp only [hk, if_false]
        exact Invariant.of_sameShape (⟨rfl, rfl, rfl, rfl⟩ : SameShape s _) hi
    · simp only [hv]
      exact hi

theorem closeListener_invariant (env : Env) (now : Int) (peer : Addr) (s : State)
    (hi : Invariant s) : Invariant (closeListener env now peer s) :=
  unbind_invariant s _ peer hi rfl rfl rfl rfl

theorem close_invariant (env : Env) (now : Int) (res : Chan) (s : State) (hi : Invariant s) :
    Invariant (close env now res s) := by
  unfold close
  generalize s.closeHandlers.filter (fun h => h.1 == res) = hs
  induction hs generalizing s with
  | nil => exact hi
  | cons h rest ih =>
    simp only [List.foldl_cons]
    exact ih _ (closeListener_invariant env now h.2 s hi)

theorem sendSignal_invariant (toID id key : String) (signal : Payload) (s : State)
    (hi : Invariant s) : Invariant (sendSignal toID id key signal s).2 := by
  unfold sendSignal
  cases s.connectedUsers.lookup id with
  | none =>
    simp only
    split <;> exact hi
  | some peer =>
    simp only
    by_cases hk : (key != (s.heap peer).key) = true
    · simp only [hk, if_true]
      exact hi
    · simp only [hk]
      cases s.connectedUsers.lookup toID with
      | none =>
        simp only
        by_cases hin : toID ∈ inheritedNames
        · simp only [hin, if_true]
          have hs := sendRaw_sameShape "undefined" (.signal (s.heap peer).id signal) s
          cases hr : sendRaw "undefined" (.signal (s.heap peer).id signal) s with
          | ok v s1 =>
            rw [hr] at hs
            exact Invariant.of_sameShape hs hi
          | threw s1 =>
            rw [hr] at hs
            exact Invariant.of_sameShape hs hi
        · simp only [hin, if_false]
          exact hi
      | some target =>
        simp only
        have hs := sendRaw_sameShape (s.heap target).id (.signal (s.heap peer).id signal) s
        cases hr : sendRaw (s.heap target).id (.signal (s.heap peer).id signal) s with
        | ok v s1 =>
          rw [hr] at hs
          exact Invariant.of_sameShape hs hi
        | threw s1 =>
          rw [hr] at hs
          exact Invariant.of_sameShape hs hi

theorem broadcastRaw_invariant (env : Env) (now : Int) (message : Msg) (s : State)
    (hi : Invariant s) : Invariant (broadcastRaw env now message s).state := by
  unfold broadcastRaw
  have hi1 := getPeerList_invariant env now s hi
  cases hg : getPeerList env now s with
  | threw s1 =>
    rw [hg] at hi1
    exact hi1
  | ok peers s1 =>
    rw [hg] at hi1
    simp only
    exact Invariant.of_sameShape
      (forEach_sameShape _ (fun x s2 => sendRaw_sameShape x message s2) peers s1) hi1

/-- Every reachable state satisfies the invariant; in particular it is well formed. -/
theorem Reachable.invariant (env : Env) (s : State) (h : Reachable env s) : Invariant s := by
  induction h with
  | initial => exact invariant_initial
  | connect s now1 now2 _ ih => exact connect_invariant env now1 now2 s ih
  | disconnect s now id key _ ih => exact disconnect_invariant env now id key s ih
  | events s now1 now2 res id key _ hres ih =>
    exact events_invariant env now1 now2 res id key s ih hres
  | close s now res _ ih => exact close_invariant env now res s ih
  | sendSignal s toID id key signal _ ih => exact sendSignal_invariant toID id key signal s ih
  | sendRaw s toID message _ ih =>
    exact Invariant.of_sameShape (sendRaw_sameShape toID message s) ih
  | broadcastRaw s now message _ ih => exact broadcastRaw_invariant env now message s ih
  | getPeerList s now _ ih => exact getPeerList_invariant env now s ih

theorem Reachable.wellFormed (env : Env) (s : State) (h : Reachable env s) : WellFormed s :=
  (Reachable.invariant env s h).wellFormed

/-! ### What the sweep and the attach leave out -/

/-- The sweep does not look at the binding: on a well-formed state every
registered peer whose timeout is below `now` is removed, bound or not. -/
theorem getPeerList_ignores_binding (env : Env) (now : Int) (s : State) (id : String)
    (peer : Addr) (hwf : WellFormed s) (hreg : s.connectedUsers.lookup id = some peer)
    (hexp : (s.heap peer).timeout.lt now = true) :
    ∃ connected s1, getPeerList env now s = .ok connected s1 ∧ id ∉ connected ∧
      s1.connectedUsers.lookup id = none ∧ s1.streams = s.streams := by
  obtain ⟨s1, h1, hcu, hst, -, -, -, -, -, -, -⟩ := getPeerList_spec env now s hwf
  have hreg1 : s1.connectedUsers.lookup id = none := by
    rw [hcu, lookup_swept s now id hwf.keys, hreg]
    simp [Option.filter, hexp]
  refine ⟨_, s1, h1, ?_, hreg1, hst⟩
  intro hm
  obtain ⟨a, ha⟩ := lookup_isSome_of_mem_keys _ id ((mem_objectKeys _ _).1 hm)
  rw [hreg1] at ha
  cases ha

theorem drain_timeout (res : Chan) (peer : Addr) :
    ∀ (q : List Msg) (s : State) (b : Addr),
      ((drain res peer q s).heap b).timeout = (s.heap b).timeout := by
  intro q
  induction q with
  | nil =>
    intro s b
    rfl
  | cons m rest ih =>
    intro s b
    simp only [drain]
    rw [ih]
    by_cases hb : b = peer
    · subst hb
      simp
    · simp [Function.update, hb]

/-- The `/events` handler never assigns `timeout` on a record that exists:
on a well-formed state every peer object has the same `timeout` after the
attach as before. -/
theorem attach_timeout (env : Env) (now : Int) (res : Chan) (key : String) (peer : Addr)
    (s : State) (hwf : WellFormed s) (b : Addr) :
    ((attach env now res key peer s).2.heap b).timeout = (s.heap b).timeout := by
  unfold attach
  by_cases hk : (key != (s.heap peer).key) = true
  · simp only [hk, if_true]
  · simp only [hk, Bool.false_eq_true, if_false]
    have hd := drain_sameShape res peer (s.heap peer).queue s
    have hwf1 : WellFormed (drain res peer (s.heap peer).queue s) :=
      ⟨by rw [hd.1]; exact hwf.keys, by rw [hd.1]; exact hwf.objects,
        by rw [hd.2.1]; exact hwf.bound, by rw [hd.2.1]; exact hwf.channels⟩
    by_cases hp : env.presence = true
    · simp only [hp, if_true]
      obtain ⟨s2, h2, -, -, -, -, -, -, hfields, -, -⟩ := getPeerList_spec env now _ hwf1
      rw [h2]
      simp only
      rw [(hfields b).2.2, drain_timeout]
    · simp only [hp, Bool.false_eq_true, if_false]
      exact drain_timeout res peer _ s b

/-! ### Opening the event stream of a registered peer -/

theorem weakMapGet_mem (m : List (Addr × Chan)) (a : Addr) (c : Chan)
    (h : weakMapGet m a = some c) : c ∈ m.map Prod.snd :=
  List.mem_map_of_mem Prod.snd (lookup_mem m a c h)

theorem sendRaw_streamLog_unbound (toID : String) (m : Msg) (s : State) (c : Chan)
    (hc : c ∉ s.streams.map Prod.snd) :
    streamLog (sendRaw toID m s).state c = streamLog s c := by
  cases hl : s.connectedUsers.lookup toID with
  | none => simp [sendRaw, hl, Result.state]
  | some a =>
    obtain ⟨s1, h1, -, -, -, -, -, -, hlog⟩ := sendRaw_ok toID m s a hl
    rw [h1]
    have hne : weakMapGet s.streams a ≠ some c := fun h => hc (weakMapGet_mem _ _ _ h)
    simpa [Result.state, hne] using hlog c

theorem forEach_sendRaw_streamLog_unbound (m : Msg) (c : Chan) :
    ∀ (ids : List String) (s : State), c ∉ s.streams.map Prod.snd →
      streamLog (forEach (fun peerID => sendRaw peerID m) ids s).state c = streamLog s c := by
  intro ids
  induction ids with
  | nil =>
    intro s _
    rfl
  | cons k rest ih =>
    intro s hc
    have h1 := sendRaw_streamLog_unbound k m s c hc
    have hs := sendRaw_sameShape k m s
    simp only [forEach]
    cases hr : sendRaw k m s with
    | ok v s1 =>
      rw [hr] at h1 hs
      simp only
      rw [ih s1 (by rw [show s1.streams = s.streams from hs.2.1]; exact hc)]
      exact h1
    | threw s1 =>
      rw [hr] at h1
      exact h1

/-- A sweep writes nothing to a response object that is bound to no peer. -/
theorem getPeerList_streamLog_unbound (env : Env) (now : Int) (s : State) (c : Chan)
    (hwf : WellFormed s) (hc : c ∉ s.streams.map Prod.snd) :
    streamLog (getPeerList env now s).state c = streamLog s c := by
  have hks : (objectKeys s.connectedUsers).Nodup := nodup_objectKeys _ hwf.keys
  have hsweep := sweep_spec now (objectKeys s.connectedUsers) [] s hks hwf.keys
    (fun k hk => (mem_objectKeys _ k).1 hk)
  unfold getPeerList
  rw [hsweep]
  simp only
  split
  · have := forEach_sendRaw_streamLog_unbound
      (.disconnect ([] ++ (objectKeys s.connectedUsers).filter (expiredKey s now))) c
      (objectKeys (s.connectedUsers.filter (fun e =>
        !(decide (e.1 ∈ objectKeys s.connectedUsers) && expiredEntry s.heap now e))))
      { s with connectedUsers := s.connectedUsers.filter (fun e =>
        !(decide (e.1 ∈ objectKeys s.connectedUsers) && expiredEntry s.heap now e)) } hc
    split
    · rename_i h
      rw [h] at this
      exact this
    · rename_i h
      rw [h] at this
      exact this
  · rfl

theorem drain_spec (res : Chan) (peer : Addr) :
    ∀ (q : List Msg) (s : State),
      (drain res peer q s).written = s.written ++ q.map (fun m => (res, m)) ∧
      (∀ b, b ≠ peer → (drain res peer q s).heap b = s.heap b) ∧
      (drain res peer q s).heap peer
        = { s.heap peer with queue := if q = [] then (s.heap peer).queue else [] } := by
  intro q
  induction q with
  | nil =>
    intro s
    simp [drain]
  | cons m rest ih =>
    intro s
    obtain ⟨h1, h2, h3⟩ := ih { s with
      heap := Function.update s.heap peer { s.heap peer with queue := rest }
      written := s.written ++ [(res, m)] }
    simp only [drain]
    refine ⟨?_, ?_, ?_⟩
    · rw [h1]
      simp
    · intro b hb
      rw [h2 b hb]
      simp [Function.update, hb]
    · rw [h3]
      by_cases hr : rest = []
      · simp [hr]
      · simp [hr]

theorem drain_queue (res : Chan) (peer : Addr) (s : State) :
    ((drain res peer (s.heap peer).queue s).heap peer).queue = [] := by
  rw [(drain_spec res peer (s.heap peer).queue s).2.2]
  by_cases h : (s.heap peer).queue = []
  · simp [h]
  · simp [h]

theorem streamLog_drain (res : Chan) (peer : Addr) (q : List Msg) (s : State) :
    streamLog (drain res peer q s) res = streamLog s res ++ q := by
  unfold streamLog
  rw [(drain_spec res peer q s).1, List.filter_append, List.map_append]
  congr 1
  induction q with
  | nil => rfl
  | cons m rest ih => simp [List.filter, ih]

/-- What `/events` does for a registered, unbound peer that presents its
key on a new response object, in a well-formed state: the queue is written
to the stream first, in order, then the presence list if presence is on,
and the stream is bound.  The queue is empty afterwards unless the sweep
that builds the presence list removed somebody while the peer itself
stayed: then the `disconnect` notice of that sweep is left in the queue. -/
theorem events_replays_queue (env : Env) (now1 now2 : Int) (res : Chan) (id : String)
    (s : State) (peer : Addr) (hwf : WellFormed s)
    (hreg : s.connectedUsers.lookup id = some peer)
    (hunbound : weakMapGet s.streams peer = none) (hres : res ∉ s.streams.map Prod.snd) :
    ∃ s1, events env now1 now2 res id (s.heap peer).key s = (.streaming, s1) ∧
      streamLog s1 res = streamLog s res ++ (s.heap peer).queue
        ++ (if env.presence = true then [.presence (objectKeys s1.connectedUsers)] else []) ∧
      weakMapGet s1.streams peer = some res ∧
      ((s1.heap peer).queue = [] ∨
        (env.presence = true ∧ s1.connectedUsers.lookup id = some peer ∧
          ∃ removed, removed ≠ [] ∧ (s1.heap peer).queue = [.disconnect removed])) := by
  have hbind : ∀ m : List (Addr × Chan), weakMapGet (weakMapSet m peer res) peer = some res := by
    intro m
    unfold weakMapGet weakMapSet weakMapDelete
    induction m with
    | nil => simp [List.lookup]
    | cons e rest ih =>
      by_cases h : e.1 = peer
      · simp [List.filter, h, ih]
      · have hb : (e.1 != peer) = true := by simpa using h
        have hb2 : (peer == e.1) = false := by simpa using (Ne.symm h)
        simp [List.filter, hb, List.lookup, hb2, ih]
  have hd := drain_sameShape res peer (s.heap peer).queue s
  have hwf1 : WellFormed (drain res peer (s.heap peer).queue s) :=
    ⟨by rw [hd.1]; exact hwf.keys, by rw [hd.1]; exact hwf.objects,
      by rw [hd.2.1]; exact hwf.bound, by rw [hd.2.1]; exact hwf.channels⟩
  by_cases hp : env.presence = true
  · obtain ⟨s2, h2, hcu, hst, -, -, -, -, -, hyes, hno⟩ :=
      getPeerList_spec env now2 _ hwf1
    have hlog2 : streamLog s2 res = streamLog (drain res peer (s.heap peer).queue s) res := by
      have := getPeerList_streamLog_unbound env now2 _ res hwf1 (by rw [hd.2.1]; exact hres)
      rw [h2] at this
      exact this
    refine ⟨{ s2 with
      written := s2.written ++ [(res, .presence (objectKeys s2.connectedUsers))]
      streams := weakMapSet s2.streams peer res
      closeHandlers := s2.closeHandlers ++ [(res, peer)] }, ?_, ?_, hbind _, ?_⟩
    · simp only [events, hreg, attach, bne_self_eq_false, Bool.false_eq_true, if_false, hp,
        if_true, h2]
    · rw [if_pos hp]
      have hlast : streamLog { s2 with
            written := s2.written ++ [(res, .presence (objectKeys s2.connectedUsers))]
            streams := weakMapSet s2.streams peer res
            closeHandlers := s2.closeHandlers ++ [(res, peer)] } res
          = streamLog s2 res ++ [.presence (objectKeys s2.connectedUsers)] := by
        simp [streamLog, List.filter_append]
      rw [hlast, hlog2, streamLog_drain]
    · by_cases hcase : removedBy (drain res peer (s.heap peer).queue s) now2 ≠ [] ∧
          ∃ k, s2.connectedUsers.lookup k = some peer
      · obtain ⟨hr, k, hk⟩ := hcase
        have hrec := hyes hp hr k peer hk
        unfold Received at hrec
        rw [hd.2.1, hunbound] at hrec
        simp only at hrec
        rw [drain_queue] at hrec
        have hkid : k = id := by
          have hk0 : s.connectedUsers.lookup k = some peer := by
            rw [hcu, hd.1] at hk
            exact lookup_mem _ _ _ hk |> fun hm =>
              lookup_of_mem _ _ _ hwf.keys (List.mem_filter.1 hm).1
          exact eq_of_lookup_eq _ k id peer hwf.objects hk0 hreg
        rw [hkid] at hk
        exact Or.inr ⟨hp, hk, _, hr, by simpa using hrec⟩
      · have hrec := hno peer (by
          by_cases hr : removedBy (drain res peer (s.heap peer).queue s) now2 = []
          · exact Or.inr (Or.inl hr)
          · exact Or.inr (Or.inr (fun h => hcase ⟨hr, h⟩)))
        unfold Received at hrec
        rw [hd.2.1, hunbound] at hrec
        simp only at hrec
        rw [drain_queue] at hrec
        exact Or.inl (by simpa using hrec)
  · have hp' : env.presence = false := by simpa using hp
    refine ⟨{ drain res peer (s.heap peer).queue s with
      streams := weakMapSet (drain res peer (s.heap peer).queue s).streams peer res
      closeHandlers := (drain res peer (s.heap peer).queue s).closeHandlers ++ [(res, peer)] },
      ?_, ?_, hbind _, ?_⟩
    · simp only [events, hreg, attach, bne_self_eq_false, Bool.false_eq_true, if_false, hp']
    · rw [if_neg hp]
      simp only [List.append_nil]
      exact streamLog_drain res peer _ s
    · exact Or.inl (drain_queue res peer s)

/-! ### The character class of `validateID` -/

theorem isAlphanum_iff (c : Char) : c.isAlphanum = true ↔ alphanumeric c := by
  simp only [alphanumeric, Char.isAlphanum, Char.isAlpha, Char.isUpper, Char.isLower,
    Char.isDigit, Bool.or_eq_true, Bool.and_eq_true, decide_eq_true_eq, Char.toNat,
    UInt32.le_def, Fin.le_def]
  constructor
  · rintro ((⟨h1, h2⟩ | ⟨h1, h2⟩) | ⟨h1, h2⟩)
    · exact Or.inr (Or.inl ⟨h1, h2⟩)
    · exact Or.inl ⟨h1, h2⟩
    · exact Or.inr (Or.inr ⟨h1, h2⟩)
  · rintro (⟨h1, h2⟩ | ⟨h1, h2⟩ | ⟨h1, h2⟩)
    · exact Or.inl (Or.inr ⟨h1, h2⟩)
    · exact Or.inl (Or.inl ⟨h1, h2⟩)
    · exact Or.inr ⟨h1, h2⟩

/-! ### Consistency of the reachable states -/

theorem Calm.same (s : State) : Calm s s :=
  ⟨fun _ h => h, fun _ h => h, rfl, fun _ => rfl⟩

theorem Calm.chain {s s1 s2 : State} (h1 : Calm s s1) (h2 : Calm s1 s2) : Calm s s2 :=
  ⟨fun e he => h1.1 e (h2.1 e he), fun b hb => h1.2.1 b (h2.2.1 b hb),
    h2.2.2.1.trans h1.2.2.1, fun a => (h2.2.2.2 a).trans (h1.2.2.2 a)⟩

theorem Consistent.of_calm {s s1 : State} (h : Calm s s1) (hc : Consistent s) :
    Consistent s1 := by
  refine ⟨?_, ?_⟩
  · intro e he
    rw [h.2.2.2 e.2]
    exact hc.ids e (h.1 e he)
  · intro b hb
    rw [h.2.2.1]
    exact hc.boundAllocated b (h.2.1 b hb)

theorem update_id (heap : Addr → Peer) (peer : Addr) (p : Peer) (hp : p.id = (heap peer).id)
    (a : Addr) : (Function.update heap peer p a).id = (heap a).id := by
  by_cases ha : a = peer
  · subst ha
    simp [hp]
  · simp [Function.update, ha]

theorem sendRaw_calm (toID : String) (m : Msg) (s : State) :
    Calm s (sendRaw toID m s).state := by
  unfold sendRaw
  cases s.connectedUsers.lookup toID with
  | none => exact Calm.same s
  | some a =>
    simp only
    cases weakMapGet s.streams a with
    | none => exact ⟨fun _ h => h, fun _ h => h, rfl, fun b => update_id _ _ _ (by rfl) b⟩
    | some c => exact ⟨fun _ h => h, fun _ h => h, rfl, fun _ => rfl⟩

theorem forEach_calm (f : String → State → Result Unit)
    (hf : ∀ x s, Calm s (f x s).state) :
    ∀ (xs : List String) (s : State), Calm s (forEach f xs s).state := by
  intro xs
  induction xs with
  | nil =>
    intro s
    exact Calm.same s
  | cons x rest ih =>
    intro s
    have h1 := hf x s
    simp only [forEach]
    cases hx : f x s with
    | ok v s1 =>
      rw [hx] at h1
      exact h1.chain (ih s1)
    | threw s1 =>
      rw [hx] at h1
      exact h1

theorem notifyConnect_calm (id : String) (connected : List String) (s : State) :
    Calm s (notifyConnect id connected s).state := by
  unfold notifyConnect
  apply forEach_calm
  intro x s1
  by_cases h : (x != id) = true
  · simp only [h, if_true]
    exact sendRaw_calm x _ s1
  · simp only [h]
    exact Calm.same s1

theorem sweep_calm (now : Int) :
    ∀ (ks removed : List String) (s : State), Calm s (sweep now ks removed s).state := by
  intro ks
  induction ks with
  | nil =>
    intro removed s
    exact Calm.same s
  | cons key rest ih =>
    intro removed s
    simp only [sweep]
    cases s.connectedUsers.lookup key with
    | none => exact Calm.same s
    | some a =>
      simp only
      split
      · refine Calm.chain ?_ (ih _ _)
        exact ⟨fun e he => (List.mem_filter.1 he).1, fun _ h => h, rfl, fun _ => rfl⟩
      · exact ih _ _

theorem getPeerList_calm (env : Env) (now : Int) (s : State) :
    Calm s (getPeerList env now s).state := by
  unfold getPeerList
  have h1 := sweep_calm now (objectKeys s.connectedUsers) [] s
  cases hs : sweep now (objectKeys s.connectedUsers) [] s with
  | threw s1 =>
    rw [hs] at h1
    exact h1
  | ok removed s1 =>
    rw [hs] at h1
    simp only
    split
    · have h2 := forEach_calm (fun peerID => sendRaw peerID (.disconnect removed))
        (fun x s2 => sendRaw_calm x _ s2) (objectKeys s1.connectedUsers) s1
      cases hf : forEach (fun peerID => sendRaw peerID (.disconnect removed))
          (objectKeys s1.connectedUsers) s1 with
      | ok v s2 =>
        rw [hf] at h2
        exact h1.chain h2
      | threw s2 =>
        rw [hf] at h2
        exact h1.chain h2
    · exact h1

theorem drain_calm (res : Chan) (peer : Addr) :
    ∀ (q : List Msg) (s : State), Calm s (drain res peer q s) := by
  intro q
  induction q with
  | nil =>
    intro s
    exact Calm.same s
  | cons m rest ih =>
    intro s
    simp only [drain]
    refine Calm.chain ?_ (ih _)
    exact ⟨fun _ h => h, fun _ h => h, rfl, fun b => update_id _ _ _ (by rfl) b⟩

theorem closeListener_calm (env : Env) (now : Int) (peer : Addr) (s : State) :
    Calm s (closeListener env now peer s) :=
  ⟨fun _ h => h, fun b hb => (List.mem_filter.1 hb).1, rfl, fun b => update_id _ _ _ (by rfl) b⟩

theorem close_calm (env : Env) (now : Int) (res : Chan) (s : State) :
    Calm s (close env now res s) := by
  unfold close
  generalize s.closeHandlers.filter (fun h => h.1 == res) = hs
  induction hs generalizing s with
  | nil => exact Calm.same s
  | cons h rest ih =>
    simp only [List.foldl_cons]
    exact (closeListener_calm env now h.2 s).chain (ih _)

theorem disconnect_calm (env : Env) (now : Int) (id key : String) (s : State) :
    Calm s (disconnect env now id key s).2 := by
  unfold disconnect
  cases s.connectedUsers.lookup id with
  | none =>
    simp only
    split <;> exact Calm.same s
  | some peer =>
    simp only
    split
    · exact Calm.same s
    · have h1 : Calm s { s with
          streams := weakMapDelete s.streams peer
          heap := Function.update s.heap peer { s.heap peer with timeout := .ms 0 } } :=
        ⟨fun _ h => h, fun b hb => (List.mem_filter.1 hb).1, rfl,
          fun b => update_id _ _ _ (by rfl) b⟩
      have h2 := getPeerList_calm env now { s with
          streams := weakMapDelete s.streams peer
          heap := Function.update s.heap peer { s.heap peer with timeout := .ms 0 } }
      cases hg : getPeerList env now { s with
          streams := weakMapDelete s.streams peer
          heap := Function.update s.heap peer { s.heap peer with timeout := .ms 0 } } with
      | ok v s3 =>
        rw [hg] at h2
        exact h1.chain h2
      | threw s3 =>
        rw [hg] at h2
        exact h1.chain h2

theorem sendSignal_calm (toID id key : String) (signal : Payload) (s : State) :
    Calm s (sendSignal toID id key signal s).2 := by
  unfold sendSignal
  cases s.connectedUsers.lookup id with
  | none =>
    simp only
    split <;> exact Calm.same s
  | some peer =>
    simp only
    split
    · exact Calm.same s
    · cases s.connectedUsers.lookup toID with
      | none =>
        simp only
        split
        · have hs := sendRaw_calm "undefined" (.signal (s.heap peer).id signal) s
          cases hr : sendRaw "undefined" (.signal (s.heap peer).id signal) s with
          | ok v s1 =>
            rw [hr] at hs
            exact hs
          | threw s1 =>
            rw [hr] at hs
            exact hs
        · exact Calm.same s
      | some target =>
        simp only
        have hs := sendRaw_calm (s.heap target).id (.signal (s.heap peer).id signal) s
        cases hr : sendRaw (s.heap target).id (.signal (s.heap peer).id signal) s with
        | ok v s1 =>
          rw [hr] at hs
          exact hs
        | threw s1 =>
          rw [hr] at hs
          exact hs

theorem broadcastRaw_calm (env : Env) (now : Int) (message : Msg) (s : State) :
    Calm s (broadcastRaw env now message s).state := by
  unfold broadcastRaw
  have h1 := getPeerList_calm env now s
  cases hg : getPeerList env now s with
  | threw s1 =>
    rw [hg] at h1
    exact h1
  | ok peers s1 =>
    rw [hg] at h1
    simp only
    exact h1.chain (forEach_calm _ (fun x s2 => sendRaw_calm x message s2) peers s1)

theorem connect_eq (env : Env) (now1 now2 : Int) (s : State) :
    connect env now1 now2 s =
      if env.presence then
        match getPeerList env now2 (registered env now1 s) with
        | .threw s3 => (.threw, s3)
        | .ok connected s3 =>
          match notifyConnect (makeID env s.draws env.idLength).1 connected s3 with
          | .threw s4 => (.threw, s4)
          | .ok _ s4 => (.credentials (s4.heap s.next).id (s4.heap s.next).key, s4)
      else (.credentials ((registered env now1 s).heap s.next).id
        ((registered env now1 s).heap s.next).key, registered env now1 s) :=
  rfl

theorem events_recovery_eq (env : Env) (now1 now2 : Int) (res : Chan) (id key : String)
    (s : State) (hreg : s.connectedUsers.lookup id = none) (hname : id ∉ inheritedNames)
    (hvalid : validateID id env.idLength = true) (hkey : (makeKey env s.draws id).1 = key) :
    events env now1 now2 res id key s =
      if env.presence then
        match getPeerList env now1 (recovered env id s) with
        | .threw s3 => (.threw, s3)
        | .ok connected s3 =>
          match notifyConnect (s3.heap s.next).id connected s3 with
          | .threw s4 => (.threw, s4)
          | .ok _ s4 => attach env now2 res key s.next s4
      else attach env now2 res key s.next (recovered env id s) := by
  simp only [events, hreg, hname, hvalid, hkey, if_true, if_false]
  rfl

/-- Storing a new record under its own id keeps the consistency. -/
theorem store_consistent (s s1 : State) (id : String) (p : Peer) (hi : Invariant s)
    (hc : Consistent s) (hp : p.id = id)
    (hcu : s1.connectedUsers = objectSet s.connectedUsers id s.next)
    (hnx : s1.next = s.next + 1) (hst : s1.streams = s.streams)
    (hheap : s1.heap = Function.update s.heap s.next p) : Consistent s1 := by
  refine ⟨?_, ?_⟩
  · intro e he
    rw [hcu] at he
    rw [hheap]
    rcases mem_objectSet _ _ _ e he with h1 | h1
    · have hlt := hi.allocated e h1
      have hne : e.2 ≠ s.next := Nat.ne_of_lt hlt
      simp only [Function.update, hne, dite_false]
      exact hc.ids e h1
    · rw [h1]
      simp [hp]
  · intro b hb
    rw [hst] at hb
    rw [hnx]
    exact Nat.lt_succ_of_lt (hc.boundAllocated b hb)

theorem registered_consistent (env : Env) (now1 : Int) (s : State) (hi : Invariant s)
    (hc : Consistent s) : Consistent (registered env now1 s) :=
  store_consistent s (registered env now1 s) (makeID env s.draws env.idLength).1
    { id := (makeID env s.draws env.idLength).1
      key := (makeKey env (makeID env s.draws env.idLength).2
        (makeID env s.draws env.idLength).1).1
      queue := []
      timeout := .ms (now1 + env.timeout) } hi hc rfl rfl rfl rfl rfl

theorem recovered_consistent (env : Env) (id : String) (s : State) (hi : Invariant s)
    (hc : Consistent s) : Consistent (recovered env id s) :=
  store_consistent s (recovered env id s) id
    { id := id
      key := (makeKey env (makeKey env s.draws id).2 id).1
      queue := []
      timeout := .infinity } hi hc rfl rfl rfl rfl rfl

theorem registered_invariant (env : Env) (now1 : Int) (s : State) (hi : Invariant s) :
    Invariant (registered env now1 s) :=
  register_invariant s _ _ hi rfl rfl rfl rfl

theorem recovered_invariant (env : Env) (id : String) (s : State) (hi : Invariant s) :
    Invariant (recovered env id s) :=
  register_invariant s _ _ hi rfl rfl rfl rfl

theorem bind_consistent (s : State) (peer : Addr) (res : Chan) (extra : List (Chan × Msg))
    (hc : Consistent s) (hp : peer < s.next) :
    Consistent { s with
      written := s.written ++ extra
      streams := weakMapSet s.streams peer res
      closeHandlers := s.closeHandlers ++ [(res, peer)] } := by
  refine ⟨hc.ids, ?_⟩
  intro b hb
  simp only [weakMapSet, weakMapDelete] at hb
  rcases List.mem_append.1 hb with h1 | h1
  · exact hc.boundAllocated b (List.mem_filter.1 h1).1
  · rw [List.mem_singleton] at h1
    rw [h1]
    exact hp

theorem attach_consistent (env : Env) (now : Int) (res : Chan) (key : String) (peer : Addr)
    (s : State) (hc : Consistent s) (hp : peer < s.next) :
    Consistent (attach env now res key peer s).2 := by
  unfold attach
  by_cases hk : (key != (s.heap peer).key) = true
  · simp only [hk, if_true]
    exact Consistent.of_calm (⟨fun _ h => h, fun _ h => h, rfl, fun _ => rfl⟩ : Calm s _) hc
  · simp only [hk, Bool.false_eq_true, if_false]
    have hd := drain_calm res peer (s.heap peer).queue s
    have hc1 := Consistent.of_calm hd hc
    have hp1 : peer < (drain res peer (s.heap peer).queue s).next := by
      rw [hd.2.2.1]
      exact hp
    by_cases hpres : env.presence = true
    · simp only [hpres, if_true]
      have hg := getPeerList_calm env now (drain res peer (s.heap peer).queue s)
      cases hr : getPeerList env now (drain res peer (s.heap peer).queue s) with
      | threw s2 =>
        rw [hr] at hg
        exact Consistent.of_calm hg hc1
      | ok connected s2 =>
        rw [hr] at hg
        simp only
        have hp2 : peer < s2.next := by
          rw [show s2.next = _ from hg.2.2.1]
          exact hp1
        exact bind_consistent s2 peer res [(res, .presence connected)]
          (Consistent.of_calm hg hc1) hp2
    · simp only [hpres, Bool.false_eq_true, if_false]
      have := bind_consistent _ peer res [] hc1 hp1
      simpa using this

theorem connect_consistent (env : Env) (now1 now2 : Int) (s : State) (hi : Invariant s)
    (hc : Consistent s) : Consistent (connect env now1 now2 s).2 := by
  have hc2 := registered_consistent env now1 s hi hc
  rw [connect_eq]
  split
  · have hg := getPeerList_calm env now2 (registered env now1 s)
    cases hr : getPeerList env now2 (registered env now1 s) with
    | threw s3 =>
      rw [hr] at hg
      exact Consistent.of_calm hg hc2
    | ok connected s3 =>
      rw [hr] at hg
      simp only
      have hn := notifyConnect_calm (makeID env s.draws env.idLength).1 connected s3
      cases hnc : notifyConnect (makeID env s.draws env.idLength).1 connected s3 with
      | threw s4 =>
        rw [hnc] at hn
        exact Consistent.of_calm (hg.chain hn) hc2
      | ok v s4 =>
        rw [hnc] at hn
        exact Consistent.of_calm (hg.chain hn) hc2
  · exact hc2

theorem events_consistent (env : Env) (now1 now2 : Int) (res : Chan) (id key : String)
    (s : State) (hi : Invariant s) (hc : Consistent s) :
    Consistent (events env now1 now2 res id key s).2 := by
  cases hl : s.connectedUsers.lookup id with
  | some peer =>
    have hp : peer < s.next := hi.allocated (id, peer) (lookup_mem _ _ _ hl)
    simp only [events, hl]
    exact attach_consistent env now2 res key peer s hc hp
  | none =>
    by_cases hin : id ∈ inheritedNames
    · simp only [events, hl, hin, if_true]
      exact Consistent.of_calm (⟨fun _ h => h, fun _ h => h, rfl, fun _ => rfl⟩ : Calm s _) hc
    by_cases hv : validateID id env.idLength = true
    · by_cases hk : (makeKey env s.draws id).1 = key
      · rw [events_recovery_eq env now1 now2 res id key s hl hin hv hk]
        have hc2 := recovered_consistent env id s hi hc
        have hnext : s.next < (recovered env id s).next := Nat.lt_succ_self _
        split
        · have hg := getPeerList_calm env now1 (recovered env id s)
          cases hr : getPeerList env now1 (recovered env id s) with
          | threw s3 =>
            rw [hr] at hg
            exact Consistent.of_calm hg hc2
          | ok connected s3 =>
            rw [hr] at hg
            simp only
            have hn := notifyConnect_calm (s3.heap s.next).id connected s3
            cases hnc : notifyConnect (s3.heap s.next).id connected s3 with
            | threw s4 =>
              rw [hnc] at hn
              exact Consistent.of_calm (hg.chain hn) hc2
            | ok v s4 =>
              rw [hnc] at hn
              simp only
              apply attach_consistent env now2 res key s.next s4
                (Consistent.of_calm (hg.chain hn) hc2)
              rw [show s4.next = _ from (hg.chain hn).2.2.1]
              exact hnext
        · exact attach_consistent env now2 res key s.next _ hc2 hnext
      · simp only [events, hl, hin, hv, hk, if_true, if_false]
        exact Consistent.of_calm (⟨fun _ h => h, fun _ h => h, rfl, fun _ => rfl⟩ : Calm s _) hc
    · simp only [events, hl, hin, hv, if_false]
      exact hc

theorem consistent_initial : Consistent initial :=
  ⟨by simp [initial], by simp [initial]⟩

/-- Every reachable state is consistent. -/
theorem Reachable.consistent (env : Env) (s : State) (h : Reachable env s) : Consistent s := by
  induction h with
  | initial => exact consistent_initial
  | connect s now1 now2 hs ih =>
    exact connect_consistent env now1 now2 s (Reachable.invariant env s hs) ih
  | disconnect s now id key _ ih =>
    exact Consistent.of_calm (disconnect_calm env now id key s) ih
  | events s now1 now2 res id key hs _ ih =>
    exact events_consistent env now1 now2 res id key s (Reachable.invariant env s hs) ih
  | close s now res _ ih => exact Consistent.of_calm (close_calm env now res s) ih
  | sendSignal s toID id key signal _ ih =>
    exact Consistent.of_calm (sendSignal_calm toID id key signal s) ih
  | sendRaw s toID message _ ih => exact Consistent.of_calm (sendRaw_calm toID message s) ih
  | broadcastRaw s now message _ ih =>
    exact Consistent.of_calm (broadcastRaw_calm env now message s) ih
  | getPeerList s now _ ih => exact Consistent.of_calm (getPeerList_calm env now s) ih

/-! ### Notices of a sweep, `connect` notices -/

theorem forEach_skip (p : String → Bool) (f : String → State → Result Unit) :
    ∀ (xs : List String) (s : State),
      forEach (fun x s1 => if p x then f x s1 else .ok () s1) xs s
        = forEach f (xs.filter p) s := by
  intro xs
  induction xs with
  | nil =>
    intro s
    rfl
  | cons x rest ih =>
    intro s
    by_cases hx : p x = true
    · simp only [forEach, hx, if_true, List.filter_cons_of_pos]
      cases f x s with
      | ok v s1 => exact ih s1
      | threw s1 => rfl
    · have hx' : p x = false := by simpa using hx
      simp only [forEach, hx', Bool.false_eq_true, if_false, List.filter_cons_of_neg hx]
      exact ih s

theorem received_nil_of (s s1 : State) (b : Addr)
    (hq : (s1.heap b).queue = (s.heap b).queue)
    (hlog : ∀ c, weakMapGet s.streams b = some c → streamLog s1 c = streamLog s c) :
    Received s s1 b [] := by
  unfold Received
  cases hw : weakMapGet s.streams b with
  | none => simp [hq]
  | some c => simp [hq, hlog c hw]

theorem notice_of_presence_off (env : Env) (s : State) (now : Int)
    (hp : env.presence = false) : notice env s now = [] := by
  simp [notice, hp]

theorem notice_of_nothing_removed (env : Env) (s : State) (now : Int)
    (hr : removedBy s now = []) : notice env s now = [] := by
  simp [notice, hr]

theorem notice_of_removed (env : Env) (s : State) (now : Int) (hp : env.presence = true)
    (hr : removedBy s now ≠ []) : notice env s now = [.disconnect (removedBy s now)] := by
  have : (removedBy s now).isEmpty = false := by
    cases h : removedBy s now with
    | nil => exact absurd h hr
    | cons a l => rfl
  simp [notice, hp, this]

theorem removedBy_congr (s s1 : State) (now : Int) (hcu : s1.connectedUsers = s.connectedUsers)
    (ht : ∀ b, (s1.heap b).timeout = (s.heap b).timeout) :
    removedBy s1 now = removedBy s now := by
  unfold removedBy
  rw [hcu]
  apply List.filter_congr
  intro k _
  unfold expiredKey
  rw [hcu]
  cases s.connectedUsers.lookup k with
  | none => rfl
  | some a =>
    simp only
    rw [ht a]

theorem notice_congr (env : Env) (s s1 : State) (now : Int)
    (hcu : s1.connectedUsers = s.connectedUsers)
    (ht : ∀ b, (s1.heap b).timeout = (s.heap b).timeout) :
    notice env s1 now = notice env s now := by
  unfold notice
  rw [removedBy_congr s s1 now hcu ht]

theorem swept_congr (s s1 : State) (now : Int) (hcu : s1.connectedUsers = s.connectedUsers)
    (ht : ∀ b, (s1.heap b).timeout = (s.heap b).timeout) :
    s1.connectedUsers.filter (fun e => !expiredEntry s1.heap now e)
      = s.connectedUsers.filter (fun e => !expiredEntry s.heap now e) := by
  rw [hcu]
  apply List.filter_congr
  intro e _
  simp [expiredEntry, ht e.2]

/-- The sweep in terms of `notice`: every peer object left in the registry
is sent `notice`, every other peer object nothing. -/
theorem getPeerList_notice (env : Env) (now : Int) (s : State) (hwf : WellFormed s) :
    ∃ s1, getPeerList env now s = .ok (objectKeys s1.connectedUsers) s1 ∧
      s1.connectedUsers = s.connectedUsers.filter (fun e => !expiredEntry s.heap now e) ∧
      s1.streams = s.streams ∧ s1.next = s.next ∧
      s1.closeHandlers = s.closeHandlers ∧ s1.draws = s.draws ∧
      WellFormed s1 ∧
      (∀ b, (s1.heap b).id = (s.heap b).id ∧ (s1.heap b).key = (s.heap b).key ∧
        (s1.heap b).timeout = (s.heap b).timeout) ∧
      (∀ b, (∃ k, s1.connectedUsers.lookup k = some b) → Received s s1 b (notice env s now)) ∧
      (∀ b, (¬ ∃ k, s1.connectedUsers.lookup k = some b) → Received s s1 b []) := by
  obtain ⟨s1, h1, hcu, hst, hnx, hch, hdr, hwf1, hfields, hyes, hno⟩ :=
    getPeerList_spec env now s hwf
  refine ⟨s1, h1, hcu, hst, hnx, hch, hdr, hwf1, hfields, ?_, ?_⟩
  · rintro b ⟨k, hk⟩
    by_cases hp : env.presence = true
    · by_cases hr : removedBy s now = []
      · rw [notice_of_nothing_removed env s now hr]
        exact hno b (Or.inr (Or.inl hr))
      · rw [notice_of_removed env s now hp hr]
        exact hyes hp hr k b hk
    · have hp' : env.presence = false := by simpa using hp
      rw [notice_of_presence_off env s now hp']
      exact hno b (Or.inl hp')
  · intro b hb
    exact hno b (Or.inr (Or.inr hb))

theorem notifyConnect_eq (id : String) (connected : List String) (s : State) :
    notifyConnect id connected s
      = forEach (fun peerID => sendRaw peerID (.connect [id]))
          (connected.filter (fun peerID => peerID != id)) s :=
  forEach_skip (fun peerID => peerID != id) (fun peerID => sendRaw peerID (.connect [id]))
    connected s

/-- The sweep followed by the `connect` notices, as `/connect` and the
recovery branch of `/events` run them once the record of `id` is stored:
every peer left in the registry is sent the notice of the sweep, every one
of them but `id` is then sent `{ connect: [id] }` once, and a peer object
that is not registered afterwards is sent nothing. -/
theorem announce_spec (env : Env) (now : Int) (id : String) (s : State) (hwf : WellFormed s) :
    ∃ s3 s4, getPeerList env now s = .ok (objectKeys s3.connectedUsers) s3 ∧
      notifyConnect id (objectKeys s3.connectedUsers) s3 = .ok () s4 ∧
      s4.connectedUsers = s.connectedUsers.filter (fun e => !expiredEntry s.heap now e) ∧
      s4.streams = s.streams ∧ s4.next = s.next ∧
      s4.closeHandlers = s.closeHandlers ∧ s4.draws = s.draws ∧
      WellFormed s4 ∧
      (∀ b, (s3.heap b).id = (s.heap b).id) ∧
      (∀ b, (s4.heap b).id = (s.heap b).id ∧ (s4.heap b).key = (s.heap b).key ∧
        (s4.heap b).timeout = (s.heap b).timeout) ∧
      (∀ k b, s4.connectedUsers.lookup k = some b → k ≠ id →
        Received s s4 b (notice env s now ++ [.connect [id]])) ∧
      (∀ b, s4.connectedUsers.lookup id = some b → Received s s4 b (notice env s now)) ∧
      (∀ b, (¬ ∃ k, s4.connectedUsers.lookup k = some b) → Received s s4 b []) ∧
      (∀ c, c ∉ s.streams.map Prod.snd → streamLog s4 c = streamLog s c) := by
  obtain ⟨s3, h3, hcu3, hst3, hnx3, hch3, hdr3, hwf3, hf3, hyes3, hno3⟩ :=
    getPeerList_notice env now s hwf
  have hnd : ((objectKeys s3.connectedUsers).filter (fun peerID => peerID != id)).Nodup :=
    (nodup_objectKeys _ hwf3.keys).filter _
  have hregd : ∀ k ∈ (objectKeys s3.connectedUsers).filter (fun peerID => peerID != id),
      ∃ a, s3.connectedUsers.lookup k = some a := fun k hk =>
    lookup_isSome_of_mem_keys _ k ((mem_objectKeys _ k).1 (List.mem_filter.1 hk).1)
  obtain ⟨s4, h4, hcu4, hst4, hnx4, hch4, hdr4, hf4, hyes4, hno4⟩ :=
    forEach_sendRaw_received (.connect [id]) _ s3 hwf3 hnd hregd
  have hwf4 : WellFormed s4 :=
    ⟨by rw [hcu4]; exact hwf3.keys, by rw [hcu4]; exact hwf3.objects,
      by rw [hst4]; exact hwf3.bound, by rw [hst4]; exact hwf3.channels⟩
  refine ⟨s3, s4, h3, (notifyConnect_eq id _ s3).trans h4, hcu4.trans hcu3, hst4.trans hst3,
    hnx4.trans hnx3, hch4.trans hch3, hdr4.trans hdr3, hwf4, fun b => (hf3 b).1, ?_, ?_, ?_,
    ?_, ?_⟩
  · intro b
    exact ⟨(hf4 b).1.trans (hf3 b).1, (hf4 b).2.1.trans (hf3 b).2.1,
      (hf4 b).2.2.trans (hf3 b).2.2⟩
  · intro k b hk hne
    rw [hcu4] at hk
    have r3 := hyes3 b ⟨k, hk⟩
    have hmem : k ∈ (objectKeys s3.connectedUsers).filter (fun peerID => peerID != id) :=
      List.mem_filter.2 ⟨(mem_objectKeys _ k).2 (mem_keys_of_lookup _ k b hk), by simpa using hne⟩
    exact received_trans s s3 s4 b _ _ hst3 r3 (hyes4 b ⟨k, hmem, hk⟩)
  · intro b hk
    rw [hcu4] at hk
    have r3 := hyes3 b ⟨id, hk⟩
    have r4 := hno4 b (by
      rintro ⟨k, hkm, hkb⟩
      have hne : k ≠ id := by simpa using (List.mem_filter.1 hkm).2
      exact hne (eq_of_lookup_eq _ k id b hwf3.objects hkb hk))
    have := received_trans s s3 s4 b _ _ hst3 r3 r4
    simpa using this
  · intro b hb
    have hb3 : ¬ ∃ k, s3.connectedUsers.lookup k = some b := by
      rw [← hcu4]
      exact hb
    have r4 := hno4 b (fun ⟨k, _, hk⟩ => hb3 ⟨k, hk⟩)
    exact received_trans s s3 s4 b [] [] hst3 (hno3 b hb3) r4
  · intro c hc
    have e3 : streamLog s3 c = streamLog s c := by
      have := getPeerList_streamLog_unbound env now s c hwf hc
      rw [h3] at this
      exact this
    have e4 := forEach_sendRaw_streamLog_unbound (.connect [id]) c
      ((objectKeys s3.connectedUsers).filter (fun peerID => peerID != id)) s3
      (by rw [hst3]; exact hc)
    rw [h4] at e4
    exact e4.trans e3

/-! ### Binding the stream -/

theorem weakMapGet_weakMapSet_self (m : List (Addr × Chan)) (peer : Addr) (res : Chan) :
    weakMapGet (weakMapSet m peer res) peer = some res := by
  unfold weakMapGet weakMapSet weakMapDelete
  induction m with
  | nil => simp [List.lookup]
  | cons e rest ih =>
    by_cases h : e.1 = peer
    · simp [List.filter, h, ih]
    · have hb : (e.1 != peer) = true := by simpa using h
      have hb2 : (peer == e.1) = false := by simpa using (Ne.symm h)
      simp [List.filter, hb, List.lookup, hb2, ih]

theorem drain_fields (res : Chan) (peer : Addr) (q : List Msg) (s : State) (b : Addr) :
    ((drain res peer q s).heap b).id = (s.heap b).id ∧
      ((drain res peer q s).heap b).key = (s.heap b).key ∧
      ((drain res peer q s).heap b).timeout = (s.heap b).timeout := by
  obtain ⟨-, h2, h3⟩ := drain_spec res peer q s
  by_cases hb : b = peer
  · subst hb
    rw [h3]
    exact ⟨rfl, rfl, rfl⟩
  · rw [h2 b hb]
    exact ⟨rfl, rfl, rfl⟩

theorem streamLog_drain_ne (res : Chan) (peer : Addr) (q : List Msg) (s : State) (c : Chan)
    (hc : c ≠ res) : streamLog (drain res peer q s) c = streamLog s c := by
  unfold streamLog
  rw [(drain_spec res peer q s).1, List.filter_append, List.map_append]
  have : (q.map (fun m => (res, m))).filter (fun w => w.1 == c) = [] := by
    rw [List.filter_eq_nil_iff]
    intro w hw
    obtain ⟨m, _, hm⟩ := List.mem_map.1 hw
    rw [← hm]
    simpa using Ne.symm hc
  rw [this]
  simp

theorem received_drain (res : Chan) (peer : Addr) (s : State) (b : Addr) (hb : b ≠ peer)
    (hres : res ∉ s.streams.map Prod.snd) :
    Received s (drain res peer (s.heap peer).queue s) b [] := by
  apply received_nil_of
  · rw [(drain_spec res peer _ s).2.1 b hb]
  · intro c hc
    apply streamLog_drain_ne
    rintro rfl
    exact hres (weakMapGet_mem _ _ _ hc)

/-- The `/events` handler from the key check on, with presence off, for an
unbound peer object with the right key and a new response object: the
queue is written to the stream in order, the stream is bound, the queue is
empty afterwards, and no other peer object is sent anything. -/
theorem attach_quiet (env : Env) (now : Int) (res : Chan) (peer : Addr) (s : State)
    (hp : env.presence = false) (hres : res ∉ s.streams.map Prod.snd) :
    ∃ s1, attach env now res (s.heap peer).key peer s = (.streaming, s1) ∧
      s1.connectedUsers = s.connectedUsers ∧
      s1.streams = weakMapSet s.streams peer res ∧ s1.next = s.next ∧
      s1.closeHandlers = s.closeHandlers ++ [(res, peer)] ∧
      (∀ b, (s1.heap b).id = (s.heap b).id ∧ (s1.heap b).key = (s.heap b).key ∧
        (s1.heap b).timeout = (s.heap b).timeout) ∧
      streamLog s1 res = streamLog s res ++ (s.heap peer).queue ∧
      (s1.heap peer).queue = [] ∧
      (∀ b, b ≠ peer → Received s s1 b []) := by
  have hd := drain_sameShape res peer (s.heap peer).queue s
  refine ⟨{ drain res peer (s.heap peer).queue s with
    streams := weakMapSet (drain res peer (s.heap peer).queue s).streams peer res
    closeHandlers := (drain res peer (s.heap peer).queue s).closeHandlers ++ [(res, peer)] },
    ?_, hd.1, ?_, hd.2.2.1, ?_, ?_, ?_, ?_, ?_⟩
  · simp only [attach, bne_self_eq_false, Bool.false_eq_true, if_false, hp]
  · show weakMapSet (drain res peer (s.heap peer).queue s).streams peer res = _
    rw [hd.2.1]
  · show (drain res peer (s.heap peer).queue s).closeHandlers ++ [(res, peer)] = _
    rw [hd.2.2.2]
  · intro b
    exact drain_fields res peer _ s b
  · exact streamLog_drain res peer _ s
  · exact drain_queue res peer s
  · intro b hb
    exact received_drain res peer s b hb hres

/-- The `/events` handler from the key check on, with presence on, for an
unbound peer object with the right key and a new response object, in a
well-formed state: the queue is written to the stream in order, then the
presence list, and the stream is bound; the sweep that builds the list
sends its notice to every peer object left in the registry, the attaching
one included, whose queue then holds it. -/
theorem attach_spec (env : Env) (now : Int) (res : Chan) (peer : Addr) (s : State)
    (hp : env.presence = true) (hwf : WellFormed s)
    (hunbound : weakMapGet s.streams peer = none) (hres : res ∉ s.streams.map Prod.snd) :
    ∃ s1, attach env now res (s.heap peer).key peer s = (.streaming, s1) ∧
      s1.connectedUsers = s.connectedUsers.filter (fun e => !expiredEntry s.heap now e) ∧
      s1.streams = weakMapSet s.streams peer res ∧ s1.next = s.next ∧
      s1.closeHandlers = s.closeHandlers ++ [(res, peer)] ∧
      (∀ b, (s1.heap b).id = (s.heap b).id ∧ (s1.heap b).key = (s.heap b).key ∧
        (s1.heap b).timeout = (s.heap b).timeout) ∧
      streamLog s1 res = streamLog s res ++ (s.heap peer).queue
        ++ [.presence (objectKeys s1.connectedUsers)] ∧
      ((∃ k, s1.connectedUsers.lookup k = some peer) →
        (s1.heap peer).queue = notice env s now) ∧
      ((¬ ∃ k, s1.connectedUsers.lookup k = some peer) → (s1.heap peer).queue = []) ∧
      (∀ b, b ≠ peer → (∃ k, s1.connectedUsers.lookup k = some b) →
        Received s s1 b (notice env s now)) ∧
      (∀ b, b ≠ peer → (¬ ∃ k, s1.connectedUsers.lookup k = some b) → Received s s1 b []) := by
  have hd := drain_sameShape res peer (s.heap peer).queue s
  have hdt : ∀ b, ((drain res peer (s.heap peer).queue s).heap b).timeout
      = (s.heap b).timeout := fun b => (drain_fields res peer _ s b).2.2
  have hwf1 : WellFormed (drain res peer (s.heap peer).queue s) :=
    ⟨by rw [hd.1]; exact hwf.keys, by rw [hd.1]; exact hwf.objects,
      by rw [hd.2.1]; exact hwf.bound, by rw [hd.2.1]; exact hwf.channels⟩
  obtain ⟨s2, h2, hcu, hst, hnx, hch, -, -, hf2, hyes, hno⟩ :=
    getPeerList_notice env now _ hwf1
  rw [notice_congr env s _ now hd.1 hdt] at hyes
  rw [swept_congr s _ now hd.1 hdt] at hcu
  have hlog2 : streamLog s2 res = streamLog (drain res peer (s.heap peer).queue s) res := by
    have := getPeerList_streamLog_unbound env now _ res hwf1 (by rw [hd.2.1]; exact hres)
    rw [h2] at this
    exact this
  have hfinal : ∀ b, Received s2
      { s2 with
        written := s2.written ++ [(res, .presence (objectKeys s2.connectedUsers))]
        streams := weakMapSet s2.streams peer res
        closeHandlers := s2.closeHandlers ++ [(res, peer)] } b [] := by
    intro b
    apply received_nil_of
    · rfl
    · intro c hc
      have hcr : c ≠ res := by
        rintro rfl
        rw [hst, hd.2.1] at hc
        exact hres (weakMapGet_mem _ _ _ hc)
      have hb : (res == c) = false := by simpa using Ne.symm hcr
      simp [streamLog, List.filter_append, List.filter, hb]
  have hown : ∀ ms, Received (drain res peer (s.heap peer).queue s) s2 peer ms →
      (s2.heap peer).queue = ms := by
    intro ms hr
    unfold Received at hr
    rw [hd.2.1, hunbound] at hr
    simp only at hr
    rw [drain_queue] at hr
    simpa using hr
  refine ⟨{ s2 with
    written := s2.written ++ [(res, .presence (objectKeys s2.connectedUsers))]
    streams := weakMapSet s2.streams peer res
    closeHandlers := s2.closeHandlers ++ [(res, peer)] }, ?_, hcu, ?_, hnx.trans hd.2.2.1, ?_,
    ?_, ?_, ?_, ?_, ?_, ?_⟩
  · simp only [attach, bne_self_eq_false, Bool.false_eq_true, if_false, hp, if_true, h2]
  · show weakMapSet s2.streams peer res = _
    rw [hst, hd.2.1]
  · show s2.closeHandlers ++ [(res, peer)] = _
    rw [hch, hd.2.2.2]
  · intro b
    have h1 := drain_fields res peer (s.heap peer).queue s b
    exact ⟨(hf2 b).1.trans h1.1, (hf2 b).2.1.trans h1.2.1, (hf2 b).2.2.trans h1.2.2⟩
  · have hlast : streamLog { s2 with
          written := s2.written ++ [(res, .presence (objectKeys s2.connectedUsers))]
          streams := weakMapSet s2.streams peer res
          closeHandlers := s2.closeHandlers ++ [(res, peer)] } res
        = streamLog s2 res ++ [.presence (objectKeys s2.connectedUsers)] := by
      simp [streamLog, List.filter_append]
    rw [hlast, hlog2, streamLog_drain]
  · intro hk
    exact hown _ (hyes peer hk)
  · intro hk
    exact hown _ (hno peer hk)
  · intro b hb hk
    have r1 := received_drain res peer s b hb hres
    have r2 := hyes b hk
    have r3 := hfinal b
    have r12 := received_trans s _ s2 b _ _ hd.2.1 r1 r2
    have := received_trans s s2 _ b _ _ (hst.trans hd.2.1) r12 r3
    simpa using this
  · intro b hb hk
    have r1 := received_drain res peer s b hb hres
    have r2 := hno b hk
    have r3 := hfinal b
    have r12 := received_trans s _ s2 b _ _ hd.2.1 r1 r2
    have := received_trans s s2 _ b _ _ (hst.trans hd.2.1) r12 r3
    simpa using this

/-! ### Storing a record, one delivery -/

theorem lookup_objectSet_self (o : List (String × Addr)) (key : String) (value : Addr) :
    (objectSet o key value).lookup key = some value := by
  induction o with
  | nil => simp [objectSet, List.lookup]
  | cons e rest ih =>
    obtain ⟨k1, v1⟩ := e
    by_cases hk : k1 = key
    · subst hk
      simp [objectSet, List.lookup]
    · have hb : (key == k1) = false := by simpa using (Ne.symm hk)
      simp [objectSet, hk, List.lookup, hb, ih]

theorem lookup_objectSet_ne (o : List (String × Addr)) (key k : String) (value : Addr)
    (h : k ≠ key) : (objectSet o key value).lookup k = o.lookup k := by
  induction o with
  | nil =>
    have hb : (k == key) = false := by simpa using h
    simp [objectSet, List.lookup, hb]
  | cons e rest ih =>
    obtain ⟨k1, v1⟩ := e
    by_cases hk : k1 = key
    · subst hk
      have hb : (k == k1) = false := by simpa using h
      simp [objectSet, List.lookup, hb]
    · by_cases hkk : k = k1
      · subst hkk
        simp [objectSet, hk, List.lookup]
      · have hb : (k == k1) = false := by simpa using hkk
        simp [objectSet, hk, List.lookup, hb, ih]

theorem weakMapGet_eq_none_of_allocated (s : State) (hc : Consistent s) :
    weakMapGet s.streams s.next = none := by
  cases h : weakMapGet s.streams s.next with
  | none => rfl
  | some c =>
    have := hc.boundAllocated _ (lookup_mem s.streams s.next c h)
    exact absurd this (Nat.lt_irrefl _)

theorem not_registered_next (s : State) (hi : Invariant s) (k : String) :
    s.connectedUsers.lookup k ≠ some s.next := by
  intro h
  have := hi.allocated _ (lookup_mem _ _ _ h)
  exact absurd this (Nat.lt_irrefl _)

theorem not_mem_channels (s : State) (hi : Invariant s) (res : Chan)
    (hres : res ∉ s.closeHandlers.map Prod.fst) : res ∉ s.streams.map Prod.snd := by
  intro hm
  obtain ⟨b, hb, hbv⟩ := List.mem_map.1 hm
  exact hres (hbv ▸ hi.listened b hb)

/-- One `sendRaw` to a registered peer in a well-formed state: the peer
object is sent the message once, every other peer object nothing. -/
theorem sendRaw_received (toID : String) (m : Msg) (s : State) (target : Addr)
    (hwf : WellFormed s) (hreg : s.connectedUsers.lookup toID = some target) :
    ∃ s1, sendRaw toID m s = .ok () s1 ∧
      s1.connectedUsers = s.connectedUsers ∧ s1.streams = s.streams ∧ s1.next = s.next ∧
      s1.closeHandlers = s.closeHandlers ∧ s1.draws = s.draws ∧
      (∀ b, (s1.heap b).id = (s.heap b).id ∧ (s1.heap b).key = (s.heap b).key ∧
        (s1.heap b).timeout = (s.heap b).timeout) ∧
      Received s s1 target [m] ∧ (∀ b, b ≠ target → Received s s1 b []) := by
  obtain ⟨s1, h1, hcu, hst, hnx, hch, hdr, hf, hyes, hno⟩ :=
    forEach_sendRaw_received m [toID] s hwf (List.nodup_singleton _)
      (fun k hk => ⟨target, by rw [List.mem_singleton.1 hk]; exact hreg⟩)
  obtain ⟨s0, h0, -⟩ := sendRaw_ok toID m s target hreg
  have he : s0 = s1 := by
    simp only [forEach, h0] at h1
    exact (Result.ok.injEq _ _ _ _ ▸ h1).2
  subst he
  refine ⟨s0, h0, hcu, hst, hnx, hch, hdr, hf, ?_, ?_⟩
  · exact hyes target ⟨toID, List.mem_singleton_self _, hreg⟩
  · intro b hb
    apply hno b
    rintro ⟨k, hk, hkb⟩
    rw [List.mem_singleton.1 hk, hreg] at hkb
    exact hb (Option.some.inj hkb).symm

/-! ### The `/connect` handler -/

theorem received_registered (env : Env) (now1 : Int) (s : State) (b : Addr)
    (hb : b ≠ s.next) : Received s (registered env now1 s) b [] := by
  apply received_nil_of
  · show (Function.update s.heap s.next _ b).queue = _
    simp [Function.update, hb]
  · intro c _
    rfl

/-- The `/connect` handler with presence on, in a state that satisfies the
invariants: the answer, the registry, the fields of the new record and
what every peer object is sent. -/
theorem connect_presence (env : Env) (now1 now2 : Int) (s : State) (hi : Invariant s)
    (hc : Consistent s) (hp : env.presence = true) :
    ∃ s1, connect env now1 now2 s
        = (.credentials (makeID env s.draws env.idLength).1
            (makeKey env (makeID env s.draws env.idLength).2
              (makeID env s.draws env.idLength).1).1, s1) ∧
      s1.connectedUsers = (swept (registered env now1 s) now2).connectedUsers ∧
      s1.streams = s.streams ∧ s1.closeHandlers = s.closeHandlers ∧
      WellFormed s1 ∧
      (∀ b, (s1.heap b).id = ((registered env now1 s).heap b).id ∧
        (s1.heap b).key = ((registered env now1 s).heap b).key ∧
        (s1.heap b).timeout = ((registered env now1 s).heap b).timeout) ∧
      (∀ k b, s1.connectedUsers.lookup k = some b → k ≠ (makeID env s.draws env.idLength).1 →
        b ≠ s.next ∧
        Received s s1 b (notice env (registered env now1 s) now2
          ++ [.connect [(makeID env s.draws env.idLength).1]])) ∧
      (s1.connectedUsers.lookup (makeID env s.draws env.idLength).1 = some s.next →
        (s1.heap s.next).queue = notice env (registered env now1 s) now2) ∧
      (s1.connectedUsers.lookup (makeID env s.draws env.idLength).1 ≠ some s.next →
        (s1.heap s.next).queue = []) ∧
      (∀ b, b ≠ s.next → (¬ ∃ k, s1.connectedUsers.lookup k = some b) →
        Received s s1 b []) := by
  have hi2 := registered_invariant env now1 s hi
  have hreg : (registered env now1 s).connectedUsers.lookup
      (makeID env s.draws env.idLength).1 = some s.next := lookup_objectSet_self _ _ _
  have hunb : weakMapGet (registered env now1 s).streams s.next = none :=
    weakMapGet_eq_none_of_allocated s hc
  have hq0 : ((registered env now1 s).heap s.next).queue = [] := by
    show (Function.update s.heap s.next _ s.next).queue = []
    simp
  obtain ⟨s3, s4, h3, h4, hcu, hst, -, hch, -, hwf4, hid3, hf4, hothers, hself, hnone, -⟩ :=
    announce_spec env now2 (makeID env s.draws env.idLength).1 (registered env now1 s)
      hi2.wellFormed
  have hown : ∀ ms, Received (registered env now1 s) s4 s.next ms →
      (s4.heap s.next).queue = ms := by
    intro ms hr
    unfold Received at hr
    rw [hunb] at hr
    simp only at hr
    rw [hq0] at hr
    simpa using hr
  have hfrom : ∀ k, s4.connectedUsers.lookup k = some s.next →
      k = (makeID env s.draws env.idLength).1 := by
    intro k hk
    rw [hcu] at hk
    have hk0 := lookup_of_mem _ _ _ hi2.wellFormed.keys
      (List.mem_filter.1 (lookup_mem _ _ _ hk)).1
    exact eq_of_lookup_eq _ _ _ _ hi2.wellFormed.objects hk0 hreg
  refine ⟨s4, ?_, hcu, hst, hch, hwf4, hf4, ?_, ?_, ?_, ?_⟩
  · rw [connect_eq]
    simp only [hp, if_true, h3, h4]
    have e1 : (s4.heap s.next).id = (makeID env s.draws env.idLength).1 := by
      rw [(hf4 s.next).1]
      show (Function.update s.heap s.next _ s.next).id = _
      simp
    have e2 : (s4.heap s.next).key = (makeKey env (makeID env s.draws env.idLength).2
        (makeID env s.draws env.idLength).1).1 := by
      rw [(hf4 s.next).2.1]
      show (Function.update s.heap s.next _ s.next).key = _
      simp
    rw [e1, e2]
  · intro k b hk hne
    have hb : b ≠ s.next := by
      rintro rfl
      exact hne (hfrom k hk)
    exact ⟨hb, by
      have := received_trans s (registered env now1 s) s4 b [] _ rfl
        (received_registered env now1 s b hb) (hothers k b hk hne)
      simpa using this⟩
  · intro hk
    exact hown _ (hself s.next hk)
  · intro hk
    apply hown
    apply hnone
    rintro ⟨k, hkb⟩
    have := hfrom k hkb
    rw [this] at hkb
    exact hk hkb
  · intro b hb hnot
    have := received_trans s (registered env now1 s) s4 b [] [] rfl
      (received_registered env now1 s b hb) (hnone b hnot)
    simpa using this

theorem connect_quiet (env : Env) (now1 now2 : Int) (s : State) (hp : env.presence = false) :
    connect env now1 now2 s
      = (.credentials (makeID env s.draws env.idLength).1
          (makeKey env (makeID env s.draws env.idLength).2
            (makeID env s.draws env.idLength).1).1, registered env now1 s) := by
  rw [connect_eq]
  simp only [hp, Bool.false_eq_true, if_false]
  have e1 : ((registered env now1 s).heap s.next).id = (makeID env s.draws env.idLength).1 := by
    show (Function.update s.heap s.next _ s.next).id = _
    simp
  have e2 : ((registered env now1 s).heap s.next).key
      = (makeKey env (makeID env s.draws env.idLength).2
        (makeID env s.draws env.idLength).1).1 := by
    show (Function.update s.heap s.next _ s.next).key = _
    simp
  rw [e1, e2]

theorem lookup_swept_registered (env : Env) (now1 now2 : Int) (s : State) (hi : Invariant s)
    (hlate : now2 ≤ now1 + env.timeout) :
    (swept (registered env now1 s) now2).connectedUsers.lookup
      (makeID env s.draws env.idLength).1 = some s.next := by
  have hi2 := registered_invariant env now1 s hi
  show ((registered env now1 s).connectedUsers.filter _).lookup _ = _
  rw [lookup_filter _ _ _ hi2.wellFormed.keys]
  have hreg : (registered env now1 s).connectedUsers.lookup
      (makeID env s.draws env.idLength).1 = some s.next := lookup_objectSet_self _ _ _
  rw [hreg]
  have ht : ((registered env now1 s).heap s.next).timeout = .ms (now1 + env.timeout) := by
    show (Function.update s.heap s.next _ s.next).timeout = _
    simp
  have : ¬ (now1 + env.timeout < now2) := not_lt.2 hlate
  simp [Option.filter, expiredEntry, ht, Time.lt, this]

theorem connect_not_mem_notice (env : Env) (s : State) (now : Int) (ids : List String) :
    Msg.connect ids ∉ notice env s now := by
  unfold notice
  split <;> simp

/-! ### The recovery branch of `/events` -/

theorem received_recovered (env : Env) (id : String) (s : State) (b : Addr)
    (hb : b ≠ s.next) : Received s (recovered env id s) b [] := by
  apply received_nil_of
  · show (Function.update s.heap s.next _ b).queue = _
    simp [Function.update, hb]
  · intro c _
    rfl

theorem lookup_of_lookup_filter (l : List (String × Addr)) (p : String × Addr → Bool)
    (k : String) (a : Addr) (hnd : (l.map Prod.fst).Nodup)
    (h : (l.filter p).lookup k = some a) : l.lookup k = some a :=
  lookup_of_mem _ _ _ hnd (List.mem_filter.1 (lookup_mem _ _ _ h)).1

/-! ### A registry with one record -/

theorem objectKeys_single (id : String) (a : Addr) : objectKeys [(id, a)] = [id] := by
  cases h : arrayIndex id with
  | none => simp [objectKeys, h]
  | some n => simp [objectKeys, h]

theorem getPeerList_single (env : Env) (now : Int) (s : State) (id : String) (a : Addr)
    (hcu : s.connectedUsers = [(id, a)]) (hlive : (s.heap a).timeout.lt now = false) :
    getPeerList env now s = .ok [id] s := by
  have hl : s.connectedUsers.lookup id = some a := by
    rw [hcu]
    simp [List.lookup]
  have hsweep : sweep now [id] [] s = .ok [] s := by
    simp [sweep, hl, hlive]
  unfold getPeerList
  rw [hcu, objectKeys_single, hsweep]
  simp only
  rw [hcu, objectKeys_single]
  simp

/-! ### The order of `Object.keys` -/

theorem digitsValue_ge : ∀ (cs : List Char) (acc n : Nat),
    digitsValue cs acc = some n → acc * 10 ^ cs.length ≤ n := by
  intro cs
  induction cs with
  | nil =>
    intro acc n h
    simp only [digitsValue, Option.some.injEq] at h
    simp [h]
  | cons c rest ih =>
    intro acc n h
    simp only [digitsValue] at h
    split at h
    · have := ih _ n h
      have h2 : acc * 10 ^ (c :: rest).length = acc * 10 * 10 ^ rest.length := by
        simp [pow_succ]
        ring
      rw [h2]
      exact le_trans (Nat.mul_le_mul_right _ (Nat.le_add_right _ _)) this
    · cases h

/-- An identifier of more than ten characters is not an array index. -/
theorem arrayIndex_of_long (key : String) (h : 10 < key.length) : arrayIndex key = none := by
  obtain ⟨cs⟩ := key
  simp only [String.length] at h
  unfold arrayIndex
  cases cs with
  | nil => rfl
  | cons c rest =>
    simp only
    split
    · rfl
    · rename_i hzero
      cases hd : digitsValue (c :: rest) 0 with
      | none => rfl
      | some n =>
        simp only
        have hrest : rest ≠ [] := by
          intro hr
          rw [hr] at h
          simp at h
        have hc : c ≠ '0' := fun hc0 => hzero ⟨hc0, hrest⟩
        simp only [digitsValue] at hd
        split at hd
        · rename_i hdig
          have hone : 1 ≤ c.toNat - 48 := by
            have h48 : c.toNat ≠ 48 := by
              intro h48
              apply hc
              apply Char.ext
              apply UInt32.ext
              exact h48
            have : 48 ≤ c.toNat := by
              simp only [Char.isDigit, Bool.and_eq_true, decide_eq_true_eq, UInt32.le_def,
                Fin.le_def] at hdig
              exact hdig.1
            omega
          have hge := digitsValue_ge rest _ n hd
          have hlen : 10 ≤ rest.length := by
            simp only [List.length_cons] at h
            omega
          have hpow : 10 ^ 10 ≤ 10 ^ rest.length := Nat.pow_le_pow_right (by decide) hlen
          have hbig : 10 ^ 10 ≤ n := by
            calc 10 ^ 10 ≤ 10 ^ rest.length := hpow
              _ = 1 * 10 ^ rest.length := by ring
              _ ≤ (0 * 10 + (c.toNat - 48)) * 10 ^ rest.length :=
                Nat.mul_le_mul_right _ (by omega)
              _ ≤ n := hge
          have : ¬ n < 4294967295 := by
            have : (10 : Nat) ^ 10 = 10000000000 := by norm_num
            omega
          simp [this]
        · cases hd

theorem objectKeys_of_no_index (o : List (String × Addr))
    (h : ∀ k ∈ o.map Prod.fst, arrayIndex k = none) : objectKeys o = o.map Prod.fst := by
  unfold objectKeys
  have h1 : (o.map Prod.fst).filter (fun k => (arrayIndex k).isSome) = [] := by
    rw [List.filter_eq_nil_iff]
    intro k hk
    simp [h k hk]
  have h2 : (o.map Prod.fst).filter (fun k => !(arrayIndex k).isSome) = o.map Prod.fst := by
    rw [List.filter_eq_self]
    intro k hk
    simp [h k hk]
  simp only [h1, h2, List.insertionSort, List.nil_append]

theorem sorted_index_keys (l : List String) : (l.insertionSort indexLE).Sorted indexLE := by
  haveI : IsTotal String indexLE := ⟨fun a b => Nat.le_total _ _⟩
  haveI : IsTrans String indexLE := ⟨fun _ _ _ h1 h2 => Nat.le_trans h1 h2⟩
  exact List.sorted_insertionSort indexLE l

/-! ### States after a disconnect -/

theorem lookup_none_of_subset (l l1 : List (String × Addr)) (k : String)
    (hsub : ∀ e ∈ l1, e ∈ l) (h : l.lookup k = none) : l1.lookup k = none := by
  cases h1 : l1.lookup k with
  | none => rfl
  | some a =>
    obtain ⟨b, hb⟩ := lookup_isSome_of_mem_keys l k
      (List.mem_map_of_mem Prod.fst (hsub _ (lookup_mem l1 k a h1)))
    rw [h] at hb
    cases hb

/-- The part of `/events` after the peer object is known stores no record. -/
theorem attach_registry (env : Env) (now : Int) (res : Chan) (key : String) (peer : Addr)
    (s : State) : ∀ e ∈ (attach env now res key peer s).2.connectedUsers, e ∈ s.connectedUsers := by
  unfold attach
  by_cases hk : (key != (s.heap peer).key) = true
  · simp only [hk, if_true]
    exact fun _ h => h
  · simp only [hk, Bool.false_eq_true, if_false]
    have hd := drain_calm res peer (s.heap peer).queue s
    by_cases hpres : env.presence = true
    · simp only [hpres, if_true]
      have hg := getPeerList_calm env now (drain res peer (s.heap peer).queue s)
      cases hr : getPeerList env now (drain res peer (s.heap peer).queue s) with
      | threw s2 =>
        rw [hr] at hg
        exact (hd.chain hg).1
      | ok connected s2 =>
        rw [hr] at hg
        exact (hd.chain hg).1
    · simp only [hpres, Bool.false_eq_true, if_false]
      exact hd.1

/-- The only record `/connect` stores is the one of the id it issues. -/
theorem connect_registry (env : Env) (now1 now2 : Int) (s : State) :
    ∀ e ∈ (connect env now1 now2 s).2.connectedUsers,
      e ∈ (registered env now1 s).connectedUsers := by
  rw [connect_eq]
  split
  · have hg := getPeerList_calm env now2 (registered env now1 s)
    cases hr : getPeerList env now2 (registered env now1 s) with
    | threw s3 =>
      rw [hr] at hg
      exact hg.1
    | ok connected s3 =>
      rw [hr] at hg
      simp only
      have hn := notifyConnect_calm (makeID env s.draws env.idLength).1 connected s3
      cases hnc : notifyConnect (makeID env s.draws env.idLength).1 connected s3 with
      | threw s4 =>
        rw [hnc] at hn
        exact (hg.chain hn).1
      | ok v s4 =>
        rw [hnc] at hn
        exact (hg.chain hn).1
  · exact fun _ h => h

/-- The only record `/events` stores is the one of its recovery branch. -/
theorem events_registry (env : Env) (now1 now2 : Int) (res : Chan) (id key : String)
    (s : State) :
    (∀ e ∈ (events env now1 now2 res id key s).2.connectedUsers, e ∈ s.connectedUsers) ∨
      (recovers env id key s = true ∧
        ∀ e ∈ (events env now1 now2 res id key s).2.connectedUsers,
          e ∈ (recovered env id s).connectedUsers) := by
  cases hl : s.connectedUsers.lookup id with
  | some peer =>
    left
    simp only [events, hl]
    exact attach_registry env now2 res key peer s
  | none =>
    by_cases hin : id ∈ inheritedNames
    · left
      simp only [events, hl, hin, if_true]
      exact fun _ h => h
    by_cases hv : validateID id env.idLength = true
    · by_cases hk : (makeKey env s.draws id).1 = key
      · right
        refine ⟨by simp [recovers, hl, hin, hv, hk], ?_⟩
        rw [events_recovery_eq env now1 now2 res id key s hl hin hv hk]
        split
        · have hg := getPeerList_calm env now1 (recovered env id s)
          cases hr : getPeerList env now1 (recovered env id s) with
          | threw s3 =>
            rw [hr] at hg
            exact hg.1
          | ok connected s3 =>
            rw [hr] at hg
            simp only
            have hn := notifyConnect_calm (s3.heap s.next).id connected s3
            cases hnc : notifyConnect (s3.heap s.next).id connected s3 with
            | threw s4 =>
              rw [hnc] at hn
              exact (hg.chain hn).1
            | ok v s4 =>
              rw [hnc] at hn
              simp only
              intro e he
              exact (hg.chain hn).1 e (attach_registry env now2 res key s.next s4 e he)
        · exact attach_registry env now2 res key s.next _
      · left
        simp only [events, hl, hin, hv, hk, if_true, if_false]
        exact fun _ h => h
    · left
      simp only [events, hl, hin, hv, if_false]
      exact fun _ h => h

/-- A run that stores no record under `id` leaves `id` unregistered. -/
theorem Later.unregistered (env : Env) (id : String) (s s1 : State) (h : Later env id s s1)
    (hreg : s.connectedUsers.lookup id = none) : s1.connectedUsers.lookup id = none := by
  induction h with
  | here => exact hreg
  | @connect s2 now1 now2 _ hne ih =>
    apply lookup_none_of_subset _ _ id (connect_registry env now1 now2 s2)
    show (objectSet s2.connectedUsers (issuedId env s2) s2.next).lookup id = none
    rw [lookup_objectSet_ne _ _ _ _ (Ne.symm hne)]
    exact ih
  | disconnect now id1 key _ ih =>
    exact lookup_none_of_subset _ _ id (disconnect_calm env now id1 key _).1 ih
  | @events s2 now1 now2 res id1 key _ _ hrec ih =>
    rcases events_registry env now1 now2 res id1 key s2 with h1 | ⟨hr, h1⟩
    · exact lookup_none_of_subset _ _ id h1 ih
    · have hne : id ≠ id1 := by
        intro heq
        rw [hrec heq.symm] at hr
        cases hr
      apply lookup_none_of_subset _ _ id h1
      show (objectSet s2.connectedUsers id1 s2.next).lookup id = none
      rw [lookup_objectSet_ne _ _ _ _ hne]
      exact ih
  | close now res _ ih =>
    exact lookup_none_of_subset _ _ id (close_calm env now res _).1 ih
  | sendSignal toID id1 key signal _ ih =>
    exact lookup_none_of_subset _ _ id (sendSignal_calm toID id1 key signal _).1 ih
  | sendRaw toID message _ ih =>
    exact lookup_none_of_subset _ _ id (sendRaw_calm toID message _).1 ih
  | broadcastRaw now message _ ih =>
    exact lookup_none_of_subset _ _ id (broadcastRaw_calm env now message _).1 ih
  | getPeerList now _ ih =>
    exact lookup_none_of_subset _ _ id (getPeerList_calm env now _).1 ih

/-- A run from a reachable state ends in a reachable state. -/
theorem Later.reachable (env : Env) (id : String) (s s1 : State) (h : Later env id s s1)
    (hs : Reachable env s) : Reachable env s1 := by
  induction h with
  | here => exact hs
  | connect now1 now2 _ _ ih => exact Reachable.connect _ now1 now2 ih
  | disconnect now id1 key _ ih => exact Reachable.disconnect _ now id1 key ih
  | events now1 now2 res id1 key _ hres _ ih =>
    exact Reachable.events _ now1 now2 res id1 key ih hres
  | close now res _ ih => exact Reachable.close _ now res ih
  | sendSignal toID id1 key signal _ ih => exact Reachable.sendSignal _ toID id1 key signal ih
  | sendRaw toID message _ ih => exact Reachable.sendRaw _ toID message ih
  | broadcastRaw now message _ ih => exact Reachable.broadcastRaw _ now message ih
  | getPeerList now _ ih => exact Reachable.getPeerList _ now ih

/-! ### Recovery and relay for ordinary ids -/

/-- Recovery after a restart, in a reachable state, with `SECRET` set: for
an id that is no property of `connectedUsers`, own or inherited, and that
`validateID` accepts, `/events`
with `key = makeKey(id)` on a new response object succeeds.  It stores a
new record for `id` with this key and `timeout = Infinity`, which is
registered and bound to the response object on return.  The record starts
with an empty queue: its stream gets nothing but the notice of the first
sweep, if any, and the presence list, and its queue holds at most the
notice of the second sweep.  With presence on every other peer left by the
first sweep is sent `{ connect: [id] }` exactly once, between the notices
of the two sweeps, and no `connect` message goes to the new record; with
presence off nobody is sent anything. -/
theorem recovery_effect (env : Env) (now1 now2 : Int) (res : Chan) (id secret : String)
    (s : State) (hs : Reachable env s) (hsecret : env.SECRET = some secret)
    (hne : secret ≠ "") (hreg : s.connectedUsers.lookup id = none)
    (hname : id ∉ inheritedNames) (hvalid : validateID id env.idLength = true)
    (hres : res ∉ s.closeHandlers.map Prod.fst) :
    ∃ s1, events env now1 now2 res id (makeKey env s.draws id).1 s = (.streaming, s1) ∧
      (makeKey env s.draws id).1 = env.hmac (.text secret) id ∧
      (∀ k, s.connectedUsers.lookup k ≠ some s.next) ∧
      s1.connectedUsers.lookup id = some s.next ∧
      (s1.heap s.next).id = id ∧
      (s1.heap s.next).key = env.hmac (.text secret) id ∧
      (s1.heap s.next).timeout = .infinity ∧
      weakMapGet s1.streams s.next = some res ∧
      (env.presence = false →
        s1.connectedUsers = objectSet s.connectedUsers id s.next ∧
        streamLog s1 res = streamLog s res ∧ (s1.heap s.next).queue = [] ∧
        ∀ b, b ≠ s.next → Received s s1 b []) ∧
      (env.presence = true →
        streamLog s1 res = streamLog s res ++ notice env (recovered env id s) now1
          ++ [.presence (objectKeys s1.connectedUsers)] ∧
        (s1.heap s.next).queue = notice env (swept (recovered env id s) now1) now2 ∧
        (∀ ids, Msg.connect ids ∉ notice env (recovered env id s) now1
          ++ [.presence (objectKeys s1.connectedUsers)] ++ (s1.heap s.next).queue) ∧
        (∀ k b, k ≠ id →
          (swept (recovered env id s) now1).connectedUsers.lookup k = some b →
          (s1.connectedUsers.lookup k = some b →
            Received s s1 b (notice env (recovered env id s) now1 ++ [.connect [id]]
              ++ notice env (swept (recovered env id s) now1) now2)) ∧
          (s1.connectedUsers.lookup k = none →
            Received s s1 b (notice env (recovered env id s) now1 ++ [.connect [id]])))) := by
  have hi := Reachable.invariant env s hs
  have hc := Reachable.consistent env s hs
  have hi2 := recovered_invariant env id s hi
  have hk1 : makeKey env s.draws id = (env.hmac (.text secret) id, s.draws) :=
    makeKey_of_secret env secret hsecret hne s.draws id
  have hk2 : (makeKey env (makeKey env s.draws id).2 id).1 = env.hmac (.text secret) id := by
    rw [makeKey_of_secret env secret hsecret hne _ id]
  have hkey1 : (makeKey env s.draws id).1 = env.hmac (.text secret) id := by rw [hk1]
  have hrid : ((recovered env id s).heap s.next).id = id := by simp [recovered]
  have hrkey : ((recovered env id s).heap s.next).key = env.hmac (.text secret) id := by
    simp [recovered, hk2]
  have hrto : ((recovered env id s).heap s.next).timeout = .infinity := by simp [recovered]
  have hrq : ((recovered env id s).heap s.next).queue = [] := by simp [recovered]
  have hrreg : (recovered env id s).connectedUsers.lookup id = some s.next :=
    lookup_objectSet_self _ _ _
  have hunb : weakMapGet s.streams s.next = none := weakMapGet_eq_none_of_allocated s hc
  have hresS : res ∉ s.streams.map Prod.snd := not_mem_channels s hi res hres
  have heq := events_recovery_eq env now1 now2 res id (makeKey env s.draws id).1 s hreg hname
    hvalid rfl
  by_cases hp : env.presence = true
  · obtain ⟨s3, s4, h3, h4, hcu4, hst4, -, -, -, hwf4, hid3, hf4, hothers, hself, -, hlog4⟩ :=
      announce_spec env now1 id (recovered env id s) hi2.wellFormed
    have hreg4 : s4.connectedUsers.lookup id = some s.next := by
      rw [hcu4, lookup_filter _ _ _ hi2.wellFormed.keys, hrreg]
      simp [Option.filter, expiredEntry, hrto, Time.lt]
    have hq4 : (s4.heap s.next).queue = notice env (recovered env id s) now1 := by
      have hr := hself s.next hreg4
      unfold Received at hr
      rw [show (recovered env id s).streams = s.streams from rfl, hunb] at hr
      simp only at hr
      rw [hrq] at hr
      simpa using hr
    have hkey4 : (s4.heap s.next).key = (makeKey env s.draws id).1 := by
      rw [(hf4 s.next).2.1, hrkey, hkey1]
    obtain ⟨s1, h1, hcu1, hst1, -, -, hf1, hlog1, hown, -, hyes1, hno1⟩ :=
      attach_spec env now2 res s.next s4 hp hwf4 (by rw [hst4]; exact hunb)
        (by rw [hst4]; exact hresS)
    have hn2 : notice env s4 now2 = notice env (swept (recovered env id s) now1) now2 :=
      notice_congr env (swept (recovered env id s) now1) s4 now2 hcu4
        (fun b => (hf4 b).2.2)
    have hreg1 : s1.connectedUsers.lookup id = some s.next := by
      rw [hcu1, lookup_filter _ _ _ hwf4.keys, hreg4]
      simp [Option.filter, expiredEntry, (hf4 s.next).2.2, hrto, Time.lt]
    have hq1 : (s1.heap s.next).queue = notice env (swept (recovered env id s) now1) now2 := by
      rw [hown ⟨id, hreg1⟩, hn2]
    have hlogres : streamLog s1 res = streamLog s res ++ notice env (recovered env id s) now1
        ++ [.presence (objectKeys s1.connectedUsers)] := by
      rw [hlog1, hq4, hlog4 res hresS]
      rfl
    refine ⟨s1, ?_, hkey1, not_registered_next s hi, hreg1, ?_, ?_, ?_, ?_, ?_, ?_⟩
    · rw [heq]
      simp only [hp, if_true, h3]
      rw [hid3 s.next, hrid, h4]
      simp only
      rw [← hkey4]
      exact h1
    · rw [(hf1 s.next).1, (hf4 s.next).1, hrid]
    · rw [(hf1 s.next).2.1, (hf4 s.next).2.1, hrkey]
    · rw [(hf1 s.next).2.2, (hf4 s.next).2.2, hrto]
    · rw [hst1]
      exact weakMapGet_weakMapSet_self _ _ _
    · intro hoff
      rw [hp] at hoff
      cases hoff
    · intro _
      refine ⟨hlogres, hq1, ?_, ?_⟩
      · intro ids hm
        rw [hq1] at hm
        rcases List.mem_append.1 hm with hm | hm
        · rcases List.mem_append.1 hm with hm | hm
          · exact connect_not_mem_notice env _ now1 ids hm
          · simp at hm
        · exact connect_not_mem_notice env _ now2 ids hm
      · intro k b hk hkb
        have hkb4 : s4.connectedUsers.lookup k = some b := by
          rw [hcu4]
          exact hkb
        have hb : b ≠ s.next := by
          rintro rfl
          exact hk (eq_of_lookup_eq _ k id _ hwf4.objects hkb4 hreg4)
        have r0 := received_recovered env id s b hb
        have r1 := hothers k b hkb4 hk
        have r01 := received_trans s (recovered env id s) s4 b [] _ rfl r0 r1
        constructor
        · intro hk1b
          have r2 := hyes1 b hb ⟨k, hk1b⟩
          rw [hn2] at r2
          have := received_trans s s4 s1 b _ _ hst4 r01 r2
          simpa using this
        · intro hk1n
          have r2 := hno1 b hb (by
            rintro ⟨k', hk'⟩
            have hk'4 : s4.connectedUsers.lookup k' = some b := by
              rw [hcu1] at hk'
              exact lookup_of_lookup_filter _ _ _ _ hwf4.keys hk'
            have : k' = k := eq_of_lookup_eq _ k' k b hwf4.objects hk'4 hkb4
            rw [this, hk1n] at hk'
            cases hk')
          have := received_trans s s4 s1 b _ _ hst4 r01 r2
          simpa using this
  · have hp' : env.presence = false := by simpa using hp
    have hkeyr : ((recovered env id s).heap s.next).key = (makeKey env s.draws id).1 := by
      rw [hrkey, hkey1]
    obtain ⟨s1, h1, hcu1, hst1, -, -, hf1, hlog1, hq1, hothers1⟩ :=
      attach_quiet env now2 res s.next (recovered env id s) hp' hresS
    refine ⟨s1, ?_, hkey1, not_registered_next s hi, ?_, ?_, ?_, ?_, ?_, ?_, ?_⟩
    · rw [heq]
      simp only [hp', Bool.false_eq_true, if_false]
      rw [← hkeyr]
      exact h1
    · rw [hcu1]
      exact hrreg
    · rw [(hf1 s.next).1, hrid]
    · rw [(hf1 s.next).2.1, hrkey]
    · rw [(hf1 s.next).2.2, hrto]
    · rw [hst1]
      exact weakMapGet_weakMapSet_self _ _ _
    · intro _
      refine ⟨hcu1, ?_, hq1, ?_⟩
      · rw [hlog1, hrq]
        simp
        rfl
      · intro b hb
        have := received_trans s (recovered env id s) s1 b [] [] rfl
          (received_recovered env id s b hb) (hothers1 b hb)
        simpa using this
    · intro hon
      exact absurd hon hp

/-- The recovery, checked on the first sample run: an id that is not
registered is recovered at clock 1. -/
theorem recovery_effect_witness :
    Reachable sampleEnv sampleConnected ∧ sampleEnv.SECRET = some "secret" ∧ "secret" ≠ "" ∧
      sampleConnected.connectedUsers.lookup "zzzzzzzzzzzzzzzz" = none ∧
      "zzzzzzzzzzzzzzzz" ∉ inheritedNames ∧
      validateID "zzzzzzzzzzzzzzzz" sampleEnv.idLength = true ∧
      (0 : Chan) ∉ sampleConnected.closeHandlers.map Prod.fst ∧
      ∃ s1, events sampleEnv 1 1 0 "zzzzzzzzzzzzzzzz"
          (makeKey sampleEnv sampleConnected.draws "zzzzzzzzzzzzzzzz").1 sampleConnected
          = (.streaming, s1) ∧
        s1.connectedUsers.lookup "zzzzzzzzzzzzzzzz" = some sampleConnected.next ∧
        (s1.heap sampleConnected.next).timeout = .infinity ∧
        weakMapGet s1.streams sampleConnected.next = some 0 ∧
        (∀ k b, k ≠ "zzzzzzzzzzzzzzzz" →
          (swept (recovered sampleEnv "zzzzzzzzzzzzzzzz" sampleConnected) 1).connectedUsers.lookup k
            = some b →
          s1.connectedUsers.lookup k = some b →
          Received sampleConnected s1 b
            (notice sampleEnv (recovered sampleEnv "zzzzzzzzzzzzzzzz" sampleConnected) 1
              ++ [.connect ["zzzzzzzzzzzzzzzz"]]
              ++ notice sampleEnv
                (swept (recovered sampleEnv "zzzzzzzzzzzzzzzz" sampleConnected) 1) 1)) := by
  have hreach : Reachable sampleEnv sampleConnected := Reachable.connect _ 0 0 Reachable.initial
  obtain ⟨s1, h1, -, -, hreg, -, -, hto, hbound, -, hon⟩ :=
    recovery_effect sampleEnv 1 1 0 "zzzzzzzzzzzzzzzz" "secret" sampleConnected hreach rfl
      (by decide) (by decide) (by decide) (by decide) (by decide)
  exact ⟨hreach, rfl, by decide, by decide, by decide, by decide, by decide, s1, h1, hreg, hto,
    hbound,
    fun k b hk hkb hk1 => ((hon rfl).2.2.2 k b hk hkb).1 hk1⟩

/-- The effect of `/send-signal` in a reachable state.  A sender id that is
no property of `connectedUsers` gets the not-found answer (status 500), one
that names an inherited property or carries a wrong key the authentication
failure (401); with the right key a target that is no property gets the
not-found answer (404), and for one that names an inherited property the
handler throws when no peer is called `undefined`; each leaves the state as
it is.  With the right key
and a registered target the answer is `{ success: true }`, the target is
sent `{ from: id, signal }` exactly once (on its stream if it is bound, at
the end of its queue if not), and nothing else changes: registry, bindings,
close listeners, every id, key and timeout are the same, and every other
peer object is sent nothing. -/
theorem sendSignal_effect (env : Env) (s : State) (toID id key : String) (signal : Payload)
    (hs : Reachable env s) :
    (s.connectedUsers.lookup id = none → id ∉ inheritedNames →
      sendSignal toID id key signal s = (.sendStatus 500, s)) ∧
    (s.connectedUsers.lookup id = none → id ∈ inheritedNames →
      sendSignal toID id key signal s = (.sendStatus 401, s)) ∧
    (∀ peer, s.connectedUsers.lookup id = some peer → key ≠ (s.heap peer).key →
      sendSignal toID id key signal s = (.sendStatus 401, s)) ∧
    (∀ peer, s.connectedUsers.lookup id = some peer → key = (s.heap peer).key →
      s.connectedUsers.lookup toID = none → toID ∉ inheritedNames →
      sendSignal toID id key signal s = (.sendStatus 404, s)) ∧
    (∀ peer, s.connectedUsers.lookup id = some peer → key = (s.heap peer).key →
      s.connectedUsers.lookup toID = none → toID ∈ inheritedNames →
      s.connectedUsers.lookup "undefined" = none →
      sendSignal toID id key signal s = (.threw, s)) ∧
    (∀ peer target, s.connectedUsers.lookup id = some peer → key = (s.heap peer).key →
      s.connectedUsers.lookup toID = some target →
      ∃ s1, sendSignal toID id key signal s = (.success, s1) ∧
        s1.connectedUsers = s.connectedUsers ∧ s1.streams = s.streams ∧
        s1.closeHandlers = s.closeHandlers ∧
        (∀ b, (s1.heap b).id = (s.heap b).id ∧ (s1.heap b).key = (s.heap b).key ∧
          (s1.heap b).timeout = (s.heap b).timeout) ∧
        Received s s1 target [.signal id signal] ∧
        (∀ b, b ≠ target → Received s s1 b [])) := by
  have hwf := Reachable.wellFormed env s hs
  have hc := Reachable.consistent env s hs
  refine ⟨?_, ?_, ?_, ?_, ?_, ?_⟩
  · intro h hn
    simp [sendSignal, h, hn]
  · intro h hn
    simp [sendSignal, h, hn]
  · intro peer h hk
    simp [sendSignal, h, hk]
  · intro peer h hk ht hn
    simp [sendSignal, h, hk, ht, hn]
  · intro peer h hk ht hn hu
    simp [sendSignal, h, hk, ht, hn, sendRaw, hu]
  · intro peer target h hk ht
    have hpid : (s.heap peer).id = id := hc.ids (id, peer) (lookup_mem _ _ _ h)
    have htid : (s.heap target).id = toID := hc.ids (toID, target) (lookup_mem _ _ _ ht)
    obtain ⟨s1, h1, hcu, hst, -, hch, -, hf, hyes, hno⟩ :=
      sendRaw_received toID (.signal id signal) s target hwf ht
    refine ⟨s1, ?_, hcu, hst, hch, hf, hyes, hno⟩
    simp only [sendSignal, h, hk, bne_self_eq_false, Bool.false_eq_true, if_false, ht, hpid,
      htid, h1]

/-- The relay, checked on the second sample run: the first peer signals the second. -/
theorem sendSignal_effect_witness :
    Reachable sampleEnv sampleTwoPeers ∧
      ∃ s1, sendSignal "bbbbbbbbbbbbbbbb" "aaaaaaaaaaaaaaaa" "secret/aaaaaaaaaaaaaaaa" "offer"
          sampleTwoPeers = (.success, s1) ∧
        s1.connectedUsers = sampleTwoPeers.connectedUsers ∧
        s1.streams = sampleTwoPeers.streams ∧
        s1.closeHandlers = sampleTwoPeers.closeHandlers ∧
        (∀ b, (s1.heap b).id = (sampleTwoPeers.heap b).id ∧
          (s1.heap b).key = (sampleTwoPeers.heap b).key ∧
          (s1.heap b).timeout = (sampleTwoPeers.heap b).timeout) ∧
        Received sampleTwoPeers s1 1 [.signal "aaaaaaaaaaaaaaaa" "offer"] ∧
        (∀ b, b ≠ 1 → Received sampleTwoPeers s1 b []) :=
  ⟨Reachable.connect _ 5000 5000 (Reachable.connect _ 0 0 Reachable.initial),
    (sendSignal_effect sampleEnv sampleTwoPeers "bbbbbbbbbbbbbbbb" "aaaaaaaaaaaaaaaa"
      "secret/aaaaaaaaaaaaaaaa" "offer"
      (Reachable.connect _ 5000 5000 (Reachable.connect _ 0 0 Reachable.initial))).2.2.2.2.2
      0 1 (by decide) (by decide) (by decide)⟩

/-! ## Claims -/

/-- C1 (code defect). The sweep of `getPeerList` tests `streams.has(key)`
with the string key, which a `WeakMap` never holds, so a bound peer is not
protected.  In the sample run the peer connects at clock 0 and opens its
event stream at clock 1; the sweep at clock 10001 removes it from the
registry and from the returned list while its stream is still bound. -/
theorem getPeerList_removes_bound_peer :
    (connect sampleEnv 0 0 initial).1
        = .credentials "aaaaaaaaaaaaaaaa" "secret/aaaaaaaaaaaaaaaa" ∧
      sampleStreaming.connectedUsers.lookup "aaaaaaaaaaaaaaaa" = some 0 ∧
      weakMapGet sampleStreaming.streams 0 = some 0 ∧
      (getPeerList sampleEnv 10001 sampleStreaming).value? = some [] ∧
      (getPeerList sampleEnv 10001 sampleStreaming).state.connectedUsers.lookup
        "aaaaaaaaaaaaaaaa" = none ∧
      weakMapGet (getPeerList sampleEnv 10001 sampleStreaming).state.streams 0 = some 0 := by
  decide

/-- C2 (code defect). Opening the event stream of a peer created by
`/connect` binds the stream but leaves the `timeout` field at the finite
value set by `/connect`: in the sample run it is still `0 + 10000`, not
`Infinity`, once the handler has bound the stream. -/
theorem events_keeps_connect_timeout :
    (events sampleEnv 1 1 0 "aaaaaaaaaaaaaaaa" "secret/aaaaaaaaaaaaaaaa" sampleConnected).1
        = .streaming ∧
      (sampleConnected.heap 0).timeout = .ms 10000 ∧
      weakMapGet sampleStreaming.streams 0 = some 0 ∧
      (sampleStreaming.heap 0).timeout = .ms 10000 ∧
      (sampleStreaming.heap 0).timeout ≠ .infinity := by
  decide

/-- C3. For an id that is registered, a request carrying another key than
the peer's is refused and changes nothing: `/disconnect` and `/send-signal`
answer 401 in the same state, and `/events` only writes
`{ error: 'incorrect key' }` to the response object of the request, so no
peer object whose stream is another one is sent anything. -/
theorem wrong_key_changes_nothing (env : Env) (now now1 now2 : Int) (res : Chan)
    (toID id key : String) (signal : Payload) (s : State) (peer : Addr)
    (hreg : s.connectedUsers.lookup id = some peer) (hkey : key ≠ (s.heap peer).key) :
    disconnect env now id key s = (.sendStatus 401, s) ∧
      sendSignal toID id key signal s = (.sendStatus 401, s) ∧
      events env now1 now2 res id key s
        = (.rejected, { s with written := s.written ++ [(res, .error "incorrect key")] }) ∧
      ∀ b, weakMapGet s.streams b ≠ some res →
        Received s (events env now1 now2 res id key s).2 b [] := by
  have hev : events env now1 now2 res id key s
      = (.rejected, { s with written := s.written ++ [(res, .error "incorrect key")] }) := by
    simp [events, hreg, attach, hkey]
  refine ⟨?_, ?_, hev, ?_⟩
  · simp [disconnect, hreg, Ne.symm hkey]
  · simp [sendSignal, hreg, hkey]
  · intro b hb
    rw [hev]
    unfold Received
    cases hw : weakMapGet s.streams b with
    | none => simp
    | some c =>
      have hc : res ≠ c := by
        rintro rfl
        exact hb hw
      have hcb : (res == c) = false := by simpa using hc
      simp only [and_true]
      rw [streamLog_append]
      simp [List.filter, hcb]

/-- C3, checked on the sample run: the streaming peer, presented with the key `bad`. -/
theorem wrong_key_changes_nothing_witness :
    sampleStreaming.connectedUsers.lookup "aaaaaaaaaaaaaaaa" = some 0 ∧
      "bad" ≠ (sampleStreaming.heap 0).key ∧
      (disconnect sampleEnv 5 "aaaaaaaaaaaaaaaa" "bad" sampleStreaming
          = (.sendStatus 401, sampleStreaming) ∧
        sendSignal "aaaaaaaaaaaaaaaa" "aaaaaaaaaaaaaaaa" "bad" "offer" sampleStreaming
          = (.sendStatus 401, sampleStreaming) ∧
        events sampleEnv 5 5 1 "aaaaaaaaaaaaaaaa" "bad" sampleStreaming
          = (.rejected, { sampleStreaming with
              written := sampleStreaming.written ++ [(1, .error "incorrect key")] }) ∧
        ∀ b, weakMapGet sampleStreaming.streams b ≠ some 1 →
          Received sampleStreaming
            (events sampleEnv 5 5 1 "aaaaaaaaaaaaaaaa" "bad" sampleStreaming).2 b []) :=
  ⟨by decide, by decide,
    wrong_key_changes_nothing sampleEnv 5 5 5 1 "aaaaaaaaaaaaaaaa" "aaaaaaaaaaaaaaaa" "bad"
      "offer" sampleStreaming 0 (by decide) (by decide)⟩

/-- C4 (code defect). On a new instance, `/events` with a well-shaped id
that is not registered and a key issued under another secret does not
answer `{ error: 'incorrect key' }`: the handler throws on `peer.key`,
having written nothing.  No record is created and no stream is bound. -/
theorem events_unknown_peer_throws :
    initial.connectedUsers.lookup "aaaaaaaaaaaaaaaa" = none ∧
      validateID "aaaaaaaaaaaaaaaa" sampleEnv.idLength = true ∧
      (makeKey sampleEnv initial.draws "aaaaaaaaaaaaaaaa").1 ≠ "old/aaaaaaaaaaaaaaaa" ∧
      (events sampleEnv 1 1 0 "aaaaaaaaaaaaaaaa" "old/aaaaaaaaaaaaaaaa" initial).1 = .threw ∧
      (events sampleEnv 1 1 0 "aaaaaaaaaaaaaaaa" "old/aaaaaaaaaaaaaaaa" initial).2.written = [] ∧
      (events sampleEnv 1 1 0 "aaaaaaaaaaaaaaaa" "old/aaaaaaaaaaaaaaaa" initial).2.connectedUsers
        = [] ∧
      (events sampleEnv 1 1 0 "aaaaaaaaaaaaaaaa" "old/aaaaaaaaaaaaaaaa" initial).2.streams = [] := by
  decide

/-- C5 (code defect). In the second sample run the peer `b…` is registered,
unbound and has an empty queue; `A`, `B`, `C` are sent to it and it opens
its event stream at clock 12000, when the first peer has expired.  The
stream gets `A`, `B`, `C` first, in order, but the sweep that builds the
presence list runs before the stream is bound and puts
`{ disconnect: [a…] }` in the queue, which is not empty when the handler
is done. -/
theorem events_leaves_disconnect_in_queue :
    sampleTwoPeers.connectedUsers.lookup "bbbbbbbbbbbbbbbb" = some 1 ∧
      weakMapGet sampleTwoPeers.streams 1 = none ∧
      (sampleTwoPeers.heap 1).queue = [] ∧
      (sampleQueued.heap 1).queue = [.raw "A", .raw "B", .raw "C"] ∧
      sampleAttached.1 = .streaming ∧
      streamLog sampleAttached.2 0
        = [.raw "A", .raw "B", .raw "C", .presence ["bbbbbbbbbbbbbbbb"]] ∧
      weakMapGet sampleAttached.2.streams 1 = some 0 ∧
      (sampleAttached.2.heap 1).queue = [.disconnect ["aaaaaaaaaaaaaaaa"]] := by
  decide

/-- C6 (code defect). When the random source returns `0xFFFFFFFF` the index
is 64, one past the end of the alphabet, the digit is `undefined` and
`join` drops it: `makeID(16)` is then the empty string. -/
theorem makeID_short_on_max_word :
    readUInt32BE maxWordEnv 0 = 4294967295 ∧
      digitIndex 4294967295 = 64 ∧
      options.get? 64 = none ∧
      (makeID maxWordEnv 0 16).1 = "" ∧
      (makeID maxWordEnv 0 16).1.length ≠ 16 := by
  decide

/-- C7 (code defect). Without `SECRET` every call of `makeKey` keys the
hash with a buffer it draws itself, so two calls for one id agree only if
the hash does not tell the two buffers apart. -/
theorem makeKey_fresh_secret_each_call (env : Env) (draws : Nat) (id : String)
    (hsecret : env.SECRET = none ∨ env.SECRET = some "")
    (hdep : env.hmac (.buffer (env.randomBuffer draws)) id
      ≠ env.hmac (.buffer (env.randomBuffer (draws + 1))) id) :
    (makeKey env (makeKey env draws id).2 id).1 ≠ (makeKey env draws id).1 := by
  rw [makeKey_of_no_secret env hsecret draws id]
  simp only
  rw [makeKey_of_no_secret env hsecret (draws + 1) id]
  exact fun h => hdep h.symm

/-- C7, checked on the sample environment without `SECRET`. -/
theorem makeKey_fresh_secret_each_call_witness :
    (noSecretEnv.SECRET = none ∨ noSecretEnv.SECRET = some "") ∧
      noSecretEnv.hmac (.buffer (noSecretEnv.randomBuffer 0)) "aaaaaaaaaaaaaaaa"
        ≠ noSecretEnv.hmac (.buffer (noSecretEnv.randomBuffer (0 + 1))) "aaaaaaaaaaaaaaaa" ∧
      (makeKey noSecretEnv (makeKey noSecretEnv 0 "aaaaaaaaaaaaaaaa").2 "aaaaaaaaaaaaaaaa").1
        ≠ (makeKey noSecretEnv 0 "aaaaaaaaaaaaaaaa").1 :=
  ⟨Or.inl rfl, by decide,
    makeKey_fresh_secret_each_call noSecretEnv 0 "aaaaaaaaaaaaaaaa" (Or.inl rfl) (by decide)⟩

/-- C8. A registered peer that is unbound with `timeout = t + timeout` is
removed by the first `getPeerList` at a clock `now > t + timeout`: the call
returns the keys of the registry left, without the peer, whose own queue
is not touched; with presence on, every peer left is sent exactly one
message by that sweep, `{ disconnect: removed }` with the peer in
`removed`; and a later sweep, from any well-formed state in which the id
has not been registered again, returns a list without it and sends no
`disconnect` message that mentions it. -/
theorem expiry_after_detach (env : Env) (s : State) (id : String) (peer : Addr) (t now : Int)
    (hwf : WellFormed s) (hreg : s.connectedUsers.lookup id = some peer)
    (hunbound : weakMapGet s.streams peer = none)
    (htimeout : (s.heap peer).timeout = .ms (t + env.timeout))
    (hnow : t + env.timeout < now) :
    ∃ connected s1, getPeerList env now s = .ok connected s1 ∧
      connected = objectKeys s1.connectedUsers ∧
      id ∉ connected ∧ s1.connectedUsers.lookup id = none ∧
      (s1.heap peer).queue = (s.heap peer).queue ∧
      (env.presence = true → id ∈ removedBy s now ∧
        ∀ k b, s1.connectedUsers.lookup k = some b →
          Received s s1 b [.disconnect (removedBy s now)]) ∧
      WellFormed s1 ∧
      ∀ (s2 : State) (now2 : Int), WellFormed s2 → s2.connectedUsers.lookup id = none →
        ∃ connected2 s3, getPeerList env now2 s2 = .ok connected2 s3 ∧ id ∉ connected2 ∧
          s3.connectedUsers.lookup id = none ∧ WellFormed s3 ∧
          ∀ b, ∃ ms, Received s2 s3 b ms ∧
            ∀ removed, Msg.disconnect removed ∈ ms → id ∉ removed := by
  have hexp : (s.heap peer).timeout.lt now = true := by
    rw [htimeout]
    simpa [Time.lt] using hnow
  obtain ⟨s1, h1, hcu, hst, -, -, -, hwf1, -, hyes, hno⟩ := getPeerList_spec env now s hwf
  have hreg1 : s1.connectedUsers.lookup id = none := by
    rw [hcu, lookup_swept s now id hwf.keys, hreg]
    simp [Option.filter, hexp]
  have hgone : ¬ ∃ k, s1.connectedUsers.lookup k = some peer := by
    rintro ⟨k, hk⟩
    have hk0 : s.connectedUsers.lookup k = some peer := by
      rw [hcu, lookup_swept s now k hwf.keys] at hk
      cases hl : s.connectedUsers.lookup k with
      | none => simp [hl, Option.filter] at hk
      | some a =>
        rw [hl] at hk
        simp only [Option.filter] at hk
        split at hk
        · exact hk
        · cases hk
    have hkid : k = id := eq_of_lookup_eq _ k id peer hwf.objects hk0 hreg
    rw [hkid, hreg1] at hk
    cases hk
  have hmine := hno peer (Or.inr (Or.inr hgone))
  refine ⟨_, s1, h1, rfl, ?_, hreg1, ?_, ?_, hwf1, ?_⟩
  · intro hm
    obtain ⟨a, ha⟩ := lookup_isSome_of_mem_keys _ id ((mem_objectKeys _ _).1 hm)
    rw [hreg1] at ha
    cases ha
  · unfold Received at hmine
    rw [hunbound] at hmine
    simpa using hmine
  · intro hp
    have hmem := mem_removedBy s now id peer hreg hexp
    exact ⟨hmem, hyes hp (List.ne_nil_of_mem hmem)⟩
  · intro s2 now2 hwf2 hreg2
    exact getPeerList_of_unregistered env now2 s2 id hwf2 hreg2

/-- C8, checked on the sample run: the stream closed at clock 2, the sweep runs at clock 10003. -/
theorem expiry_after_detach_witness :
    WellFormed sampleDetached ∧
      sampleDetached.connectedUsers.lookup "aaaaaaaaaaaaaaaa" = some 0 ∧
      weakMapGet sampleDetached.streams 0 = none ∧
      (sampleDetached.heap 0).timeout = .ms (2 + sampleEnv.timeout) ∧
      2 + sampleEnv.timeout < 10003 ∧
      ∃ connected s1, getPeerList sampleEnv 10003 sampleDetached = .ok connected s1 ∧
        connected = objectKeys s1.connectedUsers ∧
        "aaaaaaaaaaaaaaaa" ∉ connected ∧ s1.connectedUsers.lookup "aaaaaaaaaaaaaaaa" = none ∧
        (s1.heap 0).queue = (sampleDetached.heap 0).queue ∧
        (sampleEnv.presence = true → "aaaaaaaaaaaaaaaa" ∈ removedBy sampleDetached 10003 ∧
          ∀ k b, s1.connectedUsers.lookup k = some b →
            Received sampleDetached s1 b [.disconnect (removedBy sampleDetached 10003)]) ∧
        WellFormed s1 ∧
        ∀ (s2 : State) (now2 : Int), WellFormed s2 →
          s2.connectedUsers.lookup "aaaaaaaaaaaaaaaa" = none →
          ∃ connected2 s3, getPeerList sampleEnv now2 s2 = .ok connected2 s3 ∧
            "aaaaaaaaaaaaaaaa" ∉ connected2 ∧
            s3.connectedUsers.lookup "aaaaaaaaaaaaaaaa" = none ∧ WellFormed s3 ∧
            ∀ b, ∃ ms, Received s2 s3 b ms ∧
              ∀ removed, Msg.disconnect removed ∈ ms → "aaaaaaaaaaaaaaaa" ∉ removed :=
  ⟨⟨by decide, by decide, by decide, by decide⟩, by decide, by decide, by decide, by decide,
    expiry_after_detach sampleEnv sampleDetached "aaaaaaaaaaaaaaaa" 0 2 10003
      ⟨by decide, by decide, by decide, by decide⟩ (by decide) (by decide) (by decide)
      (by decide)⟩

/-- C9, as stated, fails on "every later `getPeerList` result".  In the
eighth sample run the peer connects and leaves with `/disconnect` at clock
6000: it is unregistered and the sweep at that clock lists nobody.  Then
`/events` with the same credentials, at clock 6001, passes the recovery
test and stores a record for the id again, and the `getPeerList` at clock
6002 lists it. -/
theorem disconnect_then_recovery_counterexample :
    sampleConnected.connectedUsers.lookup "aaaaaaaaaaaaaaaa" = some 0 ∧
      (sampleConnected.heap 0).key = "secret/aaaaaaaaaaaaaaaa" ∧
      sampleLeft.1 = .noResponse ∧
      sampleLeft.2.connectedUsers.lookup "aaaaaaaaaaaaaaaa" = none ∧
      (getPeerList sampleEnv 6000 sampleLeft.2).value? = some [] ∧
      recovers sampleEnv "aaaaaaaaaaaaaaaa" "secret/aaaaaaaaaaaaaaaa" sampleLeft.2 = true ∧
      sampleBack.1 = .streaming ∧
      sampleBack.2.connectedUsers.lookup "aaaaaaaaaaaaaaaa" = some 1 ∧
      (getPeerList sampleEnv 6002 sampleBack.2).value? = some ["aaaaaaaaaaaaaaaa"] := by
  decide

/-- C9 (amended). `/disconnect` with the peer's own key in a reachable
state, at a clock `now > 0`: the binding of the peer is cleared, the
handler ends without an exception, and the peer is no longer registered;
every other registered peer whose timeout is not below `now` is still
registered.  After any later run of requests, `close` events and exported
calls in which no record is stored under the id again (no `/connect`
issues it, no `/events` request for it passes the recovery test), the id is
still unregistered and every `getPeerList` returns a list without it. -/
theorem explicit_disconnect (env : Env) (s : State) (id : String) (peer : Addr) (now : Int)
    (hs : Reachable env s) (hreg : s.connectedUsers.lookup id = some peer) (hnow : 0 < now) :
    ∃ s1, disconnect env now id (s.heap peer).key s = (.noResponse, s1) ∧
      weakMapGet s1.streams peer = none ∧
      s1.connectedUsers.lookup id = none ∧
      id ∉ objectKeys s1.connectedUsers ∧
      WellFormed s1 ∧
      (∀ k b, k ≠ id → s.connectedUsers.lookup k = some b →
        (s.heap b).timeout.lt now = false → s1.connectedUsers.lookup k = some b) ∧
      ∀ s2, Later env id s1 s2 →
        s2.connectedUsers.lookup id = none ∧
        ∀ now2 : Int, ∃ connected s3, getPeerList env now2 s2 = .ok connected s3 ∧
          id ∉ connected ∧ s3.connectedUsers.lookup id = none := by
  have hwf := Reachable.wellFormed env s hs
  have hwf2 : WellFormed { s with
      streams := weakMapDelete s.streams peer
      heap := Function.update s.heap peer { s.heap peer with timeout := .ms 0 } } :=
    ⟨hwf.keys, hwf.objects, nodup_map_filter _ _ _ hwf.bound,
      nodup_map_filter _ _ _ hwf.channels⟩
  obtain ⟨s1, h1, hcu, hst, -, -, -, hwf1, -, -, -⟩ := getPeerList_spec env now _ hwf2
  simp only at hcu hst
  have hreg1 : s1.connectedUsers.lookup id = none := by
    rw [hcu, lookup_filter _ _ _ hwf.keys, hreg]
    simp [Option.filter, expiredEntry, Time.lt, hnow]
  have hd : disconnect env now id (s.heap peer).key s = (.noResponse, s1) := by
    simp only [disconnect, hreg, bne_self_eq_false, Bool.false_eq_true, if_false]
    rw [h1]
  have hs1 : Reachable env s1 := by
    have := Reachable.disconnect s now id (s.heap peer).key hs
    rw [hd] at this
    exact this
  refine ⟨s1, hd, ?_, hreg1, ?_, hwf1, ?_, ?_⟩
  · rw [hst]
    exact weakMapGet_weakMapDelete_self _ _
  · intro hm
    obtain ⟨a, ha⟩ := lookup_isSome_of_mem_keys _ id ((mem_objectKeys _ _).1 hm)
    rw [hreg1] at ha
    cases ha
  · intro k b hk hkb hlive
    have hb : b ≠ peer := by
      rintro rfl
      exact hk (eq_of_lookup_eq _ k id b hwf.objects hkb hreg)
    rw [hcu, lookup_filter _ _ _ hwf.keys, hkb]
    simp [Option.filter, expiredEntry, Function.update, hb, hlive]
  · intro s2 hl
    have hreg2 := Later.unregistered env id s1 s2 hl hreg1
    refine ⟨hreg2, ?_⟩
    intro now2
    obtain ⟨connected, s3, h3, hn, hr, -, -⟩ :=
      getPeerList_of_unregistered env now2 s2 id
        (Reachable.wellFormed env s2 (Later.reachable env id s1 s2 hl hs1)) hreg2
    exact ⟨connected, s3, h3, hn, hr⟩

/-- C9 (amended), checked on the second sample run: the first of the two
peers leaves at clock 6000. -/
theorem explicit_disconnect_witness :
    Reachable sampleEnv sampleTwoPeers ∧
      sampleTwoPeers.connectedUsers.lookup "aaaaaaaaaaaaaaaa" = some 0 ∧
      (0 : Int) < 6000 ∧
      ∃ s1, disconnect sampleEnv 6000 "aaaaaaaaaaaaaaaa" (sampleTwoPeers.heap 0).key
            sampleTwoPeers = (.noResponse, s1) ∧
        weakMapGet s1.streams 0 = none ∧
        s1.connectedUsers.lookup "aaaaaaaaaaaaaaaa" = none ∧
        "aaaaaaaaaaaaaaaa" ∉ objectKeys s1.connectedUsers ∧
        WellFormed s1 ∧
        (∀ k b, k ≠ "aaaaaaaaaaaaaaaa" → sampleTwoPeers.connectedUsers.lookup k = some b →
          (sampleTwoPeers.heap b).timeout.lt 6000 = false →
          s1.connectedUsers.lookup k = some b) ∧
        ∀ s2, Later sampleEnv "aaaaaaaaaaaaaaaa" s1 s2 →
          s2.connectedUsers.lookup "aaaaaaaaaaaaaaaa" = none ∧
          ∀ now2 : Int, ∃ connected s3, getPeerList sampleEnv now2 s2 = .ok connected s3 ∧
            "aaaaaaaaaaaaaaaa" ∉ connected ∧
            s3.connectedUsers.lookup "aaaaaaaaaaaaaaaa" = none :=
  ⟨Reachable.connect _ 5000 5000 (Reachable.connect _ 0 0 Reachable.initial), by decide,
    by decide,
    explicit_disconnect sampleEnv sampleTwoPeers "aaaaaaaaaaaaaaaa" 0 6000
      (Reachable.connect _ 5000 5000 (Reachable.connect _ 0 0 Reachable.initial)) (by decide)
      (by decide)⟩

/-- C10. On a well-formed state `broadcastData(x)` returns; the registry
left is the one the sweep leaves; every peer registered then is sent
`{ data: x }` exactly once, after at most the `disconnect` notice of that
sweep (to its stream if it is bound, to the end of its queue if not); and
a peer object that is not registered then, in particular one the sweep
removed, is sent nothing. -/
theorem broadcastData_fanout (env : Env) (now : Int) (x : Payload) (s : State)
    (hwf : WellFormed s) :
    ∃ s1, broadcastData env now x s = .ok () s1 ∧
      s1.connectedUsers = (swept s now).connectedUsers ∧
      s1.streams = s.streams ∧
      (∀ k b, s1.connectedUsers.lookup k = some b →
        ∃ pre, (pre = [] ∨ pre = [.disconnect (removedBy s now)]) ∧
          Received s s1 b (pre ++ [.data x])) ∧
      (∀ k b, s.connectedUsers.lookup k = some b → s1.connectedUsers.lookup k = none →
        Received s s1 b []) ∧
      ∀ b, (¬ ∃ k, s1.connectedUsers.lookup k = some b) → Received s s1 b [] := by
  obtain ⟨s0, h0, hcu0, hst0, -, -, -, hwf0, -, hyes0, hno0⟩ := getPeerList_spec env now s hwf
  obtain ⟨s1, h1, hcu1, hst1, -, -, -, -, hyes1, hno1⟩ :=
    forEach_sendRaw_received (.data x) (objectKeys s0.connectedUsers) s0 hwf0
      (nodup_objectKeys _ hwf0.keys)
      (fun k hk => lookup_isSome_of_mem_keys _ k ((mem_objectKeys _ k).1 hk))
  have hrest : ∀ b, (¬ ∃ k, s1.connectedUsers.lookup k = some b) → Received s s1 b [] := by
    intro b hb
    have hb0 : ¬ ∃ k, s0.connectedUsers.lookup k = some b := by
      rw [← hcu1]
      exact hb
    have r0 := hno0 b (Or.inr (Or.inr hb0))
    have r1 := hno1 b (fun ⟨k, _, hk⟩ => hb0 ⟨k, hk⟩)
    exact received_trans s s0 s1 b [] [] hst0 r0 r1
  refine ⟨s1, ?_, hcu1.trans hcu0, hst1.trans hst0, ?_, ?_, hrest⟩
  · simp only [broadcastData, broadcastRaw, h0]
    exact h1
  · intro k b hk
    rw [hcu1] at hk
    have r1 := hyes1 b ⟨k, (mem_objectKeys _ k).2 (mem_keys_of_lookup _ k b hk), hk⟩
    by_cases hcase : env.presence = true ∧ removedBy s now ≠ []
    · exact ⟨_, Or.inr rfl,
        received_trans s s0 s1 b _ _ hst0 (hyes0 hcase.1 hcase.2 k b hk) r1⟩
    · have r0 : Received s s0 b [] := by
        apply hno0 b
        by_cases hp : env.presence = true
        · by_cases hr : removedBy s now = []
          · exact Or.inr (Or.inl hr)
          · exact absurd ⟨hp, hr⟩ hcase
        · exact Or.inl (by simpa using hp)
      exact ⟨[], Or.inl rfl, received_trans s s0 s1 b _ _ hst0 r0 r1⟩
  · intro k b hk hk1
    apply hrest b
    rintro ⟨k1, hk1b⟩
    have hk0 : s.connectedUsers.lookup k1 = some b := by
      rw [hcu1, hcu0, lookup_swept s now k1 hwf.keys] at hk1b
      cases hl : s.connectedUsers.lookup k1 with
      | none => simp [hl, Option.filter] at hk1b
      | some a =>
        rw [hl] at hk1b
        simp only [Option.filter] at hk1b
        split at hk1b
        · exact hk1b
        · cases hk1b
    have : k1 = k := eq_of_lookup_eq _ k1 k b hwf.objects hk0 hk
    rw [this, hk1] at hk1b
    cases hk1b

/-- C10, checked on the second sample run at clock 12000, when the first peer has expired. -/
theorem broadcastData_fanout_witness :
    WellFormed sampleTwoPeers ∧
      ∃ s1, broadcastData sampleEnv 12000 "x" sampleTwoPeers = .ok () s1 ∧
        s1.connectedUsers = (swept sampleTwoPeers 12000).connectedUsers ∧
        s1.streams = sampleTwoPeers.streams ∧
        (∀ k b, s1.connectedUsers.lookup k = some b →
          ∃ pre, (pre = [] ∨ pre = [.disconnect (removedBy sampleTwoPeers 12000)]) ∧
            Received sampleTwoPeers s1 b (pre ++ [.data "x"])) ∧
        (∀ k b, sampleTwoPeers.connectedUsers.lookup k = some b →
          s1.connectedUsers.lookup k = none → Received sampleTwoPeers s1 b []) ∧
        ∀ b, (¬ ∃ k, s1.connectedUsers.lookup k = some b) → Received sampleTwoPeers s1 b [] :=
  ⟨⟨by decide, by decide, by decide, by decide⟩,
    broadcastData_fanout sampleEnv 12000 "x" sampleTwoPeers
      ⟨by decide, by decide, by decide, by decide⟩⟩

/-- C11. Round trip from an empty registry: `/connect` at clock `t` (its
sweep at `t2`), then `/events` with the credentials returned, on the
response object `res`, its sweep at a clock `now2` with
`t2 ≤ now2 ≤ t + timeout`.  The second request succeeds, replays nothing,
binds the stream to the record, and with presence on writes exactly one
message, the presence list `[id]`. -/
theorem round_trip (env : Env) (t t2 now1 now2 : Int) (res : Chan) (s : State)
    (hempty : s.connectedUsers = []) (horder : t2 ≤ now2) (hnow : now2 ≤ t + env.timeout) :
    ∃ s0 s1, connect env t t2 s = (.credentials (issuedId env s) (issuedKey env s), s0) ∧
      events env now1 now2 res (issuedId env s) (issuedKey env s) s0 = (.streaming, s1) ∧
      streamLog s1 res = streamLog s res
        ++ (if env.presence = true then [.presence [issuedId env s]] else []) ∧
      s1.connectedUsers = [(issuedId env s, s.next)] ∧
      (s1.heap s.next).queue = [] ∧
      weakMapGet s1.streams s.next = some res := by
  have hcu : (registered env t s).connectedUsers = [(issuedId env s, s.next)] := by
    show objectSet s.connectedUsers _ _ = _
    rw [hempty]
    rfl
  have hto : ((registered env t s).heap s.next).timeout = .ms (t + env.timeout) := by
    simp [registered]
  have hkey : ((registered env t s).heap s.next).key = issuedKey env s := by
    simp [registered]
  have hq : ((registered env t s).heap s.next).queue = [] := by
    simp [registered]
  have hlive2 : ((registered env t s).heap s.next).timeout.lt t2 = false := by
    rw [hto]
    have : ¬ (t + env.timeout < t2) := not_lt.2 (le_trans horder hnow)
    simp [Time.lt, this]
  have hlive : ((registered env t s).heap s.next).timeout.lt now2 = false := by
    rw [hto]
    have : ¬ (t + env.timeout < now2) := not_lt.2 hnow
    simp [Time.lt, this]
  have hl : (registered env t s).connectedUsers.lookup (issuedId env s) = some s.next := by
    rw [hcu]
    simp [List.lookup]
  have hconnect : connect env t t2 s
      = (.credentials (issuedId env s) (issuedKey env s), registered env t s) := by
    by_cases hp : env.presence = true
    · rw [connect_eq]
      simp only [hp, if_true]
      rw [getPeerList_single env t2 _ _ _ hcu hlive2]
      simp [notifyConnect, forEach, registered]
    · exact connect_quiet env t t2 s (by simpa using hp)
  by_cases hp : env.presence = true
  · refine ⟨registered env t s, { registered env t s with
      written := (registered env t s).written ++ [(res, .presence [issuedId env s])]
      streams := weakMapSet (registered env t s).streams s.next res
      closeHandlers := (registered env t s).closeHandlers ++ [(res, s.next)] },
      hconnect, ?_, ?_, hcu, hq, weakMapGet_weakMapSet_self _ _ _⟩
    · simp only [events, hl, attach, hkey, bne_self_eq_false, Bool.false_eq_true, if_false, hq,
        drain, hp, if_true]
      rw [getPeerList_single env now2 _ _ _ hcu hlive]
    · rw [if_pos hp]
      simp [streamLog, List.filter_append, registered]
  · have hp' : env.presence = false := by simpa using hp
    refine ⟨registered env t s, { registered env t s with
      streams := weakMapSet (registered env t s).streams s.next res
      closeHandlers := (registered env t s).closeHandlers ++ [(res, s.next)] },
      hconnect, ?_, ?_, hcu, hq, weakMapGet_weakMapSet_self _ _ _⟩
    · simp only [events, hl, attach, hkey, bne_self_eq_false, Bool.false_eq_true, if_false, hq,
        drain, hp']
    · rw [if_neg hp]
      simp [streamLog, registered]

/-- C11, checked on a new instance: `/connect` at clock 0, `/events` at clock 1. -/
theorem round_trip_witness :
    initial.connectedUsers = [] ∧ (0 : Int) ≤ 1 ∧ (1 : Int) ≤ 0 + sampleEnv.timeout ∧
      ∃ s0 s1, connect sampleEnv 0 0 initial
          = (.credentials (issuedId sampleEnv initial) (issuedKey sampleEnv initial), s0) ∧
        events sampleEnv 1 1 0 (issuedId sampleEnv initial) (issuedKey sampleEnv initial) s0
          = (.streaming, s1) ∧
        streamLog s1 0 = streamLog initial 0
          ++ (if sampleEnv.presence = true then [.presence [issuedId sampleEnv initial]]
            else []) ∧
        s1.connectedUsers = [(issuedId sampleEnv initial, initial.next)] ∧
        (s1.heap initial.next).queue = [] ∧
        weakMapGet s1.streams initial.next = some 0 :=
  ⟨rfl, by decide, by decide, round_trip sampleEnv 0 0 1 1 0 initial rfl (by decide) (by decide)⟩

/-- C12 (code defect). `connectedUsers` is a plain object, so for an id that
names an inherited property the read `connectedUsers[id]` is a function,
`!peer` is false and the recovery branch is skipped.  Under `idLength = 11`
and on a new instance the id `constructor` is not registered, `validateID`
accepts it and the key presented is `makeKey(id)`; `/events` answers
`{ error: 'incorrect key' }`, stores no record and binds no stream.  For
the id `aaaaaaaaaaa` the same request is accepted. -/
theorem recovery_skipped_for_inherited_name :
    initial.connectedUsers.lookup "constructor" = none ∧
      validateID "constructor" elevenEnv.idLength = true ∧
      (makeKey elevenEnv initial.draws "constructor").1 = "secret/constructor" ∧
      (events elevenEnv 1 1 0 "constructor" "secret/constructor" initial).1 = .rejected ∧
      streamLog (events elevenEnv 1 1 0 "constructor" "secret/constructor" initial).2 0
        = [.error "incorrect key"] ∧
      (events elevenEnv 1 1 0 "constructor" "secret/constructor" initial).2.connectedUsers
        = [] ∧
      (events elevenEnv 1 1 0 "constructor" "secret/constructor" initial).2.streams = [] ∧
      (events elevenEnv 1 1 0 "aaaaaaaaaaa" "secret/aaaaaaaaaaa" initial).1 = .streaming ∧
      (events elevenEnv 1 1 0 "aaaaaaaaaaa" "secret/aaaaaaaaaaa" initial).2.connectedUsers
        = [("aaaaaaaaaaa", 0)] := by
  decide

/-- C13 (code defect). `connectedUsers` is a plain object, so ids that name
an inherited property are found by `/send-signal` although no peer has
them.  In the second sample run `constructor` is not registered: as a
sender it gets the authentication failure (401), where another
unregistered sender gets the not-found answer (500); as a target, with a
registered sender and the right key, the handler throws on
`sendRaw(undefined, ...)`, where another unregistered target gets 404. -/
theorem sendSignal_finds_inherited_name :
    sampleTwoPeers.connectedUsers.lookup "constructor" = none ∧
      sampleTwoPeers.connectedUsers.lookup "zzzzzzzzzzzzzzzz" = none ∧
      (sendSignal "bbbbbbbbbbbbbbbb" "constructor" "k" "offer" sampleTwoPeers).1
        = .sendStatus 401 ∧
      (sendSignal "bbbbbbbbbbbbbbbb" "zzzzzzzzzzzzzzzz" "k" "offer" sampleTwoPeers).1
        = .sendStatus 500 ∧
      sampleTwoPeers.connectedUsers.lookup "aaaaaaaaaaaaaaaa" = some 0 ∧
      (sampleTwoPeers.heap 0).key = "secret/aaaaaaaaaaaaaaaa" ∧
      (sendSignal "constructor" "aaaaaaaaaaaaaaaa" "secret/aaaaaaaaaaaaaaaa" "offer"
        sampleTwoPeers).1 = .threw ∧
      (sendSignal "zzzzzzzzzzzzzzzz" "aaaaaaaaaaaaaaaa" "secret/aaaaaaaaaaaaaaaa" "offer"
        sampleTwoPeers).1 = .sendStatus 404 := by
  decide

/-- C14. `/connect` in a reachable state answers `{ id, key }` for the id
just issued and `key = makeKey(id)`, and stores under that id a new record
with this id and key and `timeout = now1 + timeout`; the record is still
registered on return unless its own timeout has passed at the sweep.  With
presence off no sweep runs and nothing is sent: the state is the one with
the record stored, its queue `[]`.  With presence on every other peer
registered after the sweep is sent `{ connect: [id] }` exactly once, after
the notice of that sweep if there is one; the new record is bound to no
stream and its queue holds no `connect` message, only that notice if any. -/
theorem connect_effect (env : Env) (now1 now2 : Int) (s : State) (hs : Reachable env s) :
    ∃ s1, connect env now1 now2 s = (.credentials (issuedId env s) (issuedKey env s), s1) ∧
      (∀ k, s.connectedUsers.lookup k ≠ some s.next) ∧
      (s1.heap s.next).id = issuedId env s ∧
      (s1.heap s.next).key = issuedKey env s ∧
      (s1.heap s.next).timeout = .ms (now1 + env.timeout) ∧
      (now2 ≤ now1 + env.timeout → s1.connectedUsers.lookup (issuedId env s) = some s.next) ∧
      (env.presence = false →
        s1 = registered env now1 s ∧
        s1.connectedUsers = objectSet s.connectedUsers (issuedId env s) s.next ∧
        s1.connectedUsers.lookup (issuedId env s) = some s.next ∧
        s1.written = s.written ∧ (∀ b, b ≠ s.next → s1.heap b = s.heap b) ∧
        (s1.heap s.next).queue = []) ∧
      (env.presence = true →
        s1.connectedUsers = (swept (registered env now1 s) now2).connectedUsers ∧
        (∀ k b, s1.connectedUsers.lookup k = some b → k ≠ issuedId env s →
          Received s s1 b (notice env (registered env now1 s) now2
            ++ [.connect [issuedId env s]])) ∧
        weakMapGet s1.streams s.next = none ∧
        ((s1.heap s.next).queue = [] ∨
          (s1.heap s.next).queue = notice env (registered env now1 s) now2) ∧
        (∀ ids, Msg.connect ids ∉ (s1.heap s.next).queue)) := by
  have hi := Reachable.invariant env s hs
  have hc := Reachable.consistent env s hs
  have hfresh : ∀ k, s.connectedUsers.lookup k ≠ some s.next := not_registered_next s hi
  have hreg : (registered env now1 s).connectedUsers.lookup (issuedId env s) = some s.next :=
    lookup_objectSet_self _ _ _
  have hfields : ((registered env now1 s).heap s.next).id = issuedId env s ∧
      ((registered env now1 s).heap s.next).key = issuedKey env s ∧
      ((registered env now1 s).heap s.next).timeout = .ms (now1 + env.timeout) ∧
      ((registered env now1 s).heap s.next).queue = [] := by
    refine ⟨?_, ?_, ?_, ?_⟩ <;> simp [registered]
  by_cases hp : env.presence = true
  · obtain ⟨s1, h1, hcu, hst, -, -, hf, hothers, hself, hgone, -⟩ :=
      connect_presence env now1 now2 s hi hc hp
    have hqueue : (s1.heap s.next).queue = [] ∨
        (s1.heap s.next).queue = notice env (registered env now1 s) now2 := by
      by_cases hk : s1.connectedUsers.lookup (issuedId env s) = some s.next
      · exact Or.inr (hself hk)
      · exact Or.inl (hgone hk)
    refine ⟨s1, h1, hfresh, (hf s.next).1.trans hfields.1, (hf s.next).2.1.trans hfields.2.1,
      (hf s.next).2.2.trans hfields.2.2.1, ?_, ?_, ?_⟩
    · intro hlate
      rw [hcu]
      exact lookup_swept_registered env now1 now2 s hi hlate
    · intro hoff
      rw [hp] at hoff
      cases hoff
    · intro _
      refine ⟨hcu, fun k b hk hne => (hothers k b hk hne).2, ?_, hqueue, ?_⟩
      · rw [hst]
        exact weakMapGet_eq_none_of_allocated s hc
      · intro ids hm
        rcases hqueue with h | h
        · rw [h] at hm
          cases hm
        · rw [h] at hm
          exact connect_not_mem_notice env _ now2 ids hm
  · have hp' : env.presence = false := by simpa using hp
    refine ⟨registered env now1 s, connect_quiet env now1 now2 s hp', hfresh, hfields.1,
      hfields.2.1, hfields.2.2.1, fun _ => hreg, ?_, ?_⟩
    · intro _
      refine ⟨rfl, rfl, hreg, rfl, ?_, hfields.2.2.2⟩
      intro b hb
      show Function.update s.heap s.next _ b = s.heap b
      simp [Function.update, hb]
    · intro hon
      exact absurd hon hp

/-- C14, checked on the first sample run: a second peer connects at clock 5000. -/
theorem connect_effect_witness :
    Reachable sampleEnv sampleConnected ∧
      ∃ s1, connect sampleEnv 5000 5000 sampleConnected
          = (.credentials (issuedId sampleEnv sampleConnected)
              (issuedKey sampleEnv sampleConnected), s1) ∧
        (∀ k, sampleConnected.connectedUsers.lookup k ≠ some sampleConnected.next) ∧
        (s1.heap sampleConnected.next).id = issuedId sampleEnv sampleConnected ∧
        (s1.heap sampleConnected.next).key = issuedKey sampleEnv sampleConnected ∧
        (s1.heap sampleConnected.next).timeout = .ms (5000 + sampleEnv.timeout) ∧
        (5000 ≤ 5000 + sampleEnv.timeout →
          s1.connectedUsers.lookup (issuedId sampleEnv sampleConnected)
            = some sampleConnected.next) ∧
        (sampleEnv.presence = false →
          s1 = registered sampleEnv 5000 sampleConnected ∧
          s1.connectedUsers = objectSet sampleConnected.connectedUsers
            (issuedId sampleEnv sampleConnected) sampleConnected.next ∧
          s1.connectedUsers.lookup (issuedId sampleEnv sampleConnected)
            = some sampleConnected.next ∧
          s1.written = sampleConnected.written ∧
          (∀ b, b ≠ sampleConnected.next → s1.heap b = sampleConnected.heap b) ∧
          (s1.heap sampleConnected.next).queue = []) ∧
        (sampleEnv.presence = true →
          s1.connectedUsers
            = (swept (registered sampleEnv 5000 sampleConnected) 5000).connectedUsers ∧
          (∀ k b, s1.connectedUsers.lookup k = some b →
            k ≠ issuedId sampleEnv sampleConnected →
            Received sampleConnected s1 b
              (notice sampleEnv (registered sampleEnv 5000 sampleConnected) 5000
                ++ [.connect [issuedId sampleEnv sampleConnected]])) ∧
          weakMapGet s1.streams sampleConnected.next = none ∧
          ((s1.heap sampleConnected.next).queue = [] ∨
            (s1.heap sampleConnected.next).queue
              = notice sampleEnv (registered sampleEnv 5000 sampleConnected) 5000) ∧
          (∀ ids, Msg.connect ids ∉ (s1.heap sampleConnected.next).queue)) :=
  ⟨Reachable.connect _ 0 0 Reachable.initial,
    connect_effect sampleEnv 5000 5000 sampleConnected
      (Reachable.connect _ 0 0 Reachable.initial)⟩

/-- C15, as stated, fails at the empty string with `n = 0`: it has exactly
0 characters, all of them (none) in `[a-zA-Z0-9]`, and `validateID` is false. -/
theorem validateID_empty_counterexample :
    ¬ (validateID "" 0 = true ↔ ("".length = 0 ∧ ∀ c ∈ "".data, alphanumeric c)) := by
  decide

/-- C15 (amended). `validateID(candidate, n)` is true if and only if
`candidate` is not empty, has exactly `n` characters and every character is
in `[a-zA-Z0-9]`.  So it is false for the empty string with `n = 0`, and
for every candidate that contains `_` or `$`, two characters of the
alphabet of `makeID`. -/
theorem validateID_iff :
    (∀ (candidate : String) (n : Nat), validateID candidate n = true ↔
      (candidate ≠ "" ∧ candidate.length = n ∧ ∀ c ∈ candidate.data, alphanumeric c)) ∧
    validateID "" 0 = false ∧
    (∀ (candidate : String) (n : Nat), ('_' ∈ candidate.data ∨ '$' ∈ candidate.data) →
      validateID candidate n = false) ∧
    '_' ∈ options ∧ '$' ∈ options := by
  have hiff : ∀ (candidate : String) (n : Nat), validateID candidate n = true ↔
      (candidate ≠ "" ∧ candidate.length = n ∧ ∀ c ∈ candidate.data, alphanumeric c) := by
    intro candidate n
    obtain ⟨cs⟩ := candidate
    have hne : (String.mk cs ≠ "") ↔ cs ≠ [] := by
      constructor
      · intro h hcs
        exact h (by rw [hcs])
      · intro h hs
        exact h (by
          have := congrArg String.data hs
          simpa using this)
    rw [hne]
    simp only [validateID, String.length, Bool.and_eq_true, Bool.not_eq_true',
      List.isEmpty_eq_false, List.all_eq_true, beq_iff_eq, isAlphanum_iff]
    constructor
    · rintro ⟨⟨h1, h2⟩, h3⟩
      exact ⟨h1, h3, h2⟩
    · rintro ⟨h1, h3, h2⟩
      exact ⟨⟨h1, h2⟩, h3⟩
  refine ⟨hiff, by decide, ?_, by decide, by decide⟩
  intro candidate n hc
  cases hv : validateID candidate n with
  | false => rfl
  | true =>
    have h := ((hiff candidate n).1 hv).2.2
    rcases hc with hc | hc
    · exact absurd (h _ hc) (by decide)
    · exact absurd (h _ hc) (by decide)

/-- C16. `sendRaw(p, m)` for a registered peer `p` returns; with a bound
stream it writes `m` to that stream and leaves the queue of `p` as it was,
without one it appends `m` to the queue of `p` and writes nothing.  In both
cases the registry, the bindings, every timeout (and id and key) and the
queue of every other peer object are unchanged. -/
theorem sendRaw_effect (toID : String) (m : Msg) (s : State) (peer : Addr)
    (hreg : s.connectedUsers.lookup toID = some peer) :
    ∃ s1, sendRaw toID m s = .ok () s1 ∧
      s1.connectedUsers = s.connectedUsers ∧ s1.streams = s.streams ∧
      s1.closeHandlers = s.closeHandlers ∧
      (∀ b, (s1.heap b).id = (s.heap b).id ∧ (s1.heap b).key = (s.heap b).key ∧
        (s1.heap b).timeout = (s.heap b).timeout) ∧
      (∀ b, b ≠ peer → (s1.heap b).queue = (s.heap b).queue) ∧
      (∀ stream, weakMapGet s.streams peer = some stream →
        s1.written = s.written ++ [(stream, m)] ∧ (s1.heap peer).queue = (s.heap peer).queue) ∧
      (weakMapGet s.streams peer = none →
        s1.written = s.written ∧ (s1.heap peer).queue = (s.heap peer).queue ++ [m]) := by
  cases hw : weakMapGet s.streams peer with
  | some stream =>
    refine ⟨{ s with written := s.written ++ [(stream, m)] }, ?_, rfl, rfl, rfl,
      fun b => ⟨rfl, rfl, rfl⟩, fun b _ => rfl, ?_, ?_⟩
    · simp only [sendRaw, hreg, hw]
    · intro stream1 h1
      cases h1
      exact ⟨rfl, rfl⟩
    · intro h1
      cases h1
  | none =>
    refine ⟨{ s with
        heap := Function.update s.heap peer
          { s.heap peer with queue := (s.heap peer).queue ++ [m] } }, ?_, rfl, rfl, rfl,
      ?_, ?_, ?_, ?_⟩
    · simp only [sendRaw, hreg, hw]
    · intro b
      by_cases hb : b = peer
      · subst hb
        simp
      · simp [Function.update, hb]
    · intro b hb
      simp [Function.update, hb]
    · intro stream1 h1
      cases h1
    · intro _
      exact ⟨rfl, by simp⟩

/-- C16, checked on the second sample run: a message for the second peer, which is unbound. -/
theorem sendRaw_effect_witness :
    sampleTwoPeers.connectedUsers.lookup "bbbbbbbbbbbbbbbb" = some 1 ∧
      ∃ s1, sendRaw "bbbbbbbbbbbbbbbb" (.raw "m") sampleTwoPeers = .ok () s1 ∧
        s1.connectedUsers = sampleTwoPeers.connectedUsers ∧
        s1.streams = sampleTwoPeers.streams ∧
        s1.closeHandlers = sampleTwoPeers.closeHandlers ∧
        (∀ b, (s1.heap b).id = (sampleTwoPeers.heap b).id ∧
          (s1.heap b).key = (sampleTwoPeers.heap b).key ∧
          (s1.heap b).timeout = (sampleTwoPeers.heap b).timeout) ∧
        (∀ b, b ≠ 1 → (s1.heap b).queue = (sampleTwoPeers.heap b).queue) ∧
        (∀ stream, weakMapGet sampleTwoPeers.streams 1 = some stream →
          s1.written = sampleTwoPeers.written ++ [(stream, .raw "m")] ∧
            (s1.heap 1).queue = (sampleTwoPeers.heap 1).queue) ∧
        (weakMapGet sampleTwoPeers.streams 1 = none →
          s1.written = sampleTwoPeers.written ∧
            (s1.heap 1).queue = (sampleTwoPeers.heap 1).queue ++ [.raw "m"]) :=
  ⟨by decide, sendRaw_effect "bbbbbbbbbbbbbbbb" (.raw "m") sampleTwoPeers 1 (by decide)⟩

/-- C17, as stated, fails on the order.  Under `idLength = 1` the peer `b`
connects, then the peer `1`; nothing is removed at clock 0, the registry
holds `b`, `1` in this order, and `getPeerList` returns `1`, `b`: the
returned list does not keep the insertion order. -/
theorem getPeerList_order_counterexample :
    sampleShort.connectedUsers.map Prod.fst = ["b", "1"] ∧
      (getPeerList shortEnv 0 sampleShort).value? = some ["1", "b"] ∧
      (getPeerList shortEnv 0 sampleShort).state.connectedUsers.map Prod.fst = ["b", "1"] ∧
      ¬ List.Sublist ["1", "b"] (sampleShort.connectedUsers.map Prod.fst) := by
  decide

/-- C17 (amended). On a well-formed state `getPeerList` returns exactly the
identifiers registered after the sweep, without duplicates, in the order of
`Object.keys`: the identifiers that are array indices first, in ascending
numeric order, then the others in insertion order; when no registered
identifier is an array index this is the insertion order the registry had
before the sweep.  A peer is removed exactly when its timeout is below
`now`.  Every peer left is sent the notice of the sweep, which is
`{ disconnect: removed }` when presence is on and somebody was removed and
nothing otherwise; a peer object that is not registered afterwards, a
removed one in particular, is sent nothing. -/
theorem getPeerList_result (env : Env) (now : Int) (s : State) (hwf : WellFormed s) :
    ∃ connected s1, getPeerList env now s = .ok connected s1 ∧
      (∀ k, k ∈ connected ↔ ∃ b, s1.connectedUsers.lookup k = some b) ∧
      connected.Nodup ∧
      connected
        = ((s1.connectedUsers.map Prod.fst).filter
            (fun k => (arrayIndex k).isSome)).insertionSort indexLE
          ++ (s1.connectedUsers.map Prod.fst).filter (fun k => !(arrayIndex k).isSome) ∧
      (((s1.connectedUsers.map Prod.fst).filter
          (fun k => (arrayIndex k).isSome)).insertionSort indexLE).Sorted indexLE ∧
      List.Sublist (s1.connectedUsers.map Prod.fst) (s.connectedUsers.map Prod.fst) ∧
      ((∀ k ∈ s.connectedUsers.map Prod.fst, arrayIndex k = none) →
        connected = s1.connectedUsers.map Prod.fst ∧
        List.Sublist connected (s.connectedUsers.map Prod.fst)) ∧
      (∀ k b, s.connectedUsers.lookup k = some b → (s.heap b).timeout.lt now = false →
        s1.connectedUsers.lookup k = some b) ∧
      (∀ k b, s.connectedUsers.lookup k = some b → (s.heap b).timeout.lt now = true →
        s1.connectedUsers.lookup k = none ∧ k ∈ removedBy s now) ∧
      ((env.presence = false ∨ removedBy s now = []) → notice env s now = []) ∧
      (env.presence = true → removedBy s now ≠ [] →
        notice env s now = [.disconnect (removedBy s now)]) ∧
      (∀ b, (∃ k, s1.connectedUsers.lookup k = some b) → Received s s1 b (notice env s now)) ∧
      (∀ b, (¬ ∃ k, s1.connectedUsers.lookup k = some b) → Received s s1 b []) := by
  obtain ⟨s1, h1, hcu, -, -, -, -, hwf1, -, hyes, hno⟩ := getPeerList_notice env now s hwf
  have hsub : List.Sublist (s1.connectedUsers.map Prod.fst) (s.connectedUsers.map Prod.fst) := by
    rw [hcu]
    exact (List.filter_sublist _).map _
  refine ⟨_, s1, h1, ?_, nodup_objectKeys _ hwf1.keys, rfl, sorted_index_keys _, hsub, ?_, ?_,
    ?_, ?_, ?_, hyes, hno⟩
  · intro k
    rw [mem_objectKeys]
    constructor
    · intro hk
      exact lookup_isSome_of_mem_keys _ k hk
    · rintro ⟨b, hb⟩
      exact mem_keys_of_lookup _ k b hb
  · intro hnone
    have hnone1 : ∀ k ∈ s1.connectedUsers.map Prod.fst, arrayIndex k = none :=
      fun k hk => hnone k (hsub.subset hk)
    rw [objectKeys_of_no_index _ hnone1]
    exact ⟨rfl, hsub⟩
  · intro k b hk hlive
    rw [hcu, lookup_swept s now k hwf.keys, hk]
    simp [Option.filter, hlive]
  · intro k b hk hexp
    refine ⟨?_, mem_removedBy s now k b hk hexp⟩
    rw [hcu, lookup_swept s now k hwf.keys, hk]
    simp [Option.filter, hexp]
  · rintro (h | h)
    · exact notice_of_presence_off env s now h
    · exact notice_of_nothing_removed env s now h
  · intro hp hr
    exact notice_of_removed env s now hp hr

/-- C17 (amended), checked on the seventh sample run, at clock 0. -/
theorem getPeerList_result_witness :
    WellFormed sampleShort ∧
      ∃ connected s1, getPeerList shortEnv 0 sampleShort = .ok connected s1 ∧
        (∀ k, k ∈ connected ↔ ∃ b, s1.connectedUsers.lookup k = some b) ∧
        connected.Nodup ∧
        connected
          = ((s1.connectedUsers.map Prod.fst).filter
              (fun k => (arrayIndex k).isSome)).insertionSort indexLE
            ++ (s1.connectedUsers.map Prod.fst).filter (fun k => !(arrayIndex k).isSome) ∧
        (((s1.connectedUsers.map Prod.fst).filter
            (fun k => (arrayIndex k).isSome)).insertionSort indexLE).Sorted indexLE ∧
        List.Sublist (s1.connectedUsers.map Prod.fst) (sampleShort.connectedUsers.map Prod.fst) ∧
        ((∀ k ∈ sampleShort.connectedUsers.map Prod.fst, arrayIndex k = none) →
          connected = s1.connectedUsers.map Prod.fst ∧
          List.Sublist connected (sampleShort.connectedUsers.map Prod.fst)) ∧
        (∀ k b, sampleShort.connectedUsers.lookup k = some b →
          (sampleShort.heap b).timeout.lt 0 = false → s1.connectedUsers.lookup k = some b) ∧
        (∀ k b, sampleShort.connectedUsers.lookup k = some b →
          (sampleShort.heap b).timeout.lt 0 = true →
          s1.connectedUsers.lookup k = none ∧ k ∈ removedBy sampleShort 0) ∧
        ((shortEnv.presence = false ∨ removedBy sampleShort 0 = []) →
          notice shortEnv sampleShort 0 = []) ∧
        (shortEnv.presence = true → removedBy sampleShort 0 ≠ [] →
          notice shortEnv sampleShort 0 = [.disconnect (removedBy sampleShort 0)]) ∧
        (∀ b, (∃ k, s1.connectedUsers.lookup k = some b) →
          Received sampleShort s1 b (notice shortEnv sampleShort 0)) ∧
        (∀ b, (¬ ∃ k, s1.connectedUsers.lookup k = some b) → Received sampleShort s1 b []) :=
  ⟨⟨by decide, by decide, by decide, by decide⟩,
    getPeerList_result shortEnv 0 sampleShort ⟨by decide, by decide, by decide, by decide⟩⟩

/-- C18 (code defect). The close listener of a response object deletes
whatever stream its peer is bound to.  In the third sample run the peer is
bound to the response object 0, then to the response object 1; when the
response object 0 closes the peer has no binding left, and a message sent
to it afterwards goes to its queue, not to the stream 1. -/
theorem close_detaches_newer_stream :
    weakMapGet sampleStreaming.streams 0 = some 0 ∧
      sampleReattached.connectedUsers.lookup "aaaaaaaaaaaaaaaa" = some 0 ∧
      weakMapGet sampleReattached.streams 0 = some 1 ∧
      weakMapGet sampleFirstClosed.streams 0 = none ∧
      streamLog (sendRaw "aaaaaaaaaaaaaaaa" (.raw "m") sampleFirstClosed).state 1
        = streamLog sampleFirstClosed 1 ∧
      ((sendRaw "aaaaaaaaaaaaaaaa" (.raw "m") sampleFirstClosed).state.heap 0).queue
        = [.raw "m"] := by
  decide

/-- C19 (code defect). Two reachable states, at non-decreasing clocks, in
which a peer object is bound and not registered.  In the fourth sample run
(`/connect` at 0, `/events` at 1, `getPeerList` at 10001) the sweep removes
the streaming peer.  In the fifth (`/connect` at 0, `/events` at 10001) the
handler succeeds with presence on, but its own sweep removes the peer
before the stream is bound: the id is neither registered nor in the
presence list `[]` pushed to it. -/
theorem bound_peer_not_registered :
    Reachable sampleEnv sampleSwept ∧
      weakMapGet sampleSwept.streams 0 = some 0 ∧
      sampleSwept.connectedUsers = [] ∧
      Reachable sampleEnv sampleLate.2 ∧
      sampleEnv.presence = true ∧
      sampleLate.1 = .streaming ∧
      weakMapGet sampleLate.2.streams 0 = some 0 ∧
      sampleLate.2.connectedUsers.lookup "aaaaaaaaaaaaaaaa" = none ∧
      streamLog sampleLate.2 0 = [.presence []] :=
  ⟨Reachable.getPeerList _ 10001
      (Reachable.events _ 1 1 0 "aaaaaaaaaaaaaaaa" "secret/aaaaaaaaaaaaaaaa"
        (Reachable.connect _ 0 0 Reachable.initial) (by decide)),
    by decide, by decide,
    Reachable.events _ 10001 10001 0 "aaaaaaaaaaaaaaaa" "secret/aaaaaaaaaaaaaaaa"
      (Reachable.connect _ 0 0 Reachable.initial) (by decide),
    by decide, by decide, by decide, by decide, by decide⟩

/-- C20, as stated, fails when the sweep of `/connect` removes somebody.  In
the sixth sample run the first peer has expired when the second connects at
clock 10001; when `/connect` returns, the queue of the new record holds the
`disconnect` notice of that sweep, and the first `/events` on it replays it. -/
theorem connect_queue_counterexample :
    sampleLateJoin.1 = .credentials "bbbbbbbbbbbbbbbb" "secret/bbbbbbbbbbbbbbbb" ∧
      sampleLateJoin.2.connectedUsers.lookup "bbbbbbbbbbbbbbbb" = some 1 ∧
      (sampleLateJoin.2.heap 1).queue = [.disconnect ["aaaaaaaaaaaaaaaa"]] ∧
      (sampleLateJoin.2.heap 1).queue ≠ [] ∧
      streamLog (events sampleEnv 10002 10002 0 "bbbbbbbbbbbbbbbb" "secret/bbbbbbbbbbbbbbbb"
          sampleLateJoin.2).2 0
        = [.disconnect ["aaaaaaaaaaaaaaaa"], .presence ["bbbbbbbbbbbbbbbb"]] := by
  decide

/-- C20 (amended). When `/connect` returns in a reachable state, the queue
of the record it stored is empty if presence is off, if its sweep removed
nobody, or if the record itself was removed by that sweep; otherwise it
holds exactly one message, the `{ disconnect: removed }` notice of that
sweep.  The first `/events` on the record, with the key returned and a new
response object, succeeds and replays exactly that queue before the
presence list. -/
theorem connect_queue (env : Env) (now1 now2 : Int) (s : State) (hs : Reachable env s) :
    ∃ s1, connect env now1 now2 s = (.credentials (issuedId env s) (issuedKey env s), s1) ∧
      (env.presence = false → (s1.heap s.next).queue = []) ∧
      (removedBy (registered env now1 s) now2 = [] → (s1.heap s.next).queue = []) ∧
      (s1.connectedUsers.lookup (issuedId env s) ≠ some s.next → (s1.heap s.next).queue = []) ∧
      (env.presence = true → removedBy (registered env now1 s) now2 ≠ [] →
        s1.connectedUsers.lookup (issuedId env s) = some s.next →
        (s1.heap s.next).queue = [.disconnect (removedBy (registered env now1 s) now2)]) ∧
      (∀ (now3 now4 : Int) (res : Chan), res ∉ s1.closeHandlers.map Prod.fst →
        s1.connectedUsers.lookup (issuedId env s) = some s.next →
        ∃ s2, events env now3 now4 res (issuedId env s) (issuedKey env s) s1 = (.streaming, s2) ∧
          streamLog s2 res = streamLog s1 res ++ (s1.heap s.next).queue
            ++ (if env.presence = true then [.presence (objectKeys s2.connectedUsers)]
              else [])) := by
  have hi := Reachable.invariant env s hs
  have hc := Reachable.consistent env s hs
  have hkey0 : ((registered env now1 s).heap s.next).key = issuedKey env s := by
    simp [registered]
  have hq0 : ((registered env now1 s).heap s.next).queue = [] := by
    simp [registered]
  have hfirst : ∀ s1, connect env now1 now2 s
        = (.credentials (issuedId env s) (issuedKey env s), s1) →
      weakMapGet s1.streams s.next = none → (s1.heap s.next).key = issuedKey env s →
      ∀ (now3 now4 : Int) (res : Chan), res ∉ s1.closeHandlers.map Prod.fst →
        s1.connectedUsers.lookup (issuedId env s) = some s.next →
        ∃ s2, events env now3 now4 res (issuedId env s) (issuedKey env s) s1 = (.streaming, s2) ∧
          streamLog s2 res = streamLog s1 res ++ (s1.heap s.next).queue
            ++ (if env.presence = true then [.presence (objectKeys s2.connectedUsers)]
              else []) := by
    intro s1 h1 hstreams hkey now3 now4 res hres hk
    have hs1 : Reachable env s1 := by
      have := Reachable.connect s now1 now2 hs
      rw [h1] at this
      exact this
    have hi1 := Reachable.invariant env s1 hs1
    obtain ⟨s2, h2, hlog, -, -⟩ := events_replays_queue env now3 now4 res (issuedId env s) s1
      s.next hi1.wellFormed hk hstreams (not_mem_channels s1 hi1 res hres)
    rw [hkey] at h2
    exact ⟨s2, h2, hlog⟩
  by_cases hp : env.presence = true
  · obtain ⟨s1, h1, -, hst, -, -, hf, -, hself, hgone, -⟩ :=
      connect_presence env now1 now2 s hi hc hp
    have hstreams : weakMapGet s1.streams s.next = none := by
      rw [hst]
      exact weakMapGet_eq_none_of_allocated s hc
    refine ⟨s1, h1, ?_, ?_, hgone, ?_,
      hfirst s1 h1 hstreams ((hf s.next).2.1.trans hkey0)⟩
    · intro hoff
      rw [hp] at hoff
      cases hoff
    · intro hr
      by_cases hk : s1.connectedUsers.lookup (issuedId env s) = some s.next
      · rw [hself hk, notice_of_nothing_removed env _ now2 hr]
      · exact hgone hk
    · intro _ hr hk
      rw [hself hk, notice_of_removed env _ now2 hp hr]
  · have hp' : env.presence = false := by simpa using hp
    have h1 := connect_quiet env now1 now2 s hp'
    refine ⟨registered env now1 s, h1, fun _ => hq0, fun _ => hq0, fun _ => hq0, ?_,
      hfirst _ h1 (weakMapGet_eq_none_of_allocated s hc) hkey0⟩
    intro hon
    exact absurd hon hp

/-- C20 (amended), checked on the first sample run: a second peer connects at clock 10001. -/
theorem connect_queue_witness :
    Reachable sampleEnv sampleConnected ∧
      ∃ s1, connect sampleEnv 10001 10001 sampleConnected
          = (.credentials (issuedId sampleEnv sampleConnected)
              (issuedKey sampleEnv sampleConnected), s1) ∧
        (sampleEnv.presence = false → (s1.heap sampleConnected.next).queue = []) ∧
        (removedBy (registered sampleEnv 10001 sampleConnected) 10001 = [] →
          (s1.heap sampleConnected.next).queue = []) ∧
        (s1.connectedUsers.lookup (issuedId sampleEnv sampleConnected)
            ≠ some sampleConnected.next →
          (s1.heap sampleConnected.next).queue = []) ∧
        (sampleEnv.presence = true →
          removedBy (registered sampleEnv 10001 sampleConnected) 10001 ≠ [] →
          s1.connectedUsers.lookup (issuedId sampleEnv sampleConnected)
            = some sampleConnected.next →
          (s1.heap sampleConnected.next).queue
            = [.disconnect (removedBy (registered sampleEnv 10001 sampleConnected) 10001)]) ∧
        (∀ (now3 now4 : Int) (res : Chan), res ∉ s1.closeHandlers.map Prod.fst →
          s1.connectedUsers.lookup (issuedId sampleEnv sampleConnected)
            = some sampleConnected.next →
          ∃ s2, events sampleEnv now3 now4 res (issuedId sampleEnv sampleConnected)
              (issuedKey sampleEnv sampleConnected) s1 = (.streaming, s2) ∧
            streamLog s2 res = streamLog s1 res ++ (s1.heap sampleConnected.next).queue
              ++ (if sampleEnv.presence = true then [.presence (objectKeys s2.connectedUsers)]
                else [])) :=
  ⟨Reachable.connect _ 0 0 Reachable.initial,
    connect_queue sampleEnv 10001 10001 sampleConnected
      (Reachable.connect _ 0 0 Reachable.initial)⟩

end Signalling
